import Mathlib

/-!
Verification of the bracket tournament controller (`server/bracket-manager.ts`)
and the rating store (the ladder library) of the repository, as a shallow
embedding in Lean 4.

Conventions used throughout:
* TypeScript strings are Lean `String`s; the empty string plays the role of
  the falsy empty `ID`.
* JavaScript `Map` objects are embedded as association lists with JS `Map`
  semantics (`set` overwrites in place or appends, `delete` removes, `get`
  returns an `Option`); insertion order is preserved exactly as `Map` does.
* The source mutates `BracketMatch` objects that are shared between the
  `matches` array and the `playerMatches` map.  The embedding de-aliases
  this: `playerMatches` stores the `matchId` of the shared object and the
  single authoritative copy lives in `matches`.  `lookupMatch` re-resolves
  the alias, and every in-place mutation becomes a rewrite of the entry of
  `matches` carrying that `matchId`.
* Floating point arithmetic of the rating formulas is embedded over `ℝ`
  (idealised, IEEE rounding out of scope); every comparison and every piece
  of control flow is carried over exactly.
-/

/-- Modelled from the spec: the identity canonicaliser `toID` (imported by the
sources from `sim/dex`, which is not part of the repository snapshot):
lowercase the display name and strip every character that is not a lowercase
letter or digit. -/
def toID (s : String) : String :=
  String.mk ((s.data.map Char.toLower).filter fun c => c.isLower || c.isDigit)

/-- JS `Map.get`: the value stored at key `k`, if any. -/
def mapGet {α : Type} (m : List (String × α)) (k : String) : Option α :=
  match m with
  | [] => none
  | p :: t => if p.1 = k then some p.2 else mapGet t k

/-- JS `Map.set`: overwrite the entry for `k` in place if present, else append. -/
def mapSet {α : Type} (m : List (String × α)) (k : String) (v : α) : List (String × α) :=
  if m.any fun p => p.1 = k then
    m.map fun p => if p.1 = k then (k, v) else p
  else m ++ [(k, v)]

/-- JS `Map.delete`: drop the entry for `k`. -/
def mapDelete {α : Type} (m : List (String × α)) (k : String) : List (String × α) :=
  m.filter fun p => p.1 ≠ k

/-- `BracketMatch.status`. -/
inductive MatchStatus where
  | pending
  | waiting
  | active
  | complete
deriving DecidableEq

/-- One bracket match (`interface BracketMatch`).  The optional `startTime`
field is omitted: the source declares it but never assigns or reads it. -/
structure BracketMatch where
  round : Nat
  matchId : Nat
  player1 : String
  player2 : String
  player1Display : String
  player2Display : String
  p1wins : Nat
  p2wins : Nat
  status : MatchStatus
  winner : Option String
  winnerDisplay : Option String
deriving DecidableEq

/-- The controller state (`interface BracketState`).  `playerMatches` maps a
userid to the `matchId` of its current match (see the de-aliasing note above). -/
structure BracketState where
  format : String
  participants : Nat
  bestOf : Nat
  currentRound : Nat
  matchList : List BracketMatch
  playerMatches : List (String × Nat)
  displayNames : List (String × String)
  initialized : Bool
  frozen : Bool
deriving DecidableEq

/-- The constructor's fresh state. -/
def initialBracketState : BracketState :=
  { format := "", participants := 0, bestOf := 0, currentRound := 0, matchList := [],
    playerMatches := [], displayNames := [], initialized := false, frozen := false }

/-- Resolve `this.state.playerMatches.get(u)` to the authoritative copy of the
match inside `matches`. -/
def lookupMatch (s : BracketState) (u : String) : Option BracketMatch :=
  (mapGet s.playerMatches u).bind fun mid => s.matchList.find? fun m => m.matchId = mid

/-- Rewrite the entry of `matches` whose `matchId` is `mid` (the functional
counterpart of mutating the shared match object in place). -/
def updateMatch (ms : List BracketMatch) (mid : Nat) (m' : BracketMatch) :
    List BracketMatch :=
  ms.map fun m => if m.matchId = mid then m' else m

/-- `isPowerOfTwo(n)`: `n > 0 && (n & (n - 1)) === 0`. -/
def isPowerOfTwo (n : Nat) : Bool :=
  decide (0 < n) && decide (n &&& (n - 1) = 0)

/-- Fuel-based totalisation of the `buildBracketSeeds` recursion (structural,
so that concrete instances evaluate in the kernel).  The fuel only pads the
recursion depth: `buildBracketSeedsAux_fuel` below shows any fuel `≥ n`
gives the same answer. -/
def buildBracketSeedsAux : Nat → Nat → List Nat
  | _, 0 => [1, 2]
  | n, fuel + 1 =>
    if n ≤ 2 then [1, 2]
    else (buildBracketSeedsAux (n / 2) fuel).flatMap fun s => [s, n + 1 - s]

/-- `buildBracketSeeds(numPlayers)`.  The source recursion bottoms out at
`numPlayers === 2` and only ever runs on powers of two `≥ 2`, on which the
fuel `numPlayers` is more than enough; on that domain this agrees with the
source. -/
def buildBracketSeeds (numPlayers : Nat) : List Nat :=
  buildBracketSeedsAux numPlayers numPlayers

/-- Fuel-based totalisation of `Math.log2` on naturals (floor of log₂,
exact on the power-of-two inputs the source uses). -/
def jsLog2Aux : Nat → Nat → Nat
  | _, 0 => 0
  | n, fuel + 1 => if 2 ≤ n then jsLog2Aux (n / 2) fuel + 1 else 0

/-- `Math.log2(numPlayers)` as used by `initialize` (always a power of two). -/
def jsLog2 (n : Nat) : Nat :=
  jsLog2Aux n n

/-- `generateStandardPairings(numPlayers)`: pair consecutive entries of the
seed order.  Out-of-range accesses (which never happen on powers of two)
default to `0` in place of JS `undefined`. -/
def generateStandardPairings (numPlayers : Nat) : List (Nat × Nat) :=
  let seeds := buildBracketSeeds numPlayers
  (List.range (numPlayers / 2)).map fun i => (seeds.getD (2 * i) 0, seeds.getD (2 * i + 1) 0)

/-- The round-1 matches built by `initialize` from the standard pairings. -/
def round1Matches (seededPlayers : List String) : List BracketMatch :=
  let standardPairings := generateStandardPairings seededPlayers.length
  (List.range (seededPlayers.length / 2)).map fun i =>
    let pr := standardPairings.getD i (0, 0)
    let p1Name := seededPlayers.getD (pr.1 - 1) ""
    let p2Name := seededPlayers.getD (pr.2 - 1) ""
    { round := 1, matchId := i + 1, player1 := toID p1Name, player2 := toID p2Name,
      player1Display := p1Name, player2Display := p2Name, p1wins := 0, p2wins := 0,
      status := MatchStatus.active, winner := none, winnerDisplay := none }

/-- A placeholder match of a later round. -/
def pendingMatch (round mid : Nat) : BracketMatch :=
  { round := round, matchId := mid, player1 := "", player2 := "",
    player1Display := "", player2Display := "", p1wins := 0, p2wins := 0,
    status := MatchStatus.pending, winner := none, winnerDisplay := none }

/-- The placeholder matches for rounds `2 .. log₂(numPlayers)`, with
`matchId`s continuing after the round-1 matches. -/
def placeholderMatches (numPlayers : Nat) : List BracketMatch :=
  let totalRounds := jsLog2 numPlayers
  let numMatches := numPlayers / 2
  ((List.range' 2 (totalRounds - 1)).flatMap fun round =>
    (List.range (2 ^ (totalRounds - round))).map fun i => (round, i)).enum.map
      fun p => pendingMatch p.2.1 (numMatches + 1 + p.1)

/-- `initialize(format, players, bestOf, randomize)`.  The Fisher-Yates
shuffle draws from `Math.random`; it is abstracted by the `shuffleOracle`
argument, used only when `randomize` is set.  The call throws (here:
`Except.error`) exactly when the guards of the source throw; `frozen` is not
touched by `initialize`. -/
def initializeBracket (s : BracketState) (format : String) (players : List String)
    (bestOf : Nat) (randomize : Bool) (shuffleOracle : List String → List String) :
    Except String BracketState :=
  if s.initialized then
    Except.error "Bracket already initialized. Use /resetbracket to start over."
  else
    let numPlayers := players.length
    if numPlayers < 2 ∨ ¬ isPowerOfTwo numPlayers then
      Except.error "Number of players must be a power of 2 (2, 4, 8, 16, 32, etc.)."
    else
      let seededPlayers := if randomize then shuffleOracle players else players
      let displayNames := seededPlayers.foldl (fun m p => mapSet m (toID p) p) []
      let r1 := round1Matches seededPlayers
      let playerMatches := r1.foldl
        (fun m mt => mapSet (mapSet m mt.player1 mt.matchId) mt.player2 mt.matchId) []
      Except.ok
        { format := format, participants := numPlayers, bestOf := bestOf,
          currentRound := 1, matchList := r1 ++ placeholderMatches numPlayers,
          playerMatches := playerMatches, displayNames := displayNames,
          initialized := true, frozen := s.frozen }

/-- `Math.min` over the `matchId`s of a list of matches (`none` for the empty
list, where JS would produce `Infinity` and the callers bail out). -/
def minMatchId? (ms : List BracketMatch) : Option Nat :=
  (ms.map fun m => m.matchId).min?

/-- The tail of `advanceWinner` after the winner was written into a slot of
`nextMatch`: activate or mark waiting, update `playerMatches` and
`currentRound`. -/
def finishNextMatch (s : BracketState) (nm : BracketMatch) (nextRound : Nat) :
    BracketState :=
  if nm.player1 ≠ "" ∧ nm.player2 ≠ "" then
    let nm' := { nm with status := MatchStatus.active }
    { s with matchList := updateMatch s.matchList nm'.matchId nm',
             playerMatches :=
               mapSet (mapSet s.playerMatches nm'.player1 nm'.matchId) nm'.player2 nm'.matchId,
             currentRound := if s.currentRound < nextRound then nextRound else s.currentRound }
  else
    let nm' := { nm with status := MatchStatus.waiting }
    { s with matchList := updateMatch s.matchList nm'.matchId nm' }

/-- `advanceWinner(completedMatch)`. -/
def advanceWinner (s : BracketState) (cm : BracketMatch) : BracketState :=
  let winner := cm.winner.getD ""
  let nextRound := cm.round + 1
  let nextRoundMatches := s.matchList.filter fun m => m.round = nextRound
  if nextRoundMatches.isEmpty then s
  else if s.frozen then s
  else
    let currentRoundMatches := s.matchList.filter fun m => m.round = cm.round
    match minMatchId? currentRoundMatches with
    | none => s
    | some firstMatchOfRound =>
      let nextMatchIndex := (cm.matchId - firstMatchOfRound) / 2
      match nextRoundMatches.get? nextMatchIndex with
      | none => s
      | some nextMatch =>
        let winnerDisplay := (mapGet s.displayNames winner).getD winner
        if nextMatch.player1 = "" then
          finishNextMatch s
            { nextMatch with player1 := winner, player1Display := winnerDisplay } nextRound
        else if nextMatch.player2 = "" then
          finishNextMatch s
            { nextMatch with player2 := winner, player2Display := winnerDisplay } nextRound
        else s

/-- `recordWin(winner, loser)`. -/
def recordWin (s : BracketState) (winner loser : String) : BracketState :=
  match lookupMatch s winner with
  | none => s
  | some m =>
    if ¬ ((m.player1 = winner ∧ m.player2 = loser) ∨
          (m.player2 = winner ∧ m.player1 = loser)) then s
    else
      let m1 := if m.player1 = winner
        then { m with p1wins := m.p1wins + 1 }
        else { m with p2wins := m.p2wins + 1 }
      let winsNeeded := s.bestOf / 2 + 1
      if winsNeeded ≤ m1.p1wins ∨ winsNeeded ≤ m1.p2wins then
        let m2 := { m1 with
          winner := some (if winsNeeded ≤ m1.p1wins then m1.player1 else m1.player2),
          winnerDisplay :=
            some (if winsNeeded ≤ m1.p1wins then m1.player1Display else m1.player2Display),
          status := MatchStatus.complete }
        let s1 := { s with
          matchList := updateMatch s.matchList m.matchId m2,
          playerMatches := mapDelete (mapDelete s.playerMatches m2.player1) m2.player2 }
        advanceWinner s1 m2
      else
        { s with matchList := updateMatch s.matchList m.matchId m1 }

/-- `getEarliestIncompleteRound()`. -/
def getEarliestIncompleteRound (s : BracketState) : Nat :=
  match ((s.matchList.filter fun m =>
      m.status = MatchStatus.active ∨ m.status = MatchStatus.waiting).map
        fun m => m.round).min? with
  | none => s.currentRound
  | some r => r

/-- `canMatch(userid1, userid2)`. -/
def canMatch (s : BracketState) (userid1 userid2 : String) : Bool :=
  if ¬ s.initialized then false
  else
    match lookupMatch s userid1 with
    | none => false
    | some m =>
      if m.status ≠ MatchStatus.active then false
      else if s.frozen ∧ m.round ≠ getEarliestIncompleteRound s then false
      else decide ((m.player1 = userid1 ∧ m.player2 = userid2) ∨
                   (m.player2 = userid1 ∧ m.player1 = userid2))

/-- `freeze()`. -/
def freeze (s : BracketState) : Except String BracketState :=
  if ¬ s.initialized then Except.error "No bracket currently active"
  else if s.frozen then Except.error "Tournament is already frozen"
  else Except.ok { s with frozen := true }

/-- `Math.max` over the rounds of `matches`, defaulting to 1 (`resume` and
`getStatus` both use this shape). -/
def maxRoundOf (s : BracketState) : Nat :=
  match (s.matchList.map fun m => m.round).max? with
  | none => 1
  | some r => r

/-- One iteration of the advancement loop of `resume()` for a completed match
`m`: skip if the winner is already placed in its next-round match, otherwise
advance by the normal rule. -/
def resumeStep (s : BracketState) (m : BracketMatch) : BracketState :=
  let nextRound := m.round + 1
  let nextRoundMatches := s.matchList.filter fun mm => mm.round = nextRound
  if nextRoundMatches.isEmpty then s
  else
    let currentRoundMatches := s.matchList.filter fun mm => mm.round = m.round
    match minMatchId? currentRoundMatches with
    | none => s
    | some firstMatchOfRound =>
      let nextMatchIndex := (m.matchId - firstMatchOfRound) / 2
      match nextRoundMatches.get? nextMatchIndex with
      | none => s
      | some nextMatch =>
        if nextMatch.player1 = m.winner.getD "" ∨ nextMatch.player2 = m.winner.getD "" then s
        else if m.winner = none then s
        else advanceWinner s m

/-- `resume()`: clear `frozen`, then advance every completed non-final match
whose winner was blocked, in the order the matches appear in `matches`. -/
def resume (s : BracketState) : Except String BracketState :=
  if ¬ s.initialized then Except.error "No bracket currently active"
  else if ¬ s.frozen then Except.error "Tournament is not frozen"
  else
    let s0 := { s with frozen := false }
    let maxRound := maxRoundOf s0
    let completedMatches := s0.matchList.filter fun m =>
      m.status = MatchStatus.complete ∧ m.winner ≠ none ∧ m.round < maxRound
    Except.ok (completedMatches.foldl resumeStep s0)

/-- Concrete two-player fixture (used by witnesses): one active round-1
match between `a` and `b`. -/
def bracket2W : BracketState :=
  { format := "f", participants := 2, bestOf := 3, currentRound := 1,
    matchList :=
      [{ round := 1, matchId := 1, player1 := "a", player2 := "b",
         player1Display := "A", player2Display := "B", p1wins := 0, p2wins := 0,
         status := MatchStatus.active, winner := none, winnerDisplay := none }],
    playerMatches := [("a", 1), ("b", 1)],
    displayNames := [("a", "A"), ("b", "B")],
    initialized := true, frozen := false }

/-- Concrete frozen four-player fixture (used by witnesses): match 1 is
complete but its winner has not been advanced, match 2 still active. -/
def bracket4F : BracketState :=
  { format := "f", participants := 4, bestOf := 1, currentRound := 1,
    matchList :=
      [{ round := 1, matchId := 1, player1 := "a", player2 := "d",
         player1Display := "A", player2Display := "D", p1wins := 1, p2wins := 0,
         status := MatchStatus.complete, winner := some "a",
         winnerDisplay := some "A" },
       { round := 1, matchId := 2, player1 := "b", player2 := "c",
         player1Display := "B", player2Display := "C", p1wins := 0, p2wins := 0,
         status := MatchStatus.active, winner := none, winnerDisplay := none },
       { round := 2, matchId := 3, player1 := "", player2 := "",
         player1Display := "", player2Display := "", p1wins := 0, p2wins := 0,
         status := MatchStatus.pending, winner := none, winnerDisplay := none }],
    playerMatches := [("b", 2), ("c", 2)],
    displayNames := [("a", "A"), ("b", "B"), ("c", "C"), ("d", "D")],
    initialized := true, frozen := true }

/-! ## Rating store (the ladder library)

The numeric formulas run on IEEE doubles in the source; they are embedded
over `ℝ` (idealised arithmetic).  Scores are exact in every code path the
battle engine produces (`0`, `0.5`, `1`, or a negative marker), so the score
parameter is a rational; the literals `0.6`/`0.4` of the win/loss thresholds
are carried as `3/5`/`2/5`, which classifies those scores identically.  The
per-row `h2h` JSON blob is embedded structurally as an association list
(`JSON.parse`/`JSON.stringify` round-tripping is not modelled; its failure
branch is unreachable in this embedding).  The ladder itself is the list of
rows; the `room` display, `save()` call and the per-user `mmrCache` are
side effects outside the data model. -/

/-- One ladder row (`LadderRow` tuple), as a named record. -/
structure LadderRow where
  userid : String
  elo : ℝ
  username : String
  w : Nat
  l : Nat
  t : Nat
  glicko : ℝ
  rd : ℝ
  /-- the gxe cell holds a number or the string "Unknown" -/
  gxeUnknown : Bool
  gxeValue : ℝ
  games : Nat
  lastUpdate : String
  h2h : List (String × (Nat × Nat × Nat))

/-- The row pushed by `indexOfUser` for a previously absent player:
`[userid, 1000, username, 0, 0, 0, 1500, 130, 50, 0, now, "{}"]` —
note the numeric `50` in the gxe cell. -/
def seedRow (username : String) (now : String) : LadderRow :=
  { userid := toID username, elo := 1000, username := username, w := 0, l := 0,
    t := 0, glicko := 1500, rd := 130, gxeUnknown := false, gxeValue := 50,
    games := 0, lastUpdate := now, h2h := [] }

/-- `Math.round`: round half away from zero is `⌊x + 1/2⌋` for the
non-negative values that reach it here. -/
noncomputable def jsRound (x : ℝ) : ℝ :=
  (round x : ℤ)

/-- `calculateElo(oldElo, score, foeElo, games)`. -/
noncomputable def calculateElo (oldElo : ℝ) (score : ℚ) (foeElo : ℝ)
    (games : Nat) : ℝ :=
  let K1 : ℝ := if games < 20 then 32 else if games < 50 then 24 else 16
  let K2 : ℝ :=
    if oldElo < 1100 then min (K1 + 8) 32
    else if 1600 < oldElo then max (K1 - 4) 12
    else K1
  let ratingDiff := |oldElo - foeElo|
  let K3 : ℝ :=
    if 200 < ratingDiff then
      let lowerRated := min oldElo foeElo
      if oldElo = lowerRated ∧ (1 / 2 : ℚ) < score then K2 * 1.1
      else if oldElo ≠ lowerRated ∧ score < (1 / 2 : ℚ) then K2 * 1.05
      else K2
    else K2
  let E := 1 / (1 + (10 : ℝ) ^ ((foeElo - oldElo) / 400))
  max (oldElo + K3 * ((score : ℝ) - E)) 1000

/-- The effective K factor of `calculateElo` (the `K` after the
games/rating/underdog adjustments), split out for sign reasoning. -/
noncomputable def eloKFactor (oldElo : ℝ) (score : ℚ) (foeElo : ℝ)
    (games : Nat) : ℝ :=
  let K1 : ℝ := if games < 20 then 32 else if games < 50 then 24 else 16
  let K2 : ℝ :=
    if oldElo < 1100 then min (K1 + 8) 32
    else if 1600 < oldElo then max (K1 - 4) 12
    else K1
  let ratingDiff := |oldElo - foeElo|
  if 200 < ratingDiff then
    let lowerRated := min oldElo foeElo
    if oldElo = lowerRated ∧ (1 / 2 : ℚ) < score then K2 * 1.1
    else if oldElo ≠ lowerRated ∧ score < (1 / 2 : ℚ) then K2 * 1.05
    else K2
  else K2

/-- `calculateGlicko(rating, rd, opponentRating, opponentRd, score)`,
returning `(new rating, new deviation)` each rounded to one decimal. -/
noncomputable def calculateGlicko (rating rd opponentRating opponentRd : ℝ)
    (score : ℚ) : ℝ × ℝ :=
  let q := Real.log 10 / 400
  let g := fun deviation : ℝ =>
    1 / Real.sqrt (1 + 3 * (q * deviation) ^ 2 / Real.pi ^ 2)
  let E := 1 / (1 + (10 : ℝ) ^ (-(g opponentRd) * (rating - opponentRating) / 400))
  let dSquared := 1 / (q ^ 2 * g opponentRd ^ 2 * E * (1 - E))
  let newRating := rating + q / (1 / rd ^ 2 + 1 / dSquared) * g opponentRd * ((score : ℝ) - E)
  let newRd := Real.sqrt (1 / (1 / rd ^ 2 + 1 / dSquared))
  let finalRd := max 10 (min 350 newRd)
  (jsRound (newRating * 10) / 10, jsRound (finalRd * 10) / 10)

/-- `calculateGXE(rating, rd)`: the `(gxeUnknown, gxeValue)` pair written to
the row; `gxeUnknown` is the "Unknown" sentinel string. -/
noncomputable def calculateGXE (rating rd : ℝ) : Bool × ℝ :=
  if 100 < rd then (true, 0)
  else
    let pi := Real.pi
    let ln10 := Real.log 10
    let numerator := (1500 - rating) * pi
    let denominator :=
      Real.sqrt (3 * ln10 ^ 2 * rd ^ 2 + 2500 * (64 * pi ^ 2 + 147 * ln10 ^ 2))
    let exponent := numerator / denominator
    let glixare := 10000 / (1 + (10 : ℝ) ^ exponent)
    (false, jsRound glixare / 100)

/-- `updateRow(row, score, foeElo, foeGlicko, foeRd)`; `now` stands for
`new Date().toString()`. -/
noncomputable def updateRow (row : LadderRow) (score : ℚ)
    (foeElo foeGlicko foeRd : ℝ) (now : String) : LadderRow :=
  let newElo := calculateElo row.elo score foeElo row.games
  let gl := calculateGlicko row.glicko row.rd foeGlicko foeRd score
  let games := row.games + 1
  let gxe := calculateGXE gl.1 gl.2
  let row1 :=
    { row with elo := newElo, glicko := gl.1, rd := gl.2,
               gxeUnknown := gxe.1, gxeValue := gxe.2, games := games }
  let row2 :=
    if (3 / 5 : ℚ) < score then { row1 with w := row1.w + 1 }
    else if score < (2 / 5 : ℚ) then { row1 with l := row1.l + 1 }
    else { row1 with t := row1.t + 1 }
  { row2 with lastUpdate := now }

/-- `updateH2H(playerRow, opponentId, result)` with the JSON blob embedded
structurally; `result` is `'win' | 'loss' | 'tie'`. -/
inductive H2HResult where
  | win
  | loss
  | tie
deriving DecidableEq

def updateH2H (row : LadderRow) (opponentId : String) (result : H2HResult) :
    LadderRow :=
  let cur := (mapGet row.h2h opponentId).getD (0, 0, 0)
  let upd :=
    match result with
    | H2HResult.win => (cur.1 + 1, cur.2.1, cur.2.2)
    | H2HResult.loss => (cur.1, cur.2.1 + 1, cur.2.2)
    | H2HResult.tie => (cur.1, cur.2.1, cur.2.2 + 1)
  { row with h2h := mapSet row.h2h opponentId upd }

/-- The `while (newIndex > 0 && ladder[newIndex-1][1] <= elo) newIndex--`
scan, by recursion on the index. -/
noncomputable def ladderLeftScan (lad : List LadderRow) (v : ℝ) : Nat → Nat
  | 0 => 0
  | i + 1 =>
    match lad.get? i with
    | some r => if r.elo ≤ v then ladderLeftScan lad v i else i + 1
    | none => i + 1

/-- The `while (newIndex === pIdx || (ladder[newIndex] &&
ladder[newIndex][1] > elo)) newIndex++` scan; the fuel only pads the
recursion depth (the callers pass `length + 1`, which always suffices). -/
noncomputable def ladderRightScan (lad : List LadderRow) (pIdx : Nat) (v : ℝ) :
    Nat → Nat → Nat
  | i, 0 => i
  | i, fuel + 1 =>
    if i = pIdx then ladderRightScan lad pIdx v (i + 1) fuel
    else
      match lad.get? i with
      | some r => if v < r.elo then ladderRightScan lad pIdx v (i + 1) fuel else i
      | none => i

/-- One `splice`-out/`splice`-in block of `updateRating`: move the row at
`idx` to its scanned position `v`-wise and keep the other player's index
(`track`) in step, exactly as the source adjusts `p2index`. -/
noncomputable def moveRowTrack (lad : List LadderRow) (idx track : Nat) (v : ℝ) :
    List LadderRow × Nat :=
  let ni := ladderRightScan lad idx v (ladderLeftScan lad v idx) (lad.length + 1)
  if ni ≠ idx ∧ ni ≠ idx + 1 then
    match lad.get? idx with
    | none => (lad, track)
    | some row =>
      let lad1 := lad.eraseIdx idx
      let ni1 := if idx < ni then ni - 1 else ni
      let track1 := if idx < track then track - 1 else track
      let lad2 := lad1.insertIdx ni1 row
      let track2 := if ni1 ≤ track1 then track1 + 1 else track1
      (lad2, track2)
  else (lad, track)

/-- The re-sorting phase at the end of `updateRating`: move `p1`, adjusting
`p2`'s index, then move `p2`. -/
noncomputable def updateRatingMove (lad : List LadderRow) (p1index p2index : Nat) :
    List LadderRow :=
  let p1newElo := ((lad.get? p1index).map (fun r => r.elo)).getD 0
  let p2newElo := ((lad.get? p2index).map (fun r => r.elo)).getD 0
  let st := moveRowTrack lad p1index p2index p1newElo
  (moveRowTrack st.1 st.2 0 p2newElo).1

/-- `indexOfUser(name, true)`: the index of the user's row, appending a
seeded row when absent. -/
def indexOfUserCreate (ladder : List LadderRow) (name : String) (now : String) :
    List LadderRow × Nat :=
  match ladder.findIdx? (fun r => r.userid = toID name) with
  | some i => (ladder, i)
  | none => (ladder ++ [seedRow name now], ladder.length)

/-- `updateRating(p1name, p2name, p1score, room)` as a transition on the
ladder sequence.  `disabled` is the external `Ladders.disabled` flag; the
`room` output, `save()` and `mmrCache` writes are side effects with no
bearing on the ladder rows. -/
noncomputable def updateRating (disabled : Bool) (ladder : List LadderRow)
    (p1name p2name : String) (p1score0 : ℚ) (now : String) : List LadderRow :=
  if disabled then ladder
  else
    let p2score0 := 1 - p1score0
    let p1score := if p1score0 < 0 then 0 else p1score0
    let p2score := if p1score0 < 0 then 0 else p2score0
    let st1 := indexOfUserCreate ladder p1name now
    let lad1 := st1.1
    let p1index := st1.2
    let row1 := (lad1.get? p1index).getD (seedRow p1name now)
    let p1elo := row1.elo
    let p1glicko := row1.glicko
    let p1rd := row1.rd
    let st2 := indexOfUserCreate lad1 p2name now
    let lad2 := st2.1
    let p2index := st2.2
    let row2 := (lad2.get? p2index).getD (seedRow p2name now)
    let p2elo := row2.elo
    let p2glicko := row2.glicko
    let p2rd := row2.rd
    let lad3 := lad2.set p1index
      (updateRow ((lad2.get? p1index).getD row1) p1score p2elo p2glicko p2rd now)
    let lad4 := lad3.set p2index
      (updateRow ((lad3.get? p2index).getD row2) p2score p1elo p1glicko p1rd now)
    let p1id := toID p1name
    let p2id := toID p2name
    let lad5 :=
      if (3 / 5 : ℚ) < p1score then
        let l5 := lad4.set p1index
          (updateH2H ((lad4.get? p1index).getD row1) p2id H2HResult.win)
        l5.set p2index (updateH2H ((l5.get? p2index).getD row2) p1id H2HResult.loss)
      else if p1score < (2 / 5 : ℚ) then
        let l5 := lad4.set p1index
          (updateH2H ((lad4.get? p1index).getD row1) p2id H2HResult.loss)
        l5.set p2index (updateH2H ((l5.get? p2index).getD row2) p1id H2HResult.win)
      else
        let l5 := lad4.set p1index
          (updateH2H ((lad4.get? p1index).getD row1) p2id H2HResult.tie)
        l5.set p2index (updateH2H ((l5.get? p2index).getD row2) p1id H2HResult.tie)
    updateRatingMove lad5 p1index p2index

/-- Sorted by `elo` non-increasing. -/
def ladderSortedDesc (lad : List LadderRow) : Prop :=
  List.Pairwise (fun a b => b.elo ≤ a.elo) lad

/-- Total wins over all rows of a ladder. -/
def sumW (lad : List LadderRow) : Nat :=
  (lad.map fun r => r.w).sum

/-- Total losses over all rows of a ladder. -/
def sumL (lad : List LadderRow) : Nat :=
  (lad.map fun r => r.l).sum

/-- A sequence of `updateRating` calls applied to an initially empty ladder
(each op is `(p1name, p2name, p1score)`). -/
noncomputable def runUpdates (ops : List (String × String × ℚ)) : List LadderRow :=
  ops.foldl (fun lad op => updateRating false lad op.1 op.2.1 op.2.2 "") []

/-! ### CSV persistence (`saveToCSV` / `loadFromCSV`) -/

/-- Whitespace test backing JS `String.prototype.trim`. -/
def isSpaceChar (c : Char) : Bool :=
  c = ' ' || c = '\t' || c = '\n' || c = '\r'

/-- JS `String.prototype.trim`. -/
def trimChars (l : List Char) : List Char :=
  ((l.dropWhile isSpaceChar).reverse.dropWhile isSpaceChar).reverse

/-- `String.prototype.split(sep)` for a one-character separator (keeps
empty pieces, as JS does). -/
def splitOnAux (sep : Char) : List Char → List Char → List (List Char)
  | [], acc => [acc.reverse]
  | c :: cs, acc =>
    if c = sep then acc.reverse :: splitOnAux sep cs []
    else splitOnAux sep cs (c :: acc)

def splitOnChar (sep : Char) (l : List Char) : List (List Char) :=
  splitOnAux sep l []

/-- `Array.prototype.join(sep)` for a one-character separator. -/
def joinSep (sep : Char) : List (List Char) → List Char
  | [] => []
  | [x] => x
  | x :: y :: ys => x ++ sep :: joinSep sep (y :: ys)

/-- Decimal digits of a `Nat` (the `${n}` template interpolation); fuel
keeps the recursion structural. -/
def natToCharsAux : Nat → Nat → List Char → List Char
  | 0, _, acc => acc
  | fuel + 1, n, acc =>
    if n < 10 then Char.ofNat (48 + n) :: acc
    else natToCharsAux fuel (n / 10) (Char.ofNat (48 + n % 10) :: acc)

def natToChars (n : Nat) : List Char :=
  natToCharsAux (n + 1) n []

/-- Accumulator for the leading-digits part of `parseInt`. -/
def parseNatAux : List Char → Nat → Nat
  | [], acc => acc
  | c :: cs, acc =>
    if c.isDigit then parseNatAux cs (acc * 10 + (c.toNat - 48)) else acc

/-- `parseInt(s)` as used by the loader: a leading digit starts a number,
anything else is `NaN`, modelled as `none` (the call sites either guard
with `|| 0` or only ever see the numeric fields `saveToCSV` wrote). -/
def parseIntJS (l : List Char) : Option Nat :=
  match l with
  | [] => none
  | c :: _ => if c.isDigit then some (parseNatAux l 0) else none

/-- The `status` string stored in a CSV row. -/
def statusStr : MatchStatus → List Char
  | MatchStatus.pending => "pending".data
  | MatchStatus.waiting => "waiting".data
  | MatchStatus.active => "active".data
  | MatchStatus.complete => "complete".data

/-- The `(status || 'pending') as BracketMatch['status']` cast; the raw
string is stored untyped in TS, so an unrecognized status string behaves
like none of the four and is modelled as `pending`. -/
def parseStatus (l : List Char) : MatchStatus :=
  if l = "waiting".data then MatchStatus.waiting
  else if l = "active".data then MatchStatus.active
  else if l = "complete".data then MatchStatus.complete
  else MatchStatus.pending

/-- The 11 fields of one CSV row, in header order. -/
def matchFields (m : BracketMatch) : List (List Char) :=
  [natToChars m.round, natToChars m.matchId, m.player1.data, m.player2.data,
   m.player1Display.data, m.player2Display.data, natToChars m.p1wins,
   natToChars m.p2wins, statusStr m.status, (m.winner.getD "").data,
   (m.winnerDisplay.getD "").data]

/-- The `# format=...,bestOf=...,participants=...,frozen=...` metadata
line. -/
def csvMeta (s : BracketState) : List Char :=
  "# format=".data ++ s.format.data ++ ",bestOf=".data
    ++ natToChars s.bestOf ++ ",participants=".data
    ++ natToChars s.participants ++ ",frozen=".data
    ++ (if s.frozen then "true".data else "false".data)

/-- The constant header line. -/
def csvHeader : List Char :=
  ("round,matchId,player1,player2,player1Display,player2Display,"
    ++ "p1wins,p2wins,status,winner,winnerDisplay").data

/-- `saveToCSV()`: the string handed to `FS(...).writeUpdate` — metadata
line, header line, one row per match, newline-separated. -/
def saveToCSV (s : BracketState) : String :=
  String.mk (csvMeta s ++ '\n' :: csvHeader ++ '\n'
    :: joinSep '\n' (s.matchList.map fun m => joinSep ',' (matchFields m)))

/-- One CSV row back into a `BracketMatch` (≥ 11 parts is the new format,
fewer is the old 8-field format whose display names default to the raw id
fields); `parseInt` turning a corrupted id field into `NaN` is modelled as
a parse failure. -/
def parseMatchLine (line : List Char) : Option BracketMatch :=
  let parts := (splitOnChar ',' line).map trimChars
  if 11 ≤ parts.length then
    match parseIntJS (parts.getD 0 []), parseIntJS (parts.getD 1 []) with
    | some round, some matchId =>
      let win := parts.getD 9 []
      let winD := parts.getD 10 []
      some { round := round, matchId := matchId,
             player1 := toID (String.mk (parts.getD 2 [])),
             player2 := toID (String.mk (parts.getD 3 [])),
             player1Display := String.mk (parts.getD 4 []),
             player2Display := String.mk (parts.getD 5 []),
             p1wins := (parseIntJS (parts.getD 6 [])).getD 0,
             p2wins := (parseIntJS (parts.getD 7 [])).getD 0,
             status := parseStatus (parts.getD 8 []),
             winner := if win = [] then none
                       else some (toID (String.mk win)),
             winnerDisplay := if winD = [] then none
                              else some (String.mk winD) }
    | _, _ => none
  else
    match parseIntJS (parts.getD 0 []), parseIntJS (parts.getD 1 []) with
    | some round, some matchId =>
      let p1 := parts.getD 2 []
      let p2 := parts.getD 3 []
      let win := parts.getD 7 []
      some { round := round, matchId := matchId,
             player1 := toID (String.mk p1),
             player2 := toID (String.mk p2),
             player1Display := String.mk p1,
             player2Display := String.mk p2,
             p1wins := (parseIntJS (parts.getD 4 [])).getD 0,
             p2wins := (parseIntJS (parts.getD 5 [])).getD 0,
             status := parseStatus (parts.getD 6 []),
             winner := if win = [] then none
                       else some (toID (String.mk win)),
             winnerDisplay := if win = [] then none
                              else some (String.mk win) }
    | _, _ => none

/-- The `displayNames` map rebuilt while loading. -/
def loadDisplayNames (ms : List BracketMatch) : List (String × String) :=
  ms.foldl (fun acc m =>
    let a1 := if m.player1Display = "" then acc
              else mapSet acc m.player1 m.player1Display
    let a2 := if m.player2Display = "" then a1
              else mapSet a1 m.player2 m.player2Display
    match m.winner, m.winnerDisplay with
    | some w, some d => if w = "" ∨ d = "" then a2 else mapSet a2 w d
    | _, _ => a2) []

/-- The `playerMatches` map rebuilt while loading: both players of every
`active` or `waiting` match. -/
def loadPlayerMatches (ms : List BracketMatch) : List (String × Nat) :=
  ms.foldl (fun acc m =>
    if m.status = MatchStatus.active ∨ m.status = MatchStatus.waiting then
      let a1 := if m.player1 = "" then acc else mapSet acc m.player1 m.matchId
      if m.player2 = "" then a1 else mapSet a1 m.player2 m.matchId
    else acc) []

/-- `currentRound` as recomputed by the loader: the highest round with a
non-`pending` match, else 1. -/
def loadCurrentRound (ms : List BracketMatch) : Nat :=
  match ((ms.filter fun m =>
      m.status = MatchStatus.active ∨ m.status = MatchStatus.waiting ∨
        m.status = MatchStatus.complete).map fun m => m.round).max? with
  | some r => r
  | none => 1

/-- `loadFromCSV()` over the in-memory state `prior` (the method mutates
`this.state`); `cfgFormat`/`cfgBestOf` stand for
`Config.brackettournament.*`; `none` models `return false` (and a
`NaN`-corrupted id field, see `parseMatchLine`). -/
def loadFromCSV (prior : BracketState) (cfgFormat : String) (cfgBestOf : Nat)
    (data : String) : Option BracketState :=
  if data.data = [] then none
  else
    let lines := (splitOnChar '\n' data.data).filter
      fun l => !(trimChars l).isEmpty
    if lines.length < 3 then none
    else
      let step :=
        match lines.getD 0 [] with
        | '#' :: rest =>
          let metaParts := splitOnChar ',' (trimChars rest)
          let st := metaParts.foldl (fun (st : BracketState) part =>
            let kv := (splitOnChar '=' part).map trimChars
            let key := kv.getD 0 []
            let value := kv.getD 1 []
            let st := if key = "format".data
              then { st with format := String.mk value } else st
            let st := if key = "bestOf".data
              then { st with bestOf := (parseIntJS value).getD 0 } else st
            let st := if key = "participants".data
              then { st with participants := (parseIntJS value).getD 0 }
              else st
            if key = "frozen".data
              then { st with frozen := value = "true".data } else st) prior
          (st, lines.drop 2)
        | _ =>
          ({ prior with format := cfgFormat, bestOf := cfgBestOf,
                        frozen := false }, lines.drop 1)
      match step.2.mapM parseMatchLine with
      | none => none
      | some ms =>
        some { step.1 with
          matchList := ms,
          playerMatches := loadPlayerMatches ms,
          displayNames := loadDisplayNames ms,
          currentRound := loadCurrentRound ms,
          participants := if step.1.participants = 0 then
              (ms.filter fun m => m.round = 1).length * 2
            else step.1.participants,
          initialized := true }

/-- A CSV-safe string: no separator characters and stable under `trim`. -/
def goodField (f : String) : Prop :=
  (∀ c ∈ f.data, c ≠ ',' ∧ c ≠ '\n') ∧ trimChars f.data = f.data

/-- The per-match conditions under which a CSV row survives the
round trip: ids already canonical, fields CSV-safe, and no empty-string
`some` in the optional fields (the loader reads those back as `null`). -/
def goodMatch (m : BracketMatch) : Prop :=
  goodField m.player1 ∧ toID m.player1 = m.player1 ∧
  goodField m.player2 ∧ toID m.player2 = m.player2 ∧
  goodField m.player1Display ∧ goodField m.player2Display ∧
  m.winner ≠ some "" ∧ goodField (m.winner.getD "") ∧
  toID (m.winner.getD "") = m.winner.getD "" ∧
  m.winnerDisplay ≠ some "" ∧ goodField (m.winnerDisplay.getD "")

/-- The conditions under which `saveToCSV` output parses back: at least
one match, nonzero participants, a CSV-safe `=`-free format id, and
CSV-safe matches. -/
def saveFriendly (s : BracketState) : Prop :=
  s.matchList ≠ [] ∧ 0 < s.participants ∧
  goodField s.format ∧ (∀ c ∈ s.format.data, c ≠ '=') ∧
  ∀ m ∈ s.matchList, goodMatch m

/-- The reachable state driving the C7 counterexample: a fresh 4-player
best-of-1 bracket after one recorded win (the winner now waits in the
round-2 match, `currentRound` is still 1). -/
def c7State : BracketState :=
  match initializeBracket initialBracketState "gen1ou"
      ["Alice", "Bob", "Carol", "Dave"] 1 false (fun l => l) with
  | Except.ok s => recordWin s "alice" "dave"
  | Except.error _ => initialBracketState

/-- A concrete rated row (glicko fields arbitrary) for the C3
counterexample ladder. -/
noncomputable def c3Row (uid uname : String) (e : ℝ) : LadderRow :=
  { userid := uid, elo := e, username := uname, w := 0, l := 0, t := 0,
    glicko := 1500, rd := 130, gxeUnknown := false, gxeValue := 50,
    games := 0, lastUpdate := "", h2h := [] }

/-- A sorted ladder on which a negative-score update breaks sortedness. -/
noncomputable def c3Ladder : List LadderRow :=
  [c3Row "a" "A" 1500, c3Row "b" "B" 1500, c3Row "c" "C" 1490]

/-- `mapGet` after `mapDelete`: the deleted key reads `none`, others unchanged. -/
theorem mapGet_mapDelete {α : Type} (mm : List (String × α)) (k j : String) :
    mapGet (mapDelete mm k) j = if j = k then none else mapGet mm j := by
  induction mm with
  | nil => by_cases hjk : j = k <;> simp [mapGet, mapDelete, hjk]
  | cons p t ih =>
    by_cases hpk : p.1 = k
    · have hdrop : mapDelete (p :: t) k = mapDelete t k := by
        simp [mapDelete, List.filter_cons, hpk]
      rw [hdrop, ih]
      by_cases hjk : j = k
      · simp [hjk]
      · have hpj : ¬ p.1 = j := fun h => hjk (by rw [← h, hpk])
        simp [mapGet, hpj, hjk]
    · have hkeep : mapDelete (p :: t) k = p :: mapDelete t k := by
        simp [mapDelete, List.filter_cons, hpk]
      rw [hkeep]
      by_cases hpj : p.1 = j
      · have hjk : ¬ j = k := fun h => hpk (by rw [hpj, h])
        simp [mapGet, hpj, hjk]
      · simp only [mapGet, hpj, if_false, ih]

/-- C1: on a shared active match, a `recordWin` that raises the winner's win
count to `floor(bestOf/2) + 1` (while the loser stays below) completes the
match — status `complete`, `winner`/`winnerDisplay` set to the winner, both
players removed from `playerMatches` — and hands the completed match to
`advanceWinner`; a `recordWin` that leaves both counts below the threshold
only increments the winner's count and leaves the match `active` with
`playerMatches` untouched. -/
theorem recordWin_series_threshold (s : BracketState) (w l : String)
    (m : BracketMatch) (hm : lookupMatch s w = some m)
    (hactive : m.status = MatchStatus.active)
    (hpair : (m.player1 = w ∧ m.player2 = l) ∨ (m.player2 = w ∧ m.player1 = l)) :
    ((if m.player1 = w then m.p1wins else m.p2wins) + 1 = s.bestOf / 2 + 1 →
      (if m.player1 = w then m.p2wins else m.p1wins) < s.bestOf / 2 + 1 →
      ∀ m2 : BracketMatch,
        m2 = { (if m.player1 = w then { m with p1wins := m.p1wins + 1 }
                else { m with p2wins := m.p2wins + 1 }) with
               winner := some w,
               winnerDisplay :=
                 some (if m.player1 = w then m.player1Display else m.player2Display),
               status := MatchStatus.complete } →
        recordWin s w l = advanceWinner
          { s with matchList := updateMatch s.matchList m.matchId m2,
                   playerMatches :=
                     mapDelete (mapDelete s.playerMatches m.player1) m.player2 } m2 ∧
        m2.status = MatchStatus.complete ∧ m2.winner = some w ∧
        m2.winnerDisplay =
          some (if m.player1 = w then m.player1Display else m.player2Display) ∧
        mapGet (mapDelete (mapDelete s.playerMatches m.player1) m.player2) m.player1
          = none ∧
        mapGet (mapDelete (mapDelete s.playerMatches m.player1) m.player2) m.player2
          = none) ∧
    ((if m.player1 = w then m.p1wins else m.p2wins) + 1 < s.bestOf / 2 + 1 →
      (if m.player1 = w then m.p2wins else m.p1wins) < s.bestOf / 2 + 1 →
      recordWin s w l =
        { s with matchList := (updateMatch s.matchList m.matchId
            (if m.player1 = w then { m with p1wins := m.p1wins + 1 }
             else { m with p2wins := m.p2wins + 1 })) } ∧
      (if m.player1 = w then { m with p1wins := m.p1wins + 1 }
       else { m with p2wins := m.p2wins + 1 }).status = MatchStatus.active ∧
      ({ s with matchList := (updateMatch s.matchList m.matchId
            (if m.player1 = w then { m with p1wins := m.p1wins + 1 }
             else { m with p2wins := m.p2wins + 1 })) }).playerMatches
        = s.playerMatches) := by
  have hguard : ¬ ¬ ((m.player1 = w ∧ m.player2 = l) ∨ (m.player2 = w ∧ m.player1 = l)) :=
    not_not_intro hpair
  constructor
  · intro hthr hoth m2 hm2
    subst hm2
    by_cases hw : m.player1 = w
    · have hcond : s.bestOf / 2 + 1 ≤ m.p1wins + 1 := by
        rw [if_pos hw] at hthr; omega
      refine ⟨?_, rfl, rfl, rfl, ?_, ?_⟩
      · simp only [recordWin, hm]
        rw [if_neg hguard]
        simp only [hw, eq_self_iff_true, if_true]
        have hor : s.bestOf / 2 + 1 ≤ m.p1wins + 1 ∨ s.bestOf / 2 + 1 ≤ m.p2wins :=
          Or.inl hcond
        simp only [if_pos hor, if_pos hcond]
      · rw [mapGet_mapDelete, mapGet_mapDelete]
        by_cases h12 : m.player1 = m.player2 <;> simp [h12]
      · rw [mapGet_mapDelete]; simp
    · have hw2 : m.player2 = w := by
        rcases hpair with ⟨h1, _⟩ | ⟨h1, _⟩
        · exact absurd h1 hw
        · exact h1
      have hoth' : m.p1wins < s.bestOf / 2 + 1 := by
        rw [if_neg hw] at hoth; omega
      have hcond1 : ¬ s.bestOf / 2 + 1 ≤ m.p1wins := by omega
      have hcond2 : s.bestOf / 2 + 1 ≤ m.p2wins + 1 := by
        rw [if_neg hw] at hthr; omega
      refine ⟨?_, rfl, rfl, rfl, ?_, ?_⟩
      · simp only [recordWin, hm]
        rw [if_neg hguard]
        simp only [if_neg hw]
        have hor : s.bestOf / 2 + 1 ≤ m.p1wins ∨ s.bestOf / 2 + 1 ≤ m.p2wins + 1 :=
          Or.inr hcond2
        simp only [if_pos hor, if_neg hcond1, hw2]
      · rw [mapGet_mapDelete, mapGet_mapDelete]
        by_cases h12 : m.player1 = m.player2 <;> simp [h12]
      · rw [mapGet_mapDelete]; simp
  · intro hbelow hoth
    by_cases hw : m.player1 = w
    · have h1 : ¬ s.bestOf / 2 + 1 ≤ m.p1wins + 1 := by
        rw [if_pos hw] at hbelow; omega
      have h2 : ¬ s.bestOf / 2 + 1 ≤ m.p2wins := by
        rw [if_pos hw] at hoth; omega
      have hor : ¬ (s.bestOf / 2 + 1 ≤ m.p1wins + 1 ∨ s.bestOf / 2 + 1 ≤ m.p2wins) := by
        omega
      refine ⟨?_, by simp [hw, hactive], by simp⟩
      simp only [recordWin, hm]
      rw [if_neg hguard]
      simp only [hw, eq_self_iff_true, if_true]
      simp only [if_neg hor]
    · have h1 : ¬ s.bestOf / 2 + 1 ≤ m.p1wins := by
        rw [if_neg hw] at hoth; omega
      have h2 : ¬ s.bestOf / 2 + 1 ≤ m.p2wins + 1 := by
        rw [if_neg hw] at hbelow; omega
      have hor : ¬ (s.bestOf / 2 + 1 ≤ m.p1wins ∨ s.bestOf / 2 + 1 ≤ m.p2wins + 1) := by
        omega
      refine ⟨?_, by simp [hw, hactive], by simp⟩
      simp only [recordWin, hm]
      rw [if_neg hguard]
      simp only [if_neg hw]
      simp only [if_neg hor]

/-- Witness for C1 at a concrete two-player best-of-1 bracket: Alice's first
win completes the match and is handed to `advanceWinner`. -/
theorem recordWin_series_threshold_witness :
    recordWin
      { format := "f", participants := 2, bestOf := 1, currentRound := 1,
        matchList :=
          [{ round := 1, matchId := 1, player1 := "a", player2 := "b",
             player1Display := "A", player2Display := "B", p1wins := 0, p2wins := 0,
             status := MatchStatus.active, winner := none, winnerDisplay := none }],
        playerMatches := [("a", 1), ("b", 1)],
        displayNames := [("a", "A"), ("b", "B")],
        initialized := true, frozen := false } "a" "b"
    = advanceWinner
      { format := "f", participants := 2, bestOf := 1, currentRound := 1,
        matchList :=
          [{ round := 1, matchId := 1, player1 := "a", player2 := "b",
             player1Display := "A", player2Display := "B", p1wins := 1, p2wins := 0,
             status := MatchStatus.complete, winner := some "a",
             winnerDisplay := some "A" }],
        playerMatches := [], displayNames := [("a", "A"), ("b", "B")],
        initialized := true, frozen := false }
      { round := 1, matchId := 1, player1 := "a", player2 := "b",
        player1Display := "A", player2Display := "B", p1wins := 1, p2wins := 0,
        status := MatchStatus.complete, winner := some "a",
        winnerDisplay := some "A" } := by
  have h := (recordWin_series_threshold
    { format := "f", participants := 2, bestOf := 1, currentRound := 1,
      matchList :=
        [{ round := 1, matchId := 1, player1 := "a", player2 := "b",
           player1Display := "A", player2Display := "B", p1wins := 0, p2wins := 0,
           status := MatchStatus.active, winner := none, winnerDisplay := none }],
      playerMatches := [("a", 1), ("b", 1)],
      displayNames := [("a", "A"), ("b", "B")],
      initialized := true, frozen := false } "a" "b"
    { round := 1, matchId := 1, player1 := "a", player2 := "b",
      player1Display := "A", player2Display := "B", p1wins := 0, p2wins := 0,
      status := MatchStatus.active, winner := none, winnerDisplay := none }
    (by decide) rfl (by decide)).1 (by decide) (by decide)
    { round := 1, matchId := 1, player1 := "a", player2 := "b",
      player1Display := "A", player2Display := "B", p1wins := 1, p2wins := 0,
      status := MatchStatus.complete, winner := some "a",
      winnerDisplay := some "A" } (by decide)
  exact h.1.trans (by decide)

/-- C2: for a completed match `cm` of a non-final round in an unfrozen
tournament, `advanceWinner` places the winner into the match of round
`cm.round + 1` at index `(cm.matchId - firstMatchIdOfRound) / 2` of that
round: into slot `player1` if it is empty, else into `player2` if that is
empty, else it changes nothing; if after the placement both slots are
filled the match becomes `active`, both players enter `playerMatches` and
`currentRound` rises to `cm.round + 1` when that exceeds it, and with only
one slot filled the match becomes `waiting`. -/
theorem advanceWinner_placement (s : BracketState) (cm : BracketMatch) (w : String)
    (nm : BracketMatch) (firstId : Nat)
    (hfrozen : s.frozen = false)
    (hwin : cm.winner = some w) (hwne : w ≠ "")
    (hnonfinal : (s.matchList.filter fun m => m.round = cm.round + 1) ≠ [])
    (hfirst : minMatchId? (s.matchList.filter fun m => m.round = cm.round) = some firstId)
    (hnext : (s.matchList.filter fun m => m.round = cm.round + 1).get?
        ((cm.matchId - firstId) / 2) = some nm) :
    (nm.player1 = "" → nm.player2 = "" →
      advanceWinner s cm = { s with matchList := (updateMatch s.matchList nm.matchId
        { nm with player1 := w,
                  player1Display := (mapGet s.displayNames w).getD w,
                  status := MatchStatus.waiting }) }) ∧
    (nm.player1 = "" → nm.player2 ≠ "" →
      advanceWinner s cm = { s with
        matchList := (updateMatch s.matchList nm.matchId
          { nm with player1 := w,
                    player1Display := (mapGet s.displayNames w).getD w,
                    status := MatchStatus.active }),
        playerMatches := (mapSet (mapSet s.playerMatches w nm.matchId)
          nm.player2 nm.matchId),
        currentRound := (if s.currentRound < cm.round + 1 then cm.round + 1
          else s.currentRound) }) ∧
    (nm.player1 ≠ "" → nm.player2 = "" →
      advanceWinner s cm = { s with
        matchList := (updateMatch s.matchList nm.matchId
          { nm with player2 := w,
                    player2Display := (mapGet s.displayNames w).getD w,
                    status := MatchStatus.active }),
        playerMatches := (mapSet (mapSet s.playerMatches nm.player1 nm.matchId)
          w nm.matchId),
        currentRound := (if s.currentRound < cm.round + 1 then cm.round + 1
          else s.currentRound) }) ∧
    (nm.player1 ≠ "" → nm.player2 ≠ "" → advanceWinner s cm = s) := by
  have hempty : ((s.matchList.filter fun m => m.round = cm.round + 1).isEmpty) = false := by
    rw [Bool.eq_false_iff]
    intro h
    exact hnonfinal (List.isEmpty_iff.mp h)
  refine ⟨?_, ?_, ?_, ?_⟩
  · intro h1 h2
    simp only [advanceWinner, hwin, Option.getD_some, hempty, hfrozen, hfirst, hnext,
      h1, finishNextMatch, h2, Bool.false_eq_true, if_false, reduceIte]
    simp [hwne]
  · intro h1 h2
    simp only [advanceWinner, hwin, Option.getD_some, hempty, hfrozen, hfirst, hnext,
      h1, finishNextMatch, Bool.false_eq_true, if_false, reduceIte]
    simp [hwne, h2]
  · intro h1 h2
    simp only [advanceWinner, hwin, Option.getD_some, hempty, hfrozen, hfirst, hnext,
      h2, finishNextMatch, Bool.false_eq_true, if_false]
    rw [if_neg h1]
    simp only [reduceIte]
    simp [hwne, h1]
  · intro h1 h2
    simp only [advanceWinner, hwin, Option.getD_some, hempty, hfrozen, hfirst, hnext,
      Bool.false_eq_true, if_false]
    rw [if_neg h1, if_neg h2]

/-- Witness for C2: in a 4-player bracket with match 1 complete, the winner
is placed into slot 1 of pending match 3, which becomes `waiting`. -/
theorem advanceWinner_placement_witness :
    advanceWinner
      { format := "f", participants := 4, bestOf := 1, currentRound := 1,
        matchList :=
          [{ round := 1, matchId := 1, player1 := "a", player2 := "d",
             player1Display := "A", player2Display := "D", p1wins := 1, p2wins := 0,
             status := MatchStatus.complete, winner := some "a",
             winnerDisplay := some "A" },
           { round := 1, matchId := 2, player1 := "b", player2 := "c",
             player1Display := "B", player2Display := "C", p1wins := 0, p2wins := 0,
             status := MatchStatus.active, winner := none, winnerDisplay := none },
           { round := 2, matchId := 3, player1 := "", player2 := "",
             player1Display := "", player2Display := "", p1wins := 0, p2wins := 0,
             status := MatchStatus.pending, winner := none, winnerDisplay := none }],
        playerMatches := [("b", 2), ("c", 2)],
        displayNames := [("a", "A"), ("b", "B"), ("c", "C"), ("d", "D")],
        initialized := true, frozen := false }
      { round := 1, matchId := 1, player1 := "a", player2 := "d",
        player1Display := "A", player2Display := "D", p1wins := 1, p2wins := 0,
        status := MatchStatus.complete, winner := some "a",
        winnerDisplay := some "A" }
    = { format := "f", participants := 4, bestOf := 1, currentRound := 1,
        matchList :=
          [{ round := 1, matchId := 1, player1 := "a", player2 := "d",
             player1Display := "A", player2Display := "D", p1wins := 1, p2wins := 0,
             status := MatchStatus.complete, winner := some "a",
             winnerDisplay := some "A" },
           { round := 1, matchId := 2, player1 := "b", player2 := "c",
             player1Display := "B", player2Display := "C", p1wins := 0, p2wins := 0,
             status := MatchStatus.active, winner := none, winnerDisplay := none },
           { round := 2, matchId := 3, player1 := "a", player2 := "",
             player1Display := "A", player2Display := "", p1wins := 0, p2wins := 0,
             status := MatchStatus.waiting, winner := none, winnerDisplay := none }],
        playerMatches := [("b", 2), ("c", 2)],
        displayNames := [("a", "A"), ("b", "B"), ("c", "C"), ("d", "D")],
        initialized := true, frozen := false } := by
  have h := (advanceWinner_placement
    { format := "f", participants := 4, bestOf := 1, currentRound := 1,
      matchList :=
        [{ round := 1, matchId := 1, player1 := "a", player2 := "d",
           player1Display := "A", player2Display := "D", p1wins := 1, p2wins := 0,
           status := MatchStatus.complete, winner := some "a",
           winnerDisplay := some "A" },
         { round := 1, matchId := 2, player1 := "b", player2 := "c",
           player1Display := "B", player2Display := "C", p1wins := 0, p2wins := 0,
           status := MatchStatus.active, winner := none, winnerDisplay := none },
         { round := 2, matchId := 3, player1 := "", player2 := "",
           player1Display := "", player2Display := "", p1wins := 0, p2wins := 0,
           status := MatchStatus.pending, winner := none, winnerDisplay := none }],
      playerMatches := [("b", 2), ("c", 2)],
      displayNames := [("a", "A"), ("b", "B"), ("c", "C"), ("d", "D")],
      initialized := true, frozen := false }
    { round := 1, matchId := 1, player1 := "a", player2 := "d",
      player1Display := "A", player2Display := "D", p1wins := 1, p2wins := 0,
      status := MatchStatus.complete, winner := some "a",
      winnerDisplay := some "A" }
    "a"
    { round := 2, matchId := 3, player1 := "", player2 := "",
      player1Display := "", player2Display := "", p1wins := 0, p2wins := 0,
      status := MatchStatus.pending, winner := none, winnerDisplay := none }
    1 rfl rfl (by decide) (by decide) (by decide) (by decide)).1 rfl rfl
  exact h.trans (by decide)

/-- C10: `canMatch` is symmetric on states in which both participants of any
active match reachable through `playerMatches` are mapped to that same match
(the invariant that `initialize` and `advanceWinner` maintain). -/
theorem canMatch_symm (s : BracketState) (a b : String)
    (hwf : ∀ u m, lookupMatch s u = some m → m.status = MatchStatus.active →
      lookupMatch s m.player1 = some m ∧ lookupMatch s m.player2 = some m) :
    canMatch s a b = canMatch s b a := by
  suffices h : ∀ x y, canMatch s x y = true → canMatch s y x = true by
    cases hab : canMatch s a b
    · cases hba : canMatch s b a
      · rfl
      · rw [h b a hba] at hab
        exact hab.symm
    · exact (h a b hab).symm
  intro x y hxy
  by_cases hinit : s.initialized
  · rcases hx : lookupMatch s x with _ | m
    · rw [canMatch, if_neg (not_not_intro hinit), hx] at hxy
      exact absurd hxy (by simp)
    · rw [canMatch, if_neg (not_not_intro hinit), hx] at hxy
      simp only [] at hxy
      by_cases hst : m.status = MatchStatus.active
      · rw [if_neg (not_not_intro hst)] at hxy
        by_cases hfr : s.frozen = true ∧ m.round ≠ getEarliestIncompleteRound s
        · rw [if_pos hfr] at hxy
          exact absurd hxy (by simp)
        · rw [if_neg hfr] at hxy
          have hp := of_decide_eq_true hxy
          obtain ⟨hl1, hl2⟩ := hwf x m hx hst
          rcases hp with ⟨h1, h2⟩ | ⟨h1, h2⟩
          · rw [h2] at hl2
            rw [canMatch, if_neg (not_not_intro hinit), hl2]
            simp only []
            rw [if_neg (not_not_intro hst), if_neg hfr]
            exact decide_eq_true (Or.inr ⟨h2, h1⟩)
          · rw [h2] at hl1
            rw [canMatch, if_neg (not_not_intro hinit), hl1]
            simp only []
            rw [if_neg (not_not_intro hst), if_neg hfr]
            exact decide_eq_true (Or.inl ⟨h2, h1⟩)
      · rw [if_pos hst] at hxy
        exact absurd hxy (by simp)
  · rw [canMatch, if_pos hinit] at hxy
    exact absurd hxy (by simp)

/-- Witness for C10 on the concrete two-player fixture. -/
theorem canMatch_symm_witness :
    canMatch bracket2W "a" "b" = canMatch bracket2W "b" "a" := by
  apply canMatch_symm
  intro u m h
  intro _
  by_cases h1 : u = "a"
  · subst h1
    have h' : lookupMatch bracket2W "a" = some
        { round := 1, matchId := 1, player1 := "a", player2 := "b",
          player1Display := "A", player2Display := "B", p1wins := 0, p2wins := 0,
          status := MatchStatus.active, winner := none, winnerDisplay := none } := by
      decide
    have hm := Option.some.inj (h'.symm.trans h)
    rw [← hm]
    exact ⟨by decide, by decide⟩
  · by_cases h2 : u = "b"
    · subst h2
      have h' : lookupMatch bracket2W "b" = some
          { round := 1, matchId := 1, player1 := "a", player2 := "b",
            player1Display := "A", player2Display := "B", p1wins := 0, p2wins := 0,
            status := MatchStatus.active, winner := none, winnerDisplay := none } := by
        decide
      have hm := Option.some.inj (h'.symm.trans h)
      rw [← hm]
      exact ⟨by decide, by decide⟩
    · exfalso
      have hn : mapGet bracket2W.playerMatches u = none := by
        show mapGet [("a", 1), ("b", 1)] u = none
        simp only [mapGet]
        rw [if_neg (fun hh => h1 hh.symm), if_neg (fun hh => h2 hh.symm)]
      rw [lookupMatch, hn] at h
      exact Option.noConfusion h

/-- C5 (amended): `initialize` reports failure, with no state change, exactly
when the tournament is already initialized, or the player count is below 2 or
not a power of two; in every other case — including a `bestOf` outside
`1..999` and duplicate canonical identities — it succeeds and transitions the
state to initialized.  (The `bestOf` range and duplicate checks live in the
`/createbracket` command layer, not in `initialize`.) -/
theorem initializeBracket_ok_iff (s : BracketState) (format : String)
    (players : List String) (bestOf : Nat) (randomize : Bool)
    (oracle : List String → List String) :
    ((initializeBracket s format players bestOf randomize oracle).isOk = true ↔
      s.initialized = false ∧ 2 ≤ players.length ∧ isPowerOfTwo players.length = true) ∧
    (∀ t, initializeBracket s format players bestOf randomize oracle = Except.ok t →
      t.initialized = true) := by
  constructor
  · by_cases h1 : s.initialized = true
    · rw [initializeBracket, if_pos h1]
      constructor
      · intro h
        simp [Except.isOk, Except.toBool] at h
      · rintro ⟨hf, -⟩
        rw [h1] at hf
        exact Bool.noConfusion hf
    · rw [initializeBracket, if_neg h1]
      by_cases h2 : players.length < 2 ∨ ¬ isPowerOfTwo players.length = true
      · rw [if_pos h2]
        constructor
        · intro h
          simp [Except.isOk, Except.toBool] at h
        · rintro ⟨-, hlen, hpow⟩
          rcases h2 with h2 | h2
          · omega
          · exact (h2 hpow).elim
      · rw [if_neg h2]
        push_neg at h2
        constructor
        · intro _
          exact ⟨by simpa using h1, by omega, h2.2⟩
        · intro _
          simp [Except.isOk, Except.toBool]
  · intro t ht
    rw [initializeBracket] at ht
    by_cases h1 : s.initialized = true
    · rw [if_pos h1] at ht
      exact Except.noConfusion ht
    · rw [if_neg h1] at ht
      by_cases h2 : players.length < 2 ∨ ¬ isPowerOfTwo players.length = true
      · rw [if_pos h2] at ht
        exact Except.noConfusion ht
      · rw [if_neg h2] at ht
        have hrec := Except.ok.inj ht
        rw [← hrec]

/-- C5 counterexample: contrary to the claim, `initialize` succeeds with
`bestOf = 0` (outside `1..999`) and succeeds when two players share the same
canonical identity. -/
theorem initializeBracket_c5_counterexample :
    (initializeBracket initialBracketState "gen1ou" ["Alice", "Bob"] 0 false id).isOk
      = true ∧
    toID "A" = toID "a" ∧
    (initializeBracket initialBracketState "gen1ou" ["A", "a"] 3 false id).isOk
      = true := by
  refine ⟨?_, by decide, ?_⟩ <;> decide

/-- Any fuel at least `n` gives the same result for the seed recursion. -/
theorem buildBracketSeedsAux_fuel (n : Nat) :
    ∀ fuel fuel', n ≤ fuel → n ≤ fuel' →
      buildBracketSeedsAux n fuel = buildBracketSeedsAux n fuel' := by
  induction n using Nat.strong_induction_on with
  | _ n ih =>
    intro fuel fuel' hf hf'
    match fuel, fuel' with
    | 0, 0 => rfl
    | 0, f' + 1 =>
      have hn : n = 0 := Nat.le_zero.mp hf
      subst hn
      simp [buildBracketSeedsAux]
    | f + 1, 0 =>
      have hn : n = 0 := Nat.le_zero.mp hf'
      subst hn
      simp [buildBracketSeedsAux]
    | f + 1, f' + 1 =>
      by_cases h2 : n ≤ 2
      · simp [buildBracketSeedsAux, h2]
      · simp only [buildBracketSeedsAux, if_neg h2]
        rw [ih (n / 2) (by omega) f f' (by omega) (by omega)]

/-- Unfolding `buildBracketSeeds` at an even argument `2n` with `n ≥ 2`. -/
theorem buildBracketSeeds_step (n : Nat) (h : 2 ≤ n) :
    buildBracketSeeds (2 * n)
      = (buildBracketSeeds n).flatMap fun s => [s, 2 * n + 1 - s] := by
  unfold buildBracketSeeds
  rw [show 2 * n = (2 * n - 1) + 1 by omega]
  rw [buildBracketSeedsAux]
  rw [if_neg (by omega)]
  rw [show ((2 * n - 1) + 1) / 2 = n by omega]
  rw [buildBracketSeedsAux_fuel n (2 * n - 1) n (by omega) le_rfl]

/-- Doubling interleave: the flat map of two-element blocks is a permutation
of the list followed by its image. -/
theorem flatMap_pair_perm (g : Nat → Nat) (l : List Nat) :
    (l.flatMap fun s => [s, g s]).Perm (l ++ l.map g) := by
  induction l with
  | nil => rfl
  | cons a t ih =>
    simp only [List.flatMap_cons, List.map_cons, List.cons_append]
    refine List.Perm.trans (List.Perm.cons a (List.Perm.cons (g a) ih)) ?_
    exact List.Perm.cons a List.perm_middle.symm

/-- Mapping the complement over `[1..m]` reverses `[c-m..c-1]`. -/
theorem map_sub_range' (c m : Nat) (hc : m + 1 ≤ c) :
    (List.range' 1 m).map (fun s => c - s) = (List.range' (c - m) m).reverse := by
  induction m with
  | zero => rfl
  | succ m ih =>
    rw [List.range'_1_concat, List.map_append, ih (by omega)]
    rw [show c - (m + 1) = (c - m - 1) by omega]
    rw [show List.range' (c - m - 1) (m + 1) = (c - m - 1) :: List.range' (c - m) m by
      rw [List.range'_succ]
      rw [show c - m - 1 + 1 = c - m by omega]]
    rw [List.reverse_cons]
    simp only [List.map_cons, List.map_nil]
    rw [show c - (1 + m) = c - m - 1 by omega]

/-- The seed order of a `2^k`-player bracket is a permutation of `1..2^k`. -/
theorem buildBracketSeeds_perm (k : Nat) (hk : 1 ≤ k) :
    (buildBracketSeeds (2 ^ k)).Perm (List.range' 1 (2 ^ k)) := by
  induction k with
  | zero => omega
  | succ k ih =>
    by_cases hk1 : 1 ≤ k
    case neg =>
      have : k = 0 := by omega
      subst this
      decide
    have hstep := buildBracketSeeds_step (2 ^ k) (by
      have := Nat.one_lt_two_pow_iff.mpr (by omega : k ≠ 0)
      omega)
    rw [show 2 ^ (k + 1) = 2 * 2 ^ k by ring] at *
    rw [hstep]
    refine (flatMap_pair_perm _ _).trans ?_
    refine (List.Perm.append (ih hk1) ((ih hk1).map _)).trans ?_
    rw [map_sub_range' (2 * 2 ^ k + 1) (2 ^ k) (by omega)]
    rw [show 2 * 2 ^ k + 1 - 2 ^ k = 2 ^ k + 1 by omega]
    refine (List.Perm.append_left _ (List.reverse_perm _)).trans ?_
    rw [show (2 ^ k + 1) = 1 + 2 ^ k by omega]
    rw [List.range'_append_1 1 (2 ^ k) (2 ^ k)]
    rw [show 2 ^ k + 2 ^ k = 2 * 2 ^ k by ring]

/-- The flat map of two-element blocks doubles the length. -/
theorem flatMap_pair_length (g : Nat → Nat) (l : List Nat) :
    (l.flatMap fun s => [s, g s]).length = 2 * l.length := by
  induction l with
  | nil => rfl
  | cons a t ih =>
    simp only [List.flatMap_cons, List.length_append, List.length_cons, ih]
    simp
    omega

/-- `take` of an even count commutes with two-element-block flat map. -/
theorem flatMap_pair_take (g : Nat → Nat) :
    ∀ (l : List Nat) (t : Nat),
      ((l.take t).flatMap fun s => [s, g s])
        = (l.flatMap fun s => [s, g s]).take (2 * t) := by
  intro l
  induction l with
  | nil => intro t; simp
  | cons a l' ih =>
    intro t
    cases t with
    | zero => simp
    | succ t =>
      rw [List.take_succ_cons, List.flatMap_cons, List.flatMap_cons]
      rw [show 2 * (t + 1) = 2 * t + 1 + 1 by ring]
      simp only [List.cons_append, List.nil_append, List.take_succ_cons]
      rw [ih]

/-- `drop` of an even count commutes with two-element-block flat map. -/
theorem flatMap_pair_drop (g : Nat → Nat) :
    ∀ (l : List Nat) (t : Nat),
      ((l.drop t).flatMap fun s => [s, g s])
        = (l.flatMap fun s => [s, g s]).drop (2 * t) := by
  intro l
  induction l with
  | nil => intro t; simp
  | cons a l' ih =>
    intro t
    cases t with
    | zero => simp
    | succ t =>
      rw [List.drop_succ_cons, List.flatMap_cons]
      rw [show 2 * (t + 1) = 2 * t + 1 + 1 by ring]
      simp only [List.cons_append, List.nil_append, List.drop_succ_cons]
      rw [ih]

/-- The seed list of a `2^k`-player bracket has length `2^k`. -/
theorem buildBracketSeeds_length (k : Nat) (hk : 1 ≤ k) :
    (buildBracketSeeds (2 ^ k)).length = 2 ^ k := by
  induction k with
  | zero => omega
  | succ k ih =>
    by_cases hk1 : 1 ≤ k
    case neg =>
      have : k = 0 := by omega
      subst this
      decide
    have hstep := buildBracketSeeds_step (2 ^ k) (by
      have := Nat.one_lt_two_pow_iff.mpr (by omega : k ≠ 0)
      omega)
    rw [show 2 ^ (k + 1) = 2 * 2 ^ k by ring, hstep, flatMap_pair_length, ih hk1]

/-- Seed 1 sits in the first half of the seed order, seed 2 in the second. -/
theorem buildBracketSeeds_halves (k : Nat) (hk : 1 ≤ k) :
    1 ∈ (buildBracketSeeds (2 ^ k)).take (2 ^ (k - 1)) ∧
    2 ∈ (buildBracketSeeds (2 ^ k)).drop (2 ^ (k - 1)) := by
  induction k with
  | zero => omega
  | succ k ih =>
    by_cases hk1 : 1 ≤ k
    case neg =>
      have : k = 0 := by omega
      subst this
      decide
    obtain ⟨ih1, ih2⟩ := ih hk1
    have hstep := buildBracketSeeds_step (2 ^ k) (by
      have := Nat.one_lt_two_pow_iff.mpr (by omega : k ≠ 0)
      omega)
    rw [show 2 ^ (k + 1) = 2 * 2 ^ k by ring, hstep]
    rw [show k + 1 - 1 = k by omega]
    have hpow : 2 * 2 ^ (k - 1) = 2 ^ k := by
      rw [← pow_succ']
      congr 1
      omega
    have h1 : (1 : Nat) ∈ ((buildBracketSeeds (2 ^ k)).take (2 ^ (k - 1))).flatMap
        fun s => [s, 2 * 2 ^ k + 1 - s] :=
      List.mem_flatMap.mpr ⟨1, ih1, by simp⟩
    have h2 : (2 : Nat) ∈ ((buildBracketSeeds (2 ^ k)).drop (2 ^ (k - 1))).flatMap
        fun s => [s, 2 * 2 ^ k + 1 - s] :=
      List.mem_flatMap.mpr ⟨2, ih2, by simp⟩
    rw [flatMap_pair_take, hpow] at h1
    rw [flatMap_pair_drop, hpow] at h2
    exact ⟨h1, h2⟩

/-- Flattening consecutive pairs of indices recovers the original list. -/
theorem pairs_flatten :
    ∀ (t : Nat) (l : List Nat), l.length = 2 * t →
      (((List.range t).map fun i => (l.getD (2 * i) 0, l.getD (2 * i + 1) 0)).flatMap
          fun p => [p.1, p.2]) = l := by
  intro t
  induction t with
  | zero =>
    intro l hl
    simp only [Nat.mul_zero] at hl
    rw [List.length_eq_zero.mp hl]
    rfl
  | succ t ih =>
    intro l hl
    match l with
    | [] => simp at hl
    | [a] => simp at hl; omega
    | a :: b :: l' =>
      have hl' : l'.length = 2 * t := by
        simp only [List.length_cons] at hl
        omega
      rw [List.range_succ_eq_map]
      simp only [List.map_cons, List.map_map, List.flatMap_cons]
      have hfun :
          ((fun i => ((a :: b :: l').getD (2 * i) 0, (a :: b :: l').getD (2 * i + 1) 0))
              ∘ Nat.succ)
            = fun i => (l'.getD (2 * i) 0, l'.getD (2 * i + 1) 0) := by
        funext i
        show ((a :: b :: l').getD (2 * (i + 1)) 0,
              (a :: b :: l').getD (2 * (i + 1) + 1) 0) = _
        rw [show 2 * (i + 1) = 2 * i + 1 + 1 by ring]
        simp only [List.getD_cons_succ]
      rw [hfun, ih l' hl']
      simp

/-- C8: for every participant count `2^k` (`k ≥ 1`) the generated pairing
list pairs `seeds[2i]` against `seeds[2i+1]` of the recursive seed order,
the multiset of all seeds used is exactly `{1..2^k}`, seed 1 lands in the
first half of the bracket and seed 2 in the second half, and for 8 players
the pairs are `(1,8), (4,5), (2,7), (3,6)`. -/
theorem standardPairings_spec (k : Nat) (hk : 1 ≤ k) :
    ((generateStandardPairings (2 ^ k)).flatMap fun p => [p.1, p.2]).Perm
        (List.range' 1 (2 ^ k)) ∧
    (∀ i, i < 2 ^ k / 2 →
      (generateStandardPairings (2 ^ k)).get? i =
        some ((buildBracketSeeds (2 ^ k)).getD (2 * i) 0,
              (buildBracketSeeds (2 ^ k)).getD (2 * i + 1) 0)) ∧
    1 ∈ (buildBracketSeeds (2 ^ k)).take (2 ^ k / 2) ∧
    2 ∈ (buildBracketSeeds (2 ^ k)).drop (2 ^ k / 2) ∧
    generateStandardPairings 8 = [(1, 8), (4, 5), (2, 7), (3, 6)] := by
  have hhalf : 2 ^ k / 2 = 2 ^ (k - 1) := by
    have h2 : (2 : Nat) ^ k = 2 * 2 ^ (k - 1) := by
      rw [← pow_succ']
      congr 1
      omega
    omega
  have hlen : (buildBracketSeeds (2 ^ k)).length = 2 * (2 ^ k / 2) := by
    rw [buildBracketSeeds_length k hk]
    have h2 : (2 : Nat) ^ k = 2 * 2 ^ (k - 1) := by
      rw [← pow_succ']
      congr 1
      omega
    omega
  refine ⟨?_, ?_, ?_, ?_, by decide⟩
  · rw [generateStandardPairings, pairs_flatten (2 ^ k / 2) _ hlen]
    exact buildBracketSeeds_perm k hk
  · intro i hi
    rw [generateStandardPairings]
    rw [List.get?_eq_getElem?, List.getElem?_map, List.getElem?_range hi]
    rfl
  · rw [hhalf]
    exact (buildBracketSeeds_halves k hk).1
  · rw [hhalf]
    exact (buildBracketSeeds_halves k hk).2

/-- Witness for C8 at `k = 3` (8 players). -/
theorem standardPairings_spec_witness :
    ((generateStandardPairings (2 ^ 3)).flatMap fun p => [p.1, p.2]).Perm
        (List.range' 1 (2 ^ 3)) ∧
    (∀ i, i < 2 ^ 3 / 2 →
      (generateStandardPairings (2 ^ 3)).get? i =
        some ((buildBracketSeeds (2 ^ 3)).getD (2 * i) 0,
              (buildBracketSeeds (2 ^ 3)).getD (2 * i + 1) 0)) ∧
    1 ∈ (buildBracketSeeds (2 ^ 3)).take (2 ^ 3 / 2) ∧
    2 ∈ (buildBracketSeeds (2 ^ 3)).drop (2 ^ 3 / 2) ∧
    generateStandardPairings 8 = [(1, 8), (4, 5), (2, 7), (3, 6)] :=
  standardPairings_spec 3 (by decide)

/-- While frozen, `advanceWinner` changes nothing. -/
theorem advanceWinner_frozen (s : BracketState) (cm : BracketMatch)
    (h : s.frozen = true) :
    advanceWinner s cm = s := by
  rw [advanceWinner]
  by_cases he : (s.matchList.filter fun m => m.round = cm.round + 1).isEmpty = true
  · rw [if_pos he]
  · rw [if_neg he, if_pos h]

/-- `updateMatch` does not change a round-filtered view when neither the
replaced entries nor the replacement pass the filter. -/
theorem filter_updateMatch_out (ms : List BracketMatch) (mid : Nat)
    (m' : BracketMatch) (r : Nat)
    (h : ∀ mm ∈ ms, mm.matchId = mid → ¬ r < mm.round) (h' : ¬ r < m'.round) :
    (updateMatch ms mid m').filter (fun mm => r < mm.round)
      = ms.filter (fun mm => r < mm.round) := by
  induction ms with
  | nil => rfl
  | cons a t ih =>
    simp only [updateMatch, List.map_cons] at ih ⊢
    by_cases ha : a.matchId = mid
    · rw [if_pos ha, List.filter_cons, List.filter_cons,
        decide_eq_false h', decide_eq_false (h a (List.mem_cons_self a t) ha),
        ih fun mm hmm => h mm (List.mem_cons_of_mem a hmm)]
      simp
    · rw [if_neg ha, List.filter_cons, List.filter_cons,
        ih fun mm hmm => h mm (List.mem_cons_of_mem a hmm)]

/-- C6: while the tournament is frozen, a `recordWin` call never changes any
match of a later round than the one it scores (no winner is placed); a
subsequent `resume` succeeds and folds the placement step over exactly the
completed non-final matches with a winner, taken in ascending `matchId`
order, and each such step either skips (when the winner is already present
in its next-round match) or applies the normal `advanceWinner` placement
rule. -/
theorem freeze_recordWin_resume (s : BracketState) (w l : String) (m : BracketMatch) :
    (s.frozen = true → lookupMatch s w = some m →
      (∀ mm ∈ s.matchList, mm.matchId = m.matchId → mm.round = m.round) →
      ∀ r, m.round ≤ r →
        (recordWin s w l).matchList.filter (fun mm => r < mm.round)
          = s.matchList.filter (fun mm => r < mm.round)) ∧
    (s.initialized = true → s.frozen = true →
      List.Pairwise (fun a b => a.matchId < b.matchId) s.matchList →
      ∀ s0, s0 = { s with frozen := false } →
      ∀ pending, pending = (s0.matchList.filter fun mm =>
          decide (mm.status = MatchStatus.complete ∧ mm.winner ≠ none ∧
            mm.round < maxRoundOf s0)) →
      resume s = Except.ok (pending.foldl resumeStep s0) ∧
      List.Pairwise (fun a b => a.matchId < b.matchId) pending) ∧
    (∀ st mm nm fid,
      (st.matchList.filter fun x => x.round = mm.round + 1) ≠ [] →
      minMatchId? (st.matchList.filter fun x => x.round = mm.round) = some fid →
      (st.matchList.filter fun x => x.round = mm.round + 1).get?
          ((mm.matchId - fid) / 2) = some nm →
      ((nm.player1 = mm.winner.getD "" ∨ nm.player2 = mm.winner.getD "") →
        resumeStep st mm = st) ∧
      (¬ (nm.player1 = mm.winner.getD "" ∨ nm.player2 = mm.winner.getD "") →
        mm.winner ≠ none → resumeStep st mm = advanceWinner st mm)) := by
  refine ⟨?_, ?_, ?_⟩
  · intro hfro hm huniq r hr
    simp only [recordWin, hm]
    by_cases hguard : (m.player1 = w ∧ m.player2 = l) ∨ (m.player2 = w ∧ m.player1 = l)
    case neg =>
      rw [if_pos hguard]
    rw [if_neg (not_not_intro hguard)]
    by_cases hw : m.player1 = w
    · simp only [hw, eq_self_iff_true, if_true]
      by_cases hthr : s.bestOf / 2 + 1 ≤ m.p1wins + 1 ∨ s.bestOf / 2 + 1 ≤ m.p2wins
      · simp only [if_pos hthr]
        rw [advanceWinner_frozen]
        · exact filter_updateMatch_out _ _ _ r
            (fun mm hmm hid => by rw [huniq mm hmm hid]; omega) (by simp; omega)
        · exact hfro
      · simp only [if_neg hthr]
        exact filter_updateMatch_out _ _ _ r
          (fun mm hmm hid => by rw [huniq mm hmm hid]; omega) (by simp; omega)
    · simp only [if_neg hw]
      by_cases hthr : s.bestOf / 2 + 1 ≤ m.p1wins ∨ s.bestOf / 2 + 1 ≤ m.p2wins + 1
      · simp only [if_pos hthr]
        rw [advanceWinner_frozen]
        · exact filter_updateMatch_out _ _ _ r
            (fun mm hmm hid => by rw [huniq mm hmm hid]; omega) (by simp; omega)
        · exact hfro
      · simp only [if_neg hthr]
        exact filter_updateMatch_out _ _ _ r
          (fun mm hmm hid => by rw [huniq mm hmm hid]; omega) (by simp; omega)
  · intro hinit hfro hsorted s0 hs0 pending hpending
    constructor
    · rw [resume, if_neg (not_not_intro hinit), if_neg (not_not_intro hfro)]
      subst hs0
      subst hpending
      rfl
    · subst hs0
      subst hpending
      exact hsorted.filter _
  · intro st mm nm fid hne hfid hnm
    have hempty : ((st.matchList.filter fun x => x.round = mm.round + 1).isEmpty) = false := by
      rw [Bool.eq_false_iff]
      intro h
      exact hne (List.isEmpty_iff.mp h)
    constructor
    · intro hpresent
      rw [resumeStep]
      simp only [hempty, Bool.false_eq_true, if_false, hfid, hnm]
      rw [if_pos hpresent]
    · intro habsent hwinner
      rw [resumeStep]
      simp only [hempty, Bool.false_eq_true, if_false, hfid, hnm]
      rw [if_neg habsent, if_neg hwinner]

/-- Witness for C6: resuming the frozen fixture advances the stored winner
into the pending round-2 match. -/
theorem freeze_recordWin_resume_witness :
    resume bracket4F
      = Except.ok
        { format := "f", participants := 4, bestOf := 1, currentRound := 1,
          matchList :=
            [{ round := 1, matchId := 1, player1 := "a", player2 := "d",
               player1Display := "A", player2Display := "D", p1wins := 1, p2wins := 0,
               status := MatchStatus.complete, winner := some "a",
               winnerDisplay := some "A" },
             { round := 1, matchId := 2, player1 := "b", player2 := "c",
               player1Display := "B", player2Display := "C", p1wins := 0, p2wins := 0,
               status := MatchStatus.active, winner := none, winnerDisplay := none },
             { round := 2, matchId := 3, player1 := "a", player2 := "",
               player1Display := "A", player2Display := "", p1wins := 0, p2wins := 0,
               status := MatchStatus.waiting, winner := none, winnerDisplay := none }],
          playerMatches := [("b", 2), ("c", 2)],
          displayNames := [("a", "A"), ("b", "B"), ("c", "C"), ("d", "D")],
          initialized := true, frozen := false } := by
  have h := ((freeze_recordWin_resume bracket4F "a" "d"
    { round := 1, matchId := 1, player1 := "a", player2 := "d",
      player1Display := "A", player2Display := "D", p1wins := 1, p2wins := 0,
      status := MatchStatus.complete, winner := some "a",
      winnerDisplay := some "A" }).2.1
    rfl rfl (by decide) _ rfl _ rfl).1
  exact h.trans (congrArg Except.ok (by decide))

/-- C4 (amended): for every row written back by `updateRow`, the gxe cell is
the "Unknown" sentinel exactly when the row's (new) `rd` exceeds 100, and
otherwise it is a percentage in `[0, 100]`; the invariant holds because the
row's `rd` and gxe cells are both computed from the same `calculateGlicko`
deviation.  (A freshly seeded row instead carries the number 50 with
`rd = 130` — see the counterexample.) -/
theorem updateRow_gxe_rd_invariant (rating rd : ℝ) (row : LadderRow) (score : ℚ)
    (foeElo foeGlicko foeRd : ℝ) (now : String) :
    ((calculateGXE rating rd).1 = true ↔ 100 < rd) ∧
    (¬ 100 < rd →
      0 ≤ (calculateGXE rating rd).2 ∧ (calculateGXE rating rd).2 ≤ 100) ∧
    (updateRow row score foeElo foeGlicko foeRd now).gxeUnknown
      = (calculateGXE (calculateGlicko row.glicko row.rd foeGlicko foeRd score).1
          (calculateGlicko row.glicko row.rd foeGlicko foeRd score).2).1 ∧
    (updateRow row score foeElo foeGlicko foeRd now).gxeValue
      = (calculateGXE (calculateGlicko row.glicko row.rd foeGlicko foeRd score).1
          (calculateGlicko row.glicko row.rd foeGlicko foeRd score).2).2 ∧
    (updateRow row score foeElo foeGlicko foeRd now).rd
      = (calculateGlicko row.glicko row.rd foeGlicko foeRd score).2 := by
  refine ⟨?_, ?_, ?_, ?_, ?_⟩
  · by_cases h : 100 < rd
    · rw [calculateGXE, if_pos h]
      simpa using h
    · rw [calculateGXE, if_neg h]
      simpa using h
  · intro h
    rw [calculateGXE, if_neg h]
    set ex : ℝ := (1500 - rating) * Real.pi /
      Real.sqrt (3 * Real.log 10 ^ 2 * rd ^ 2 +
        2500 * (64 * Real.pi ^ 2 + 147 * Real.log 10 ^ 2)) with hex
    have hpow : (0 : ℝ) < (10 : ℝ) ^ ex := Real.rpow_pos_of_pos (by norm_num) _
    have hglix0 : (0 : ℝ) < 10000 / (1 + (10 : ℝ) ^ ex) := by
      apply div_pos (by norm_num)
      linarith
    have hglix1 : 10000 / (1 + (10 : ℝ) ^ ex) < 10000 := by
      rw [div_lt_iff₀ (by linarith)]
      nlinarith [hpow]
    constructor
    · show 0 ≤ jsRound (10000 / (1 + (10 : ℝ) ^ ex)) / 100
      rw [jsRound, round_eq]
      have h0 : (0 : ℤ) ≤ ⌊10000 / (1 + (10 : ℝ) ^ ex) + 1 / 2⌋ :=
        Int.floor_nonneg.mpr (by linarith)
      apply div_nonneg _ (by norm_num : (0:ℝ) ≤ 100)
      exact_mod_cast h0
    · show jsRound (10000 / (1 + (10 : ℝ) ^ ex)) / 100 ≤ 100
      rw [jsRound, round_eq, div_le_iff₀ (by norm_num : (0:ℝ) < 100)]
      have hlt : ⌊10000 / (1 + (10 : ℝ) ^ ex) + 1 / 2⌋ < 10001 := by
        rw [Int.floor_lt]
        push_cast
        nlinarith [hglix1]
      have hle : (⌊10000 / (1 + (10 : ℝ) ^ ex) + 1 / 2⌋ : ℤ) ≤ 10000 := by omega
      calc (⌊10000 / (1 + (10 : ℝ) ^ ex) + 1 / 2⌋ : ℝ) ≤ (10000 : ℝ) := by
            exact_mod_cast hle
        _ ≤ 100 * 100 := by norm_num
  · rw [updateRow]
    by_cases h1 : (3 / 5 : ℚ) < score
    · simp [h1]
    · by_cases h2 : score < (2 / 5 : ℚ) <;> simp [h1, h2]
  · rw [updateRow]
    by_cases h1 : (3 / 5 : ℚ) < score
    · simp [h1]
    · by_cases h2 : score < (2 / 5 : ℚ) <;> simp [h1, h2]
  · rw [updateRow]
    by_cases h1 : (3 / 5 : ℚ) < score
    · simp [h1]
    · by_cases h2 : score < (2 / 5 : ℚ) <;> simp [h1, h2]

/-- Witness for C4: at `rd = 90` the invariant yields a percentage in
`[0, 100]`, and the wiring of `updateRow` at a concrete row. -/
theorem updateRow_gxe_rd_invariant_witness :
    0 ≤ (calculateGXE 1500 90).2 ∧ (calculateGXE 1500 90).2 ≤ 100 :=
  (updateRow_gxe_rd_invariant 1500 90 (seedRow "x" "") 1 1000 1500 130 "").2.1
    (by norm_num)

/-- C4 counterexample: the freshly seeded row has `rd = 130 > 100` yet its
gxe cell is the number `50`, not the "Unknown" sentinel. -/
theorem seedRow_gxe_counterexample :
    (seedRow "Alice" "now").rd = 130 ∧ 100 < (seedRow "Alice" "now").rd ∧
    (seedRow "Alice" "now").gxeUnknown = false ∧
    (seedRow "Alice" "now").gxeValue = 50 := by
  refine ⟨rfl, by norm_num [seedRow], rfl, rfl⟩

/-- Replacing the entry at `i` changes a mapped sum by the difference of the
images (phrased additively; the default of the read is irrelevant in range). -/
theorem sum_map_set (f : LadderRow → Nat) (lad : List LadderRow) :
    ∀ (i : Nat) (r d : LadderRow), i < lad.length →
      ((lad.set i r).map f).sum + f ((lad.get? i).getD d)
        = (lad.map f).sum + f r := by
  induction lad with
  | nil => intro i r d h; simp at h
  | cons a t ih =>
    intro i r d h
    cases i with
    | zero => simp [List.set_cons_zero]; omega
    | succ i =>
      rw [List.set_cons_succ, List.map_cons, List.map_cons]
      simp only [List.sum_cons, List.get?_cons_succ]
      have := ih i r d (by simpa using h)
      omega

/-- A list is a permutation of the erased-at-`i` list with the removed row
in front. -/
theorem perm_cons_eraseIdx (lad : List LadderRow) :
    ∀ (i : Nat) (row : LadderRow), lad.get? i = some row →
      lad.Perm (row :: lad.eraseIdx i) := by
  induction lad with
  | nil => intro i row h; simp at h
  | cons a t ih =>
    intro i row h
    cases i with
    | zero =>
      rw [List.get?_cons_zero] at h
      rw [Option.some.injEq] at h
      subst h
      rfl
    | succ i =>
      rw [List.get?_cons_succ] at h
      exact ((ih i row h).cons a).trans (List.Perm.swap row a _)

/-- `ladderLeftScan` never moves right. -/
theorem ladderLeftScan_le (lad : List LadderRow) (v : ℝ) :
    ∀ i, ladderLeftScan lad v i ≤ i := by
  intro i
  induction i with
  | zero => rw [ladderLeftScan]
  | succ i ih =>
    rw [ladderLeftScan]
    cases lad.get? i with
    | none => simp
    | some r =>
      by_cases hr : r.elo ≤ v
      · simp only [hr, if_true]
        omega
      · simp [hr]

/-- `ladderRightScan` stays within the ladder (the scanned index is in
range and the scan stops at `none`). -/
theorem ladderRightScan_le_length (lad : List LadderRow) (pIdx : Nat) (v : ℝ)
    (hp : pIdx < lad.length) :
    ∀ fuel i, i ≤ lad.length → ladderRightScan lad pIdx v i fuel ≤ lad.length := by
  intro fuel
  induction fuel with
  | zero => intro i hi; rw [ladderRightScan]; exact hi
  | succ fuel ih =>
    intro i hi
    rw [ladderRightScan]
    by_cases hpi : i = pIdx
    · rw [if_pos hpi]
      exact ih (i + 1) (by omega)
    · rw [if_neg hpi]
      cases hg : lad.get? i with
      | none => exact hi
      | some r =>
        have hilt : i < lad.length := by
          by_contra hle
          rw [List.get?_eq_none.mpr (by omega)] at hg
          exact Option.noConfusion hg
        simp only []
        by_cases hr : v < r.elo
        · rw [if_pos hr]
          exact ih (i + 1) (by omega)
        · rw [if_neg hr]
          omega

/-- `moveRowTrack` permutes the ladder. -/
theorem moveRowTrack_perm (lad : List LadderRow) (idx track : Nat) (v : ℝ) :
    (moveRowTrack lad idx track v).1.Perm lad := by
  rw [moveRowTrack]
  by_cases hni : ladderRightScan lad idx v (ladderLeftScan lad v idx) (lad.length + 1) ≠ idx ∧
      ladderRightScan lad idx v (ladderLeftScan lad v idx) (lad.length + 1) ≠ idx + 1
  · rw [if_pos hni]
    cases hg : lad.get? idx with
    | none => exact List.Perm.refl _
    | some row =>
      simp only []
      have hidx : idx < lad.length := by
        by_contra hle
        rw [List.get?_eq_none.mpr (by omega)] at hg
        exact Option.noConfusion hg
      have hni_le : ladderRightScan lad idx v (ladderLeftScan lad v idx) (lad.length + 1)
          ≤ lad.length :=
        ladderRightScan_le_length lad idx v hidx _ _
          (le_trans (ladderLeftScan_le lad v idx) (by omega))
      have hins : (if idx < ladderRightScan lad idx v (ladderLeftScan lad v idx)
            (lad.length + 1)
          then ladderRightScan lad idx v (ladderLeftScan lad v idx) (lad.length + 1) - 1
          else ladderRightScan lad idx v (ladderLeftScan lad v idx) (lad.length + 1))
          ≤ (lad.eraseIdx idx).length := by
        rw [List.length_eraseIdx_of_lt hidx]
        by_cases hlt : idx < ladderRightScan lad idx v (ladderLeftScan lad v idx)
            (lad.length + 1)
        · rw [if_pos hlt]; omega
        · rw [if_neg hlt]; omega
      exact (List.perm_insertIdx _ _ hins).trans
        (perm_cons_eraseIdx lad idx row hg).symm
  · rw [if_neg hni]

/-- `updateRatingMove` permutes the ladder. -/
theorem updateRatingMove_perm (lad : List LadderRow) (i j : Nat) :
    (updateRatingMove lad i j).Perm lad := by
  rw [updateRatingMove]
  exact (moveRowTrack_perm _ _ _ _).trans (moveRowTrack_perm _ _ _ _)

/-- Win counter written by `updateRow`. -/
theorem updateRow_w (row : LadderRow) (score : ℚ) (fe fg fr : ℝ) (now : String) :
    (updateRow row score fe fg fr now).w
      = row.w + (if (3 / 5 : ℚ) < score then 1 else 0) := by
  rw [updateRow]
  by_cases h1 : (3 / 5 : ℚ) < score
  · simp [h1]
  · by_cases h2 : score < (2 / 5 : ℚ) <;> simp [h1, h2]

/-- Loss counter written by `updateRow`. -/
theorem updateRow_l (row : LadderRow) (score : ℚ) (fe fg fr : ℝ) (now : String) :
    (updateRow row score fe fg fr now).l
      = row.l + (if ¬ (3 / 5 : ℚ) < score ∧ score < (2 / 5 : ℚ) then 1 else 0) := by
  rw [updateRow]
  by_cases h1 : (3 / 5 : ℚ) < score
  · simp [h1]
  · by_cases h2 : score < (2 / 5 : ℚ) <;> simp [h1, h2]

/-- `updateH2H` does not touch the win and loss counters. -/
theorem updateH2H_w_l (row : LadderRow) (o : String) (res : H2HResult) :
    (updateH2H row o res).w = row.w ∧ (updateH2H row o res).l = row.l :=
  ⟨rfl, rfl⟩

/-- `indexOfUserCreate` returns an in-range index and leaves the win/loss
sums unchanged (a seeded row has `w = l = 0`). -/
theorem indexOfUserCreate_spec (lad : List LadderRow) (name now : String) :
    (indexOfUserCreate lad name now).2 < (indexOfUserCreate lad name now).1.length ∧
    sumW (indexOfUserCreate lad name now).1 = sumW lad ∧
    sumL (indexOfUserCreate lad name now).1 = sumL lad := by
  rw [indexOfUserCreate]
  cases hf : lad.findIdx? (fun r => r.userid = toID name) with
  | none =>
    refine ⟨by simp, ?_, ?_⟩ <;>
      simp [sumW, sumL, seedRow]
  | some i =>
    have hlt : i < lad.length :=
      (List.findIdx?_eq_some_iff_findIdx_eq.mp hf).1
    exact ⟨hlt, rfl, rfl⟩

/-- Writing back the row read at the same index is the identity. -/
theorem set_read_self :
    ∀ (l : List LadderRow) (i : Nat) (d : LadderRow),
      l.set i ((l.get? i).getD d) = l := by
  intro l
  induction l with
  | nil => intro i d; rfl
  | cons a t ih =>
    intro i d
    cases i with
    | zero => rfl
    | succ i =>
      rw [List.get?_cons_succ, List.set_cons_succ, ih]

/-- Replacing with rows of equal image gives equal mapped sums. -/
theorem sum_map_set_congr (f : LadderRow → Nat) :
    ∀ (l : List LadderRow) (i : Nat) (r r' : LadderRow), f r = f r' →
      ((l.set i r).map f).sum = ((l.set i r').map f).sum := by
  intro l
  induction l with
  | nil => intro i r r' h; rfl
  | cons a t ih =>
    intro i r r' h
    cases i with
    | zero => simp [h]
    | succ i =>
      rw [List.set_cons_succ, List.set_cons_succ, List.map_cons, List.map_cons]
      rw [List.sum_cons, List.sum_cons, ih i r r' h]

/-- An in-place `updateH2H` write leaves the win total unchanged. -/
theorem sumW_set_h2h (l : List LadderRow) (i : Nat) (d : LadderRow) (o : String)
    (res : H2HResult) :
    sumW (l.set i (updateH2H ((l.get? i).getD d) o res)) = sumW l := by
  rw [sumW, sum_map_set_congr (fun r => r.w) l i
    (updateH2H ((l.get? i).getD d) o res) ((l.get? i).getD d) rfl]
  rw [set_read_self]
  rfl

/-- An in-place `updateH2H` write leaves the loss total unchanged. -/
theorem sumL_set_h2h (l : List LadderRow) (i : Nat) (d : LadderRow) (o : String)
    (res : H2HResult) :
    sumL (l.set i (updateH2H ((l.get? i).getD d) o res)) = sumL l := by
  rw [sumL, sum_map_set_congr (fun r => r.l) l i
    (updateH2H ((l.get? i).getD d) o res) ((l.get? i).getD d) rfl]
  rw [set_read_self]
  rfl

/-- An in-place `updateRow` write bumps the win total by the win indicator. -/
theorem sumW_set_updateRow (l : List LadderRow) (i : Nat) (d : LadderRow)
    (s : ℚ) (a b c : ℝ) (n : String) (hi : i < l.length) :
    sumW (l.set i (updateRow ((l.get? i).getD d) s a b c n))
      = sumW l + (if (3 / 5 : ℚ) < s then 1 else 0) := by
  have h := sum_map_set (fun r => r.w) l i
    (updateRow ((l.get? i).getD d) s a b c n) d hi
  simp only [] at h
  rw [updateRow_w] at h
  rw [sumW, sumW]
  omega

/-- An in-place `updateRow` write bumps the loss total by the loss
indicator. -/
theorem sumL_set_updateRow (l : List LadderRow) (i : Nat) (d : LadderRow)
    (s : ℚ) (a b c : ℝ) (n : String) (hi : i < l.length) :
    sumL (l.set i (updateRow ((l.get? i).getD d) s a b c n))
      = sumL l + (if ¬ (3 / 5 : ℚ) < s ∧ s < (2 / 5 : ℚ) then 1 else 0) := by
  have h := sum_map_set (fun r => r.l) l i
    (updateRow ((l.get? i).getD d) s a b c n) d hi
  simp only [] at h
  rw [updateRow_l] at h
  rw [sumL, sumL]
  omega

/-- The moves at the end of `updateRating` leave the win total unchanged. -/
theorem sumW_updateRatingMove (l : List LadderRow) (i j : Nat) :
    sumW (updateRatingMove l i j) = sumW l := by
  rw [sumW, sumW]
  exact ((updateRatingMove_perm l i j).map (fun r => r.w)).sum_eq

/-- The moves at the end of `updateRating` leave the loss total unchanged. -/
theorem sumL_updateRatingMove (l : List LadderRow) (i j : Nat) :
    sumL (updateRatingMove l i j) = sumL l := by
  rw [sumL, sumL]
  exact ((updateRatingMove_perm l i j).map (fun r => r.l)).sum_eq

/-- `indexOfUserCreate` grows the ladder monotonically. -/
theorem indexOfUserCreate_length (lad : List LadderRow) (name now : String) :
    lad.length ≤ (indexOfUserCreate lad name now).1.length := by
  rw [indexOfUserCreate]
  cases lad.findIdx? (fun r => r.userid = toID name) with
  | none => simp
  | some i => exact le_rfl

/-- Sum bookkeeping of one `updateRating` call: with a non-negative score
the win and loss totals advance in lock step (exactly one of the two
`updateRow` writes records a win and the other a loss, or both record
neither on a tie), while a negative score forces both players' scores to
`0`, recording two losses and no win. -/
theorem updateRating_sums (lad : List LadderRow) (p1 p2 : String) (s : ℚ)
    (now : String) :
    (0 ≤ s →
      sumW (updateRating false lad p1 p2 s now) + sumL lad
        = sumL (updateRating false lad p1 p2 s now) + sumW lad) ∧
    (s < 0 →
      sumW (updateRating false lad p1 p2 s now) = sumW lad ∧
      sumL (updateRating false lad p1 p2 s now) = sumL lad + 2) := by
  have h1 := indexOfUserCreate_spec lad p1 now
  have h2 := indexOfUserCreate_spec (indexOfUserCreate lad p1 now).1 p2 now
  have hi2 : (indexOfUserCreate lad p1 now).2
      < (indexOfUserCreate (indexOfUserCreate lad p1 now).1 p2 now).1.length :=
    lt_of_lt_of_le h1.1 (indexOfUserCreate_length _ p2 now)
  have hj2 := h2.1
  by_cases hneg : s < 0
  · constructor
    · intro h0
      exact absurd hneg (not_lt.mpr h0)
    · intro _
      have c3 : ¬ ((3 : ℚ) / 5 < 0) := by norm_num
      have c4 : (0 : ℚ) < 2 / 5 := by norm_num
      simp only [updateRating, Bool.false_eq_true, if_false, if_pos hneg,
        if_neg c3, if_pos c4]
      constructor
      · rw [sumW_updateRatingMove, sumW_set_h2h, sumW_set_h2h]
        rw [sumW_set_updateRow]
        rotate_left
        · simp only [List.length_set]
          exact hj2
        rw [sumW_set_updateRow]
        rotate_left
        · exact hi2
        rw [if_neg c3]
        have e1 := h1.2.1
        have e2 := h2.2.1
        omega
      · rw [sumL_updateRatingMove, sumL_set_h2h, sumL_set_h2h]
        rw [sumL_set_updateRow]
        rotate_left
        · simp only [List.length_set]
          exact hj2
        rw [sumL_set_updateRow]
        rotate_left
        · exact hi2
        rw [if_pos (And.intro c3 c4)]
        have e1 := h1.2.2
        have e2 := h2.2.2
        omega
  · push_neg at hneg
    refine ⟨fun _ => ?_, fun hs0 => absurd hs0 (not_lt.mpr hneg)⟩
    have hn : ¬ s < 0 := not_lt.mpr hneg
    by_cases hw1 : (3 / 5 : ℚ) < s
    · have cW2 : ¬ ((3 : ℚ) / 5 < 1 - s) := by linarith
      have cL1 : ¬ (¬ (3 / 5 : ℚ) < s ∧ s < 2 / 5) := fun h => h.1 hw1
      have cL2 : (¬ (3 : ℚ) / 5 < 1 - s) ∧ 1 - s < 2 / 5 := ⟨cW2, by linarith⟩
      simp only [updateRating, Bool.false_eq_true, if_false, if_neg hn,
        if_pos hw1]
      rw [sumW_updateRatingMove, sumW_set_h2h, sumW_set_h2h]
      rw [sumW_set_updateRow]
      rotate_left
      · simp only [List.length_set]
        exact hj2
      rw [sumW_set_updateRow]
      rotate_left
      · exact hi2
      rw [sumL_updateRatingMove, sumL_set_h2h, sumL_set_h2h]
      rw [sumL_set_updateRow]
      rotate_left
      · simp only [List.length_set]
        exact hj2
      rw [sumL_set_updateRow]
      rotate_left
      · exact hi2
      rw [if_pos hw1, if_neg cW2, if_neg cL1, if_pos cL2]
      have e1 := h1.2.1
      have e2 := h2.2.1
      have e3 := h1.2.2
      have e4 := h2.2.2
      omega
    · by_cases hw2 : s < (2 / 5 : ℚ)
      · have cW2 : (3 : ℚ) / 5 < 1 - s := by linarith
        have cL1 : ¬ (3 / 5 : ℚ) < s ∧ s < 2 / 5 := ⟨hw1, hw2⟩
        have cL2 : ¬ ((¬ (3 : ℚ) / 5 < 1 - s) ∧ 1 - s < 2 / 5) :=
          fun h => h.1 cW2
        simp only [updateRating, Bool.false_eq_true, if_false, if_neg hn,
          if_neg hw1, if_pos hw2]
        rw [sumW_updateRatingMove, sumW_set_h2h, sumW_set_h2h]
        rw [sumW_set_updateRow]
        rotate_left
        · simp only [List.length_set]
          exact hj2
        rw [sumW_set_updateRow]
        rotate_left
        · exact hi2
        rw [sumL_updateRatingMove, sumL_set_h2h, sumL_set_h2h]
        rw [sumL_set_updateRow]
        rotate_left
        · simp only [List.length_set]
          exact hj2
        rw [sumL_set_updateRow]
        rotate_left
        · exact hi2
        rw [if_neg hw1, if_pos cW2, if_pos cL1, if_neg cL2]
        have e1 := h1.2.1
        have e2 := h2.2.1
        have e3 := h1.2.2
        have e4 := h2.2.2
        omega
      · have cW2 : ¬ ((3 : ℚ) / 5 < 1 - s) := by
          have := not_lt.mp hw2
          linarith
        have cL1 : ¬ (¬ (3 / 5 : ℚ) < s ∧ s < 2 / 5) := fun h => hw2 h.2
        have cL2 : ¬ ((¬ (3 : ℚ) / 5 < 1 - s) ∧ 1 - s < 2 / 5) :=
          fun h => hw1 (by linarith [h.2])
        simp only [updateRating, Bool.false_eq_true, if_false, if_neg hn,
          if_neg hw1, if_neg hw2]
        rw [sumW_updateRatingMove, sumW_set_h2h, sumW_set_h2h]
        rw [sumW_set_updateRow]
        rotate_left
        · simp only [List.length_set]
          exact hj2
        rw [sumW_set_updateRow]
        rotate_left
        · exact hi2
        rw [sumL_updateRatingMove, sumL_set_h2h, sumL_set_h2h]
        rw [sumL_set_updateRow]
        rotate_left
        · simp only [List.length_set]
          exact hj2
        rw [sumL_set_updateRow]
        rotate_left
        · exact hi2
        rw [if_neg hw1, if_neg cW2, if_neg cL1, if_neg cL2]
        have e1 := h1.2.1
        have e2 := h2.2.1
        have e3 := h1.2.2
        have e4 := h2.2.2
        omega

/-- C9: over any sequence of rated updates with non-negative `p1score`
starting from an empty ladder, total recorded wins equal total recorded
losses; the spec's unconditional claim fails for negative scores, where
`updateRating` zeroes both scores and both `updateRow` writes record a
loss, adding two losses and no win. -/
theorem updateRating_w_l_balance :
    (∀ ops : List (String × String × ℚ), (∀ op ∈ ops, 0 ≤ op.2.2) →
      sumW (runUpdates ops) = sumL (runUpdates ops)) ∧
    (∀ (lad : List LadderRow) (p1 p2 : String) (s : ℚ) (now : String),
      s < 0 →
      sumW (updateRating false lad p1 p2 s now) = sumW lad ∧
      sumL (updateRating false lad p1 p2 s now) = sumL lad + 2) := by
  constructor
  · have H : ∀ (ops : List (String × String × ℚ)) (lad : List LadderRow),
        (∀ op ∈ ops, 0 ≤ op.2.2) → sumW lad = sumL lad →
        sumW (ops.foldl
            (fun lad op => updateRating false lad op.1 op.2.1 op.2.2 "") lad)
          = sumL (ops.foldl
            (fun lad op => updateRating false lad op.1 op.2.1 op.2.2 "") lad) := by
      intro ops
      induction ops with
      | nil =>
        intro lad _ hb
        simpa using hb
      | cons op t ih =>
        intro lad hnn hb
        rw [List.foldl_cons]
        apply ih
        · intro o ho
          exact hnn o (List.mem_cons_of_mem _ ho)
        · have hs := (updateRating_sums lad op.1 op.2.1 op.2.2 "").1
            (hnn op (List.mem_cons_self _ _))
          omega
    intro ops hnn
    exact H ops [] hnn rfl
  · intro lad p1 p2 s now hs0
    exact (updateRating_sums lad p1 p2 s now).2 hs0

/-- Witness for C9 at concrete inputs: the empty sequence is balanced, and
a concrete negative-score call on the empty ladder yields no win and two
losses. -/
theorem updateRating_w_l_balance_witness :
    (sumW (runUpdates ([] : List (String × String × ℚ)))
      = sumL (runUpdates ([] : List (String × String × ℚ)))) ∧
    (sumW (updateRating false [] "A" "B" (-1) "")
        = sumW ([] : List LadderRow) ∧
      sumL (updateRating false [] "A" "B" (-1) "")
        = sumL ([] : List LadderRow) + 2) :=
  ⟨updateRating_w_l_balance.1 []
      (fun op h => absurd h (List.not_mem_nil op)),
    updateRating_w_l_balance.2 [] "A" "B" (-1) "" (by norm_num)⟩

/-- Counterexample to the spec's unconditional win/loss balance: a single
update with `p1score = -1` leaves the ladder with 0 total wins but 2 total
losses. -/
theorem runUpdates_c9_counterexample :
    sumW (runUpdates [("A", "B", (-1 : ℚ))])
      ≠ sumL (runUpdates [("A", "B", (-1 : ℚ))]) := by
  have h := (updateRating_sums [] "A" "B" (-1) "").2 (by norm_num)
  have e : runUpdates [("A", "B", (-1 : ℚ))]
      = updateRating false [] "A" "B" (-1) "" := rfl
  rw [e, h.1, h.2]
  simp [sumW, sumL]

/-- Lookup in a list with one insertion, in three zones. -/
theorem getElem?_insertIdx_formula {α : Type} (a : α) :
    ∀ (k : Nat) (l : List α), k ≤ l.length → ∀ n : Nat,
      (l.insertIdx k a)[n]? =
        if n < k then l[n]? else if n = k then some a else l[n - 1]? := by
  intro k
  induction k with
  | zero =>
    intro l _ n
    cases n with
    | zero => simp [List.insertIdx_zero]
    | succ m => simp [List.insertIdx_zero]
  | succ k ih =>
    intro l hk n
    cases l with
    | nil => simp at hk
    | cons x xs =>
      rw [List.insertIdx_succ_cons]
      cases n with
      | zero => simp
      | succ m =>
        have hk' : k ≤ xs.length := by simpa using hk
        rw [List.getElem?_cons_succ, ih xs hk' m]
        by_cases h1 : m < k
        · rw [if_pos h1, if_pos (by omega : m + 1 < k + 1), List.getElem?_cons_succ]
        · rw [if_neg h1, if_neg (by omega : ¬ m + 1 < k + 1)]
          by_cases h2 : m = k
          · rw [if_pos h2, if_pos (by omega : m + 1 = k + 1)]
          · cases m with
            | zero => omega
            | succ mm =>
              rw [if_neg h2, if_neg (by omega : ¬ mm + 1 + 1 = k + 1)]
              show xs[mm + 1 - 1]? = (x :: xs)[mm + 1 + 1 - 1]?
              simp

/-- Non-increasing sortedness through optional lookups. -/
theorem sortedDesc_iff_get? (lad : List LadderRow) :
    ladderSortedDesc lad ↔
      ∀ i j ri rj, i < j → lad.get? i = some ri → lad.get? j = some rj →
        rj.elo ≤ ri.elo := by
  rw [ladderSortedDesc, List.pairwise_iff_getElem]
  constructor
  · intro h i j ri rj hij hi hj
    rw [List.get?_eq_getElem?] at hi hj
    obtain ⟨hjl, hje⟩ := List.getElem?_eq_some.mp hj
    obtain ⟨hil, hie⟩ := List.getElem?_eq_some.mp hi
    have hh := h i j hil hjl hij
    rw [hie, hje] at hh
    exact hh
  · intro h i j hi hj hij
    refine h i j _ _ hij ?_ ?_ <;> rw [List.get?_eq_getElem?]
    · exact List.getElem?_eq_some.mpr ⟨hi, rfl⟩
    · exact List.getElem?_eq_some.mpr ⟨hj, rfl⟩

/-- Full specification of the leftward scan: the result is at most the
start, every passed row is `≤ v`, and the row just above the result (when
the result is positive) is `> v`. -/
theorem ladderLeftScan_spec (lad : List LadderRow) (v : ℝ) :
    ∀ start : Nat,
      ladderLeftScan lad v start ≤ start ∧
      (∀ j r, ladderLeftScan lad v start ≤ j → j < start →
        lad.get? j = some r → r.elo ≤ v) ∧
      (ladderLeftScan lad v start = 0 ∨
        ∀ r, lad.get? (ladderLeftScan lad v start - 1) = some r → v < r.elo) := by
  intro start
  induction start with
  | zero =>
    exact ⟨le_rfl, fun j r h1 h2 _ => absurd h2 (Nat.not_lt_zero j), Or.inl rfl⟩
  | succ i ih =>
    simp only [ladderLeftScan]
    cases hgi : lad.get? i with
    | none =>
      simp only []
      refine ⟨le_rfl, fun j r h1 h2 _ => absurd (lt_of_le_of_lt h1 h2)
        (lt_irrefl _), Or.inr ?_⟩
      intro r hr
      rw [Nat.add_sub_cancel, hgi] at hr
      cases hr
    | some r0 =>
      simp only []
      by_cases hle : r0.elo ≤ v
      · rw [if_pos hle]
        obtain ⟨h1, h2, h3⟩ := ih
        refine ⟨h1.trans (Nat.le_succ i), ?_, h3⟩
        intro j r hj1 hj2 hjr
        by_cases hji : j = i
        · subst hji
          rw [hgi] at hjr
          injection hjr with e
          rw [← e]
          exact hle
        · exact h2 j r hj1 (by omega) hjr
      · rw [if_neg hle]
        refine ⟨le_rfl, fun j r h1 h2 _ => absurd (lt_of_le_of_lt h1 h2)
          (lt_irrefl _), Or.inr ?_⟩
        intro r hr
        rw [Nat.add_sub_cancel, hgi] at hr
        injection hr with e
        rw [← e]
        exact not_le.mp hle

/-- Full specification of the rightward scan under sufficient fuel: the
result is between the start and the length, skips only the moved index or
rows `> v`, never lands on the moved index, and the landing row (when in
range) is `≤ v`. -/
theorem ladderRightScan_spec (lad : List LadderRow) (pIdx : Nat) (v : ℝ)
    (hp : pIdx < lad.length) :
    ∀ (fuel i : Nat), i ≤ lad.length → lad.length + 1 ≤ i + fuel →
      i ≤ ladderRightScan lad pIdx v i fuel ∧
      ladderRightScan lad pIdx v i fuel ≤ lad.length ∧
      (∀ j r, i ≤ j → j < ladderRightScan lad pIdx v i fuel →
        lad.get? j = some r → j = pIdx ∨ v < r.elo) ∧
      ladderRightScan lad pIdx v i fuel ≠ pIdx ∧
      (∀ r, lad.get? (ladderRightScan lad pIdx v i fuel) = some r →
        r.elo ≤ v) := by
  intro fuel
  induction fuel with
  | zero =>
    intro i hi hfe
    exact absurd hfe (by omega)
  | succ fuel ih =>
    intro i hi hfe
    simp only [ladderRightScan]
    by_cases hip : i = pIdx
    · rw [if_pos hip]
      have hi' : i + 1 ≤ lad.length := by omega
      obtain ⟨h1, h2, h3, h4, h5⟩ := ih (i + 1) hi' (by omega)
      refine ⟨by omega, h2, ?_, h4, h5⟩
      intro j r hj1 hj2 hjr
      by_cases hji : j = i
      · exact Or.inl (hji ▸ hip)
      · exact h3 j r (by omega) hj2 hjr
    · rw [if_neg hip]
      cases hgi : lad.get? i with
      | none =>
        simp only []
        refine ⟨le_rfl, hi, fun j r h1 h2 _ => absurd (lt_of_le_of_lt h1 h2)
          (lt_irrefl _), hip, ?_⟩
        intro r hr
        rw [hgi] at hr
        cases hr
      | some r0 =>
        simp only []
        by_cases hlt : v < r0.elo
        · rw [if_pos hlt]
          have hi' : i + 1 ≤ lad.length := by
            obtain ⟨hl, _⟩ := List.get?_eq_some.mp hgi
            omega
          obtain ⟨h1, h2, h3, h4, h5⟩ := ih (i + 1) hi' (by omega)
          refine ⟨by omega, h2, ?_, h4, h5⟩
          intro j r hj1 hj2 hjr
          by_cases hji : j = i
          · subst hji
            rw [hgi] at hjr
            injection hjr with e
            rw [← e]
            exact Or.inr hlt
          · exact h3 j r (by omega) hj2 hjr
        · rw [if_neg hlt]
          refine ⟨le_rfl, hi, fun j r h1 h2 _ => absurd (lt_of_le_of_lt h1 h2)
            (lt_irrefl _), hip, ?_⟩
          intro r hr
          rw [hgi] at hr
          injection hr with e
          rw [← e]
          exact not_lt.mp hlt

/-- Erasing the index just written cancels the write. -/
theorem eraseIdx_set_same {α : Type} (l : List α) (i : Nat) (r : α) :
    (l.set i r).eraseIdx i = l.eraseIdx i := by
  apply List.ext_getElem?
  intro n
  by_cases hn : n < i
  · rw [List.getElem?_eraseIdx_of_lt _ _ _ hn,
      List.getElem?_eraseIdx_of_lt _ _ _ hn,
      List.getElem?_set_ne (by omega : i ≠ n)]
  · rw [List.getElem?_eraseIdx_of_ge _ _ _ (by omega),
      List.getElem?_eraseIdx_of_ge _ _ _ (by omega),
      List.getElem?_set_ne (by omega : i ≠ n + 1)]

/-- A write below the erased index commutes with the erasure. -/
theorem set_eraseIdx_comm_lt {α : Type} (l : List α) (i j : Nat) (r : α)
    (hj : j < i) (hi : i < l.length) :
    (l.set j r).eraseIdx i = (l.eraseIdx i).set j r := by
  apply List.ext_getElem?
  intro n
  have hEl : (l.eraseIdx i).length = l.length - 1 := List.length_eraseIdx_of_lt hi
  by_cases hn : n < i
  · rw [List.getElem?_eraseIdx_of_lt _ _ _ hn, List.getElem?_set,
      List.getElem?_set]
    by_cases hjn : j = n
    · rw [if_pos hjn, if_pos hjn, if_pos (by omega : j < l.length),
        if_pos (by omega : j < (l.eraseIdx i).length)]
    · rw [if_neg hjn, if_neg hjn, List.getElem?_eraseIdx_of_lt _ _ _ hn]
  · rw [List.getElem?_eraseIdx_of_ge _ _ _ (by omega),
      List.getElem?_set_ne (by omega : j ≠ n + 1),
      List.getElem?_set_ne (by omega : j ≠ n),
      List.getElem?_eraseIdx_of_ge _ _ _ (by omega)]

/-- A write above the erased index commutes with the erasure, shifting down. -/
theorem set_eraseIdx_comm_gt {α : Type} (l : List α) (i j : Nat) (r : α)
    (hj : i < j) (hi : i < l.length) :
    (l.set j r).eraseIdx i = (l.eraseIdx i).set (j - 1) r := by
  apply List.ext_getElem?
  intro n
  have hEl : (l.eraseIdx i).length = l.length - 1 := List.length_eraseIdx_of_lt hi
  by_cases hn : n < i
  · rw [List.getElem?_eraseIdx_of_lt _ _ _ hn,
      List.getElem?_set_ne (by omega : j ≠ n),
      List.getElem?_set_ne (by omega : j - 1 ≠ n),
      List.getElem?_eraseIdx_of_lt _ _ _ hn]
  · rw [List.getElem?_eraseIdx_of_ge _ _ _ (by omega), List.getElem?_set,
      List.getElem?_set]
    by_cases hjn : j = n + 1
    · rw [if_pos hjn, if_pos (by omega : j - 1 = n)]
      by_cases hjl : j < l.length
      · rw [if_pos hjl, if_pos (by omega : j - 1 < (l.eraseIdx i).length)]
      · rw [if_neg hjl, if_neg (by omega : ¬ j - 1 < (l.eraseIdx i).length)]
    · rw [if_neg hjn, if_neg (by omega : ¬ j - 1 = n),
        List.getElem?_eraseIdx_of_ge _ _ _ (by omega)]

/-- Erasing above an insertion point commutes with the insertion. -/
theorem insertIdx_eraseIdx_comm_le {α : Type} (X : List α) (k q : Nat) (r : α)
    (hkq : k ≤ q) (hq : q < X.length) :
    (X.insertIdx k r).eraseIdx (q + 1) = (X.eraseIdx q).insertIdx k r := by
  have hk : k ≤ X.length := by omega
  have hEl : (X.eraseIdx q).length = X.length - 1 := List.length_eraseIdx_of_lt hq
  have hk' : k ≤ (X.eraseIdx q).length := by omega
  apply List.ext_getElem?
  intro n
  rw [getElem?_insertIdx_formula _ _ _ hk']
  by_cases hn : n < q + 1
  · rw [List.getElem?_eraseIdx_of_lt _ _ _ hn,
      getElem?_insertIdx_formula _ _ _ hk]
    by_cases hnk : n < k
    · rw [if_pos hnk, if_pos hnk, List.getElem?_eraseIdx_of_lt _ _ _ (by omega)]
    · rw [if_neg hnk, if_neg hnk]
      by_cases hnek : n = k
      · rw [if_pos hnek, if_pos hnek]
      · rw [if_neg hnek, if_neg hnek,
          List.getElem?_eraseIdx_of_lt _ _ _ (by omega)]
  · rw [List.getElem?_eraseIdx_of_ge _ _ _ (by omega),
      getElem?_insertIdx_formula _ _ _ hk,
      if_neg (by omega : ¬ n + 1 < k), if_neg (by omega : ¬ n + 1 = k),
      if_neg (by omega : ¬ n < k), if_neg (by omega : ¬ n = k),
      List.getElem?_eraseIdx_of_ge _ _ _ (by omega)]
    congr 1
    omega

/-- Erasing below an insertion point commutes with the insertion, shifting
the insertion down. -/
theorem insertIdx_eraseIdx_comm_gt {α : Type} (X : List α) (k q : Nat) (r : α)
    (hkq : q < k) (hk : k ≤ X.length) :
    (X.insertIdx k r).eraseIdx q = (X.eraseIdx q).insertIdx (k - 1) r := by
  have hq : q < X.length := by omega
  have hEl : (X.eraseIdx q).length = X.length - 1 := List.length_eraseIdx_of_lt hq
  have hk' : k - 1 ≤ (X.eraseIdx q).length := by omega
  apply List.ext_getElem?
  intro n
  rw [getElem?_insertIdx_formula _ _ _ hk']
  by_cases hn : n < q
  · rw [List.getElem?_eraseIdx_of_lt _ _ _ hn,
      getElem?_insertIdx_formula _ _ _ hk,
      if_pos (by omega : n < k), if_pos (by omega : n < k - 1),
      List.getElem?_eraseIdx_of_lt _ _ _ hn]
  · rw [List.getElem?_eraseIdx_of_ge _ _ _ (by omega),
      getElem?_insertIdx_formula _ _ _ hk]
    by_cases hnk : n < k - 1
    · rw [if_pos (by omega : n + 1 < k), if_pos hnk,
        List.getElem?_eraseIdx_of_ge _ _ _ (by omega)]
    · rw [if_neg (by omega : ¬ n + 1 < k), if_neg hnk]
      by_cases hnek : n = k - 1
      · rw [if_pos (by omega : n + 1 = k), if_pos hnek]
      · rw [if_neg (by omega : ¬ n + 1 = k), if_neg hnek,
          List.getElem?_eraseIdx_of_ge _ _ _ (by omega)]
        congr 1
        omega

/-- A write at an in-range index is an erase followed by an insert there. -/
theorem set_eq_insertIdx_eraseIdx {α : Type} (l : List α) (i : Nat) (r : α)
    (hi : i < l.length) :
    l.set i r = (l.eraseIdx i).insertIdx i r := by
  have hEl : (l.eraseIdx i).length = l.length - 1 := List.length_eraseIdx_of_lt hi
  have hi' : i ≤ (l.eraseIdx i).length := by omega
  apply List.ext_getElem?
  intro n
  rw [getElem?_insertIdx_formula _ _ _ hi', List.getElem?_set]
  by_cases hn : n < i
  · rw [if_neg (by omega : ¬ i = n), if_pos hn,
      List.getElem?_eraseIdx_of_lt _ _ _ hn]
  · by_cases hne : n = i
    · rw [if_pos (by omega : i = n), if_neg (by omega : ¬ n < i),
        if_pos hne, if_pos (by omega : i < l.length)]
    · rw [if_neg (by omega : ¬ i = n), if_neg hn, if_neg hne,
        List.getElem?_eraseIdx_of_ge _ _ _ (by omega)]
      congr 1
      omega

/-- Inserting a row between the `≥` prefix and the `≤` suffix of a sorted
ladder keeps it sorted. -/
theorem sortedDesc_insertIdx (W : List LadderRow) (k : Nat) (row : LadderRow)
    (hk : k ≤ W.length) (hs : ladderSortedDesc W)
    (hbefore : ∀ m r, m < k → W.get? m = some r → row.elo ≤ r.elo)
    (hafter : ∀ m r, k ≤ m → W.get? m = some r → r.elo ≤ row.elo) :
    ladderSortedDesc (W.insertIdx k row) := by
  rw [sortedDesc_iff_get?] at hs ⊢
  intro i j ri rj hij hi hj
  rw [List.get?_eq_getElem?, getElem?_insertIdx_formula _ _ _ hk] at hi hj
  by_cases hik : i < k
  · rw [if_pos hik] at hi
    by_cases hjk : j < k
    · rw [if_pos hjk] at hj
      exact hs i j ri rj hij ((List.get?_eq_getElem? _ _).trans hi)
        ((List.get?_eq_getElem? _ _).trans hj)
    · by_cases hjek : j = k
      · rw [if_neg hjk, if_pos hjek] at hj
        injection hj with e
        rw [← e]
        exact hbefore i ri hik ((List.get?_eq_getElem? _ _).trans hi)
      · rw [if_neg hjk, if_neg hjek] at hj
        exact hs i (j - 1) ri rj (by omega)
          ((List.get?_eq_getElem? _ _).trans hi)
          ((List.get?_eq_getElem? _ _).trans hj)
  · by_cases hiek : i = k
    · rw [if_neg hik, if_pos hiek] at hi
      injection hi with e
      rw [← e]
      have hjk : ¬ j < k := by omega
      have hjek : ¬ j = k := by omega
      rw [if_neg hjk, if_neg hjek] at hj
      exact hafter (j - 1) rj (by omega) ((List.get?_eq_getElem? _ _).trans hj)
    · rw [if_neg hik, if_neg hiek] at hi
      have hjk : ¬ j < k := by omega
      have hjek : ¬ j = k := by omega
      rw [if_neg hjk, if_neg hjek] at hj
      exact hs (i - 1) (j - 1) ri rj (by omega)
        ((List.get?_eq_getElem? _ _).trans hi)
        ((List.get?_eq_getElem? _ _).trans hj)

/-- Two erasures commute, shifting the larger index. -/
theorem eraseIdx_eraseIdx_comm {α : Type} (l : List α) (u w : Nat) (h : u < w) :
    (l.eraseIdx u).eraseIdx (w - 1) = (l.eraseIdx w).eraseIdx u := by
  apply List.ext_getElem?
  intro n
  by_cases hn1 : n < u
  · rw [List.getElem?_eraseIdx_of_lt _ _ _ (by omega : n < w - 1),
      List.getElem?_eraseIdx_of_lt _ _ _ hn1,
      List.getElem?_eraseIdx_of_lt _ _ _ hn1,
      List.getElem?_eraseIdx_of_lt _ _ _ (by omega : n < w)]
  · by_cases hn2 : n < w - 1
    · rw [List.getElem?_eraseIdx_of_lt _ _ _ hn2,
        List.getElem?_eraseIdx_of_ge _ _ _ (by omega : u ≤ n),
        List.getElem?_eraseIdx_of_ge _ _ _ (by omega : u ≤ n),
        List.getElem?_eraseIdx_of_lt _ _ _ (by omega : n + 1 < w)]
    · rw [List.getElem?_eraseIdx_of_ge _ _ _ (by omega : w - 1 ≤ n),
        List.getElem?_eraseIdx_of_ge _ _ _ (by omega : u ≤ n + 1),
        List.getElem?_eraseIdx_of_ge _ _ _ (by omega : u ≤ n),
        List.getElem?_eraseIdx_of_ge _ _ _ (by omega : w ≤ n + 1)]

/-- Where the combined scans land when one row is out of place: every other
row before the landing point is `≥` the moved row's elo, every other row
from the landing point on is `≤` it. -/
theorem movePos_facts_single (lad : List LadderRow) (t : Nat) (rt : LadderRow)
    (ht : lad.get? t = some rt)
    (hrest : ladderSortedDesc (lad.eraseIdx t)) :
    ∀ ni, ni = ladderRightScan lad t rt.elo (ladderLeftScan lad rt.elo t)
        (lad.length + 1) →
      ni ≤ lad.length ∧ ni ≠ t ∧
      (∀ j r, j < ni → j ≠ t → lad.get? j = some r → rt.elo ≤ r.elo) ∧
      (∀ j r, ni ≤ j → j ≠ t → lad.get? j = some r → r.elo ≤ rt.elo) := by
  intro ni hni
  have htlen : t < lad.length := (List.get?_eq_some.mp ht).1
  obtain ⟨hL1, hL2, hL3⟩ := ladderLeftScan_spec lad rt.elo t
  obtain ⟨hR1, hR2, hR3, hR4, hR5⟩ :=
    ladderRightScan_spec lad t rt.elo htlen (lad.length + 1)
      (ladderLeftScan lad rt.elo t) (by omega) (by omega)
  rw [← hni] at hR1 hR2 hR3 hR4 hR5
  have hE := (sortedDesc_iff_get? _).mp hrest
  have hEg : ∀ j, j < t → (lad.eraseIdx t).get? j = lad.get? j := by
    intro j hj
    rw [List.get?_eq_getElem?, List.get?_eq_getElem?,
      List.getElem?_eraseIdx_of_lt _ _ _ hj]
  have hEg' : ∀ j, t < j → (lad.eraseIdx t).get? (j - 1) = lad.get? j := by
    intro j hj
    rw [List.get?_eq_getElem?, List.get?_eq_getElem?,
      List.getElem?_eraseIdx_of_ge _ _ _ (by omega : t ≤ j - 1)]
    congr 1
    omega
  refine ⟨hR2, hR4, ?_, ?_⟩
  · intro j r hjni hjt hj
    by_cases hjL : ladderLeftScan lad rt.elo t ≤ j
    · rcases hR3 j r hjL hjni hj with h | h
      · exact absurd h hjt
      · exact le_of_lt h
    · push_neg at hjL
      rcases hL3 with h0 | hstop
      · omega
      · have hL0 : 0 < ladderLeftScan lad rt.elo t := by omega
        have hLt : ladderLeftScan lad rt.elo t ≤ t := hL1
        have hgl : ∃ r0, lad.get? (ladderLeftScan lad rt.elo t - 1) = some r0 :=
          ⟨lad.get ⟨_, by omega⟩, List.get?_eq_get (by omega)⟩
        obtain ⟨r0, hr0⟩ := hgl
        have hvr0 : rt.elo < r0.elo := hstop r0 hr0
        by_cases hjl1 : j = ladderLeftScan lad rt.elo t - 1
        · subst hjl1
          rw [hj] at hr0
          injection hr0 with e
          rw [e]
          exact le_of_lt hvr0
        · have : r0.elo ≤ r.elo := by
            refine hE j (ladderLeftScan lad rt.elo t - 1) r r0 (by omega) ?_ ?_
            · rw [hEg j (by omega)]
              exact hj
            · rw [hEg _ (by omega)]
              exact hr0
          linarith
  · intro j r hnij hjt hj
    have hjlen : j < lad.length := (List.get?_eq_some.mp hj).1
    by_cases hjlt : j < t
    · exact hL2 j r (by omega) hjlt hj
    · have hjgt : t < j := by omega
      by_cases hnit : ni < t
      · have ht1 : t - 1 < t := by omega
        have hg1 : ∃ r1, lad.get? (t - 1) = some r1 :=
          ⟨lad.get ⟨_, by omega⟩, List.get?_eq_get (by omega)⟩
        obtain ⟨r1, hr1⟩ := hg1
        have hr1v : r1.elo ≤ rt.elo := hL2 (t - 1) r1 (by omega) (by omega) hr1
        have : r.elo ≤ r1.elo := by
          refine hE (t - 1) (j - 1) r1 r (by omega) ?_ ?_
          · rw [hEg _ (by omega)]
            exact hr1
          · rw [hEg' _ (by omega)]
            exact hj
        linarith
      · have hnigt : t < ni := by omega
        by_cases hnilen : ni < lad.length
        · have hgn : ∃ rn, lad.get? ni = some rn :=
            ⟨lad.get ⟨_, hnilen⟩, List.get?_eq_get hnilen⟩
          obtain ⟨rn, hrn⟩ := hgn
          have hrnv : rn.elo ≤ rt.elo := hR5 rn hrn
          by_cases hjni2 : j = ni
          · subst hjni2
            rw [hj] at hrn
            injection hrn with e
            rw [e]
            exact hrnv
          · have : r.elo ≤ rn.elo := by
              refine hE (ni - 1) (j - 1) rn r (by omega) ?_ ?_
              · rw [hEg' _ (by omega)]
                exact hrn
              · rw [hEg' _ (by omega)]
                exact hj
            linarith
        · omega

/-- Moving the one out-of-place row of an otherwise sorted ladder sorts it. -/
theorem moveRowTrack_sorted_of_rest (lad : List LadderRow) (t tr : Nat)
    (rt : LadderRow) (ht : lad.get? t = some rt)
    (hrest : ladderSortedDesc (lad.eraseIdx t)) :
    ladderSortedDesc (moveRowTrack lad t tr rt.elo).1 := by
  have htlen : t < lad.length := (List.get?_eq_some.mp ht).1
  have hWlen : (lad.eraseIdx t).length = lad.length - 1 :=
    List.length_eraseIdx_of_lt htlen
  obtain ⟨hniL, hniT, hP1, hP2⟩ :=
    movePos_facts_single lad t rt ht hrest _ rfl
  have hEg : ∀ j, j < t → (lad.eraseIdx t).get? j = lad.get? j := by
    intro j hj
    rw [List.get?_eq_getElem?, List.get?_eq_getElem?,
      List.getElem?_eraseIdx_of_lt _ _ _ hj]
  have hEg' : ∀ j, t < j → (lad.eraseIdx t).get? (j - 1) = lad.get? j := by
    intro j hj
    rw [List.get?_eq_getElem?, List.get?_eq_getElem?,
      List.getElem?_eraseIdx_of_ge _ _ _ (by omega : t ≤ j - 1)]
    congr 1
    omega
  simp only [moveRowTrack]
  set nn := ladderRightScan lad t rt.elo (ladderLeftScan lad rt.elo t)
    (lad.length + 1) with hnn
  by_cases hguard : nn ≠ t ∧ nn ≠ t + 1
  · rw [if_pos hguard, ht]
    simp only []
    show ladderSortedDesc
      ((lad.eraseIdx t).insertIdx (if t < nn then nn - 1 else nn) rt)
    obtain ⟨hg1, hg2⟩ := hguard
    by_cases hlt : t < nn
    · rw [if_pos hlt]
      refine sortedDesc_insertIdx _ _ _ (by omega) hrest ?_ ?_
      · intro m r hm hW
        by_cases hmt : m < t
        · rw [hEg m hmt] at hW
          exact hP1 m r (by omega) (by omega) hW
        · have he := hEg' (m + 1) (by omega)
          rw [Nat.add_sub_cancel] at he
          rw [he] at hW
          exact hP1 (m + 1) r (by omega) (by omega) hW
      · intro m r hm hW
        by_cases hmt : m < t
        · rw [hEg m hmt] at hW
          exact hP2 m r (by omega) (by omega) hW
        · have he := hEg' (m + 1) (by omega)
          rw [Nat.add_sub_cancel] at he
          rw [he] at hW
          exact hP2 (m + 1) r (by omega) (by omega) hW
    · rw [if_neg hlt]
      refine sortedDesc_insertIdx _ _ _ (by omega) hrest ?_ ?_
      · intro m r hm hW
        have hmt : m < t := by omega
        rw [hEg m hmt] at hW
        exact hP1 m r (by omega) (by omega) hW
      · intro m r hm hW
        by_cases hmt : m < t
        · rw [hEg m hmt] at hW
          exact hP2 m r (by omega) (by omega) hW
        · have he := hEg' (m + 1) (by omega)
          rw [Nat.add_sub_cancel] at he
          rw [he] at hW
          exact hP2 (m + 1) r (by omega) (by omega) hW
  · rw [if_neg hguard]
    show ladderSortedDesc lad
    have hnt1 : nn = t + 1 := by
      by_contra hc
      exact hguard ⟨hniT, hc⟩
    have h0 : lad.set t rt = lad := by
      have hrt : rt = (lad.get? t).getD rt := by
        rw [ht]
        rfl
      rw [hrt]
      exact set_read_self lad t rt
    have h1 : lad = (lad.eraseIdx t).insertIdx t rt := by
      conv_lhs => rw [← h0]
      exact set_eq_insertIdx_eraseIdx lad t rt htlen
    rw [h1]
    refine sortedDesc_insertIdx _ _ _ (by omega) hrest ?_ ?_
    · intro m r hm hW
      rw [hEg m hm] at hW
      exact hP1 m r (by omega) (by omega) hW
    · intro m r hm hW
      have he := hEg' (m + 1) (by omega)
      rw [Nat.add_sub_cancel] at he
      rw [he] at hW
      exact hP2 (m + 1) r (by omega) (by omega) hW

/-- Inserting a row at the tracked position into the ladder with both
updated rows removed keeps it sorted, given the scan's boundary facts. -/
theorem sortedDesc_insert_two_erased_core (O : List LadderRow) (u w : Nat)
    (A : LadderRow) (huw : u < w) (hw : w < O.length)
    (hs : ladderSortedDesc O) (ni K : Nat) (hni : ni ≤ O.length)
    (hK : K = ni - (if u < ni then 1 else 0) - (if w < ni then 1 else 0))
    (P1 : ∀ j r, j < ni → j ≠ u → j ≠ w → O.get? j = some r → A.elo ≤ r.elo)
    (P2 : ∀ j r, ni ≤ j → j ≠ u → j ≠ w → O.get? j = some r →
      r.elo ≤ A.elo) :
    ladderSortedDesc (((O.eraseIdx w).eraseIdx u).insertIdx K A) := by
  have hWlen1 : (O.eraseIdx w).length = O.length - 1 :=
    List.length_eraseIdx_of_lt hw
  have hWlen : ((O.eraseIdx w).eraseIdx u).length = O.length - 2 := by
    rw [List.length_eraseIdx_of_lt (by omega), hWlen1]
    omega
  have hsW : ladderSortedDesc ((O.eraseIdx w).eraseIdx u) :=
    List.Pairwise.sublist (List.eraseIdx_sublist _ u)
      (List.Pairwise.sublist (List.eraseIdx_sublist _ w) hs)
  have hW1 : ∀ m, m < u → ((O.eraseIdx w).eraseIdx u).get? m = O.get? m := by
    intro m hm
    rw [List.get?_eq_getElem?, List.get?_eq_getElem?,
      List.getElem?_eraseIdx_of_lt _ _ _ hm,
      List.getElem?_eraseIdx_of_lt _ _ _ (by omega : m < w)]
  have hW2 : ∀ m, u ≤ m → m + 1 < w →
      ((O.eraseIdx w).eraseIdx u).get? m = O.get? (m + 1) := by
    intro m hm1 hm2
    rw [List.get?_eq_getElem?, List.get?_eq_getElem?,
      List.getElem?_eraseIdx_of_ge _ _ _ hm1,
      List.getElem?_eraseIdx_of_lt _ _ _ hm2]
  have hW3 : ∀ m, u ≤ m → w ≤ m + 1 →
      ((O.eraseIdx w).eraseIdx u).get? m = O.get? (m + 2) := by
    intro m hm1 hm2
    rw [List.get?_eq_getElem?, List.get?_eq_getElem?,
      List.getElem?_eraseIdx_of_ge _ _ _ hm1,
      List.getElem?_eraseIdx_of_ge _ _ _ hm2]
  have hKcases : (u < ni ∧ w < ni ∧ K = ni - 2) ∨
      (u < ni ∧ ¬ w < ni ∧ K = ni - 1) ∨ (¬ u < ni ∧ K = ni) := by
    by_cases h1 : u < ni
    · by_cases h2 : w < ni
      · rw [if_pos h1, if_pos h2] at hK
        exact Or.inl ⟨h1, h2, by omega⟩
      · rw [if_pos h1, if_neg h2] at hK
        exact Or.inr (Or.inl ⟨h1, h2, by omega⟩)
    · have h2 : ¬ w < ni := by omega
      rw [if_neg h1, if_neg h2] at hK
      exact Or.inr (Or.inr ⟨h1, by omega⟩)
  have hKb : K ≤ ((O.eraseIdx w).eraseIdx u).length := by
    rw [hWlen]
    omega
  refine sortedDesc_insertIdx _ _ _ hKb hsW ?_ ?_
  · intro m r hm hget
    by_cases hm1 : m < u
    · rw [hW1 m hm1] at hget
      exact P1 m r (by omega) (by omega) (by omega) hget
    · by_cases hm2 : m + 1 < w
      · rw [hW2 m (by omega) hm2] at hget
        exact P1 (m + 1) r (by omega) (by omega) (by omega) hget
      · rw [hW3 m (by omega) (by omega)] at hget
        exact P1 (m + 2) r (by omega) (by omega) (by omega) hget
  · intro m r hm hget
    by_cases hm1 : m < u
    · rw [hW1 m hm1] at hget
      exact P2 m r (by omega) (by omega) (by omega) hget
    · by_cases hm2 : m + 1 < w
      · rw [hW2 m (by omega) hm2] at hget
        exact P2 (m + 1) r (by omega) (by omega) (by omega) hget
      · rw [hW3 m (by omega) (by omega)] at hget
        exact P2 (m + 2) r (by omega) (by omega) (by omega) hget

/-- Where the combined scans land when moving `p1`'s row first: relative to
the ORIGINAL sorted ladder, every row other than the two updated ones is
`≥` the moved elo before the landing point and `≤` it from there on,
provided one update is a (weak) rise and the other a (weak) fall. -/
theorem movePos_facts (O : List LadderRow) (p q : Nat) (A B : LadderRow)
    (hp : p < O.length) (hq : q < O.length) (hpq : p ≠ q)
    (hs : ladderSortedDesc O)
    (hsign : ((∀ r, O.get? p = some r → r.elo ≤ A.elo) ∧
              (∀ r, O.get? q = some r → B.elo ≤ r.elo)) ∨
             ((∀ r, O.get? p = some r → A.elo ≤ r.elo) ∧
              (∀ r, O.get? q = some r → r.elo ≤ B.elo))) :
    ∀ ni, ni = ladderRightScan ((O.set p A).set q B) p A.elo
        (ladderLeftScan ((O.set p A).set q B) A.elo p)
        (((O.set p A).set q B).length + 1) →
      ni ≤ O.length ∧ ni ≠ p ∧
      (∀ j r, j < ni → j ≠ p → j ≠ q → O.get? j = some r → A.elo ≤ r.elo) ∧
      (∀ j r, ni ≤ j → j ≠ p → j ≠ q → O.get? j = some r →
        r.elo ≤ A.elo) := by
  intro ni hni
  set M := (O.set p A).set q B with hMdef
  have hMlen : M.length = O.length := by
    rw [hMdef]
    simp [List.length_set]
  have hMO : ∀ j, j ≠ p → j ≠ q → M.get? j = O.get? j := by
    intro j hjp hjq
    rw [hMdef, List.get?_set_ne _ _ (Ne.symm hjq),
      List.get?_set_ne _ _ (Ne.symm hjp)]
  have hMp : M.get? p = some A := by
    rw [hMdef, List.get?_set_ne _ _ (Ne.symm hpq)]
    exact List.get?_set_eq_of_lt A hp
  have hMq : M.get? q = some B := by
    rw [hMdef]
    exact List.get?_set_eq_of_lt B (by rw [List.length_set]; exact hq)
  obtain ⟨rp, hrp⟩ : ∃ rp, O.get? p = some rp := ⟨_, List.get?_eq_get hp⟩
  obtain ⟨rq, hrq⟩ : ∃ rq, O.get? q = some rq := ⟨_, List.get?_eq_get hq⟩
  have hs' := (sortedDesc_iff_get? O).mp hs
  set L := ladderLeftScan M A.elo p with hLdef
  obtain ⟨hL1, hL2, hL3⟩ := ladderLeftScan_spec M A.elo p
  obtain ⟨hR1, hR2, hR3, hR4, hR5⟩ :=
    ladderRightScan_spec M p A.elo (by omega) (M.length + 1) L
      (by omega) (by omega)
  rw [← hLdef] at hL1 hL2 hL3
  rw [← hni] at hR1 hR2 hR3 hR4 hR5
  refine ⟨by omega, hR4, ?_, ?_⟩
  · intro j r hjni hjp hjq hOj
    have hMj : M.get? j = some r := by
      rw [hMO j hjp hjq]
      exact hOj
    by_cases hjL : L ≤ j
    · rcases hR3 j r hjL hjni hMj with h | h
      · exact absurd h hjp
      · exact le_of_lt h
    · push_neg at hjL
      have hL0 : 0 < L := by omega
      rcases hL3 with h0 | hstop
      · omega
      · have hL1p : L - 1 < M.length := by omega
        obtain ⟨r0, hr0⟩ : ∃ r0, M.get? (L - 1) = some r0 :=
          ⟨_, List.get?_eq_get hL1p⟩
        have hvr0 : A.elo < r0.elo := hstop r0 hr0
        by_cases hLq : L - 1 = q
        · have hBr0 : r0 = B := by
            rw [hLq, hMq] at hr0
            injection hr0 with e
            exact e.symm
          rcases hsign with ⟨hA, hB⟩ | ⟨hA, hB⟩
          · have h1 : B.elo ≤ rq.elo := hB rq hrq
            have h2 : rq.elo ≤ r.elo := hs' j q r rq (by omega) hOj hrq
            rw [hBr0] at hvr0
            linarith
          · have h1 : A.elo ≤ rp.elo := hA rp hrp
            have h2 : rp.elo ≤ rq.elo := hs' q p rq rp (by omega) hrq hrp
            have h3 : rq.elo ≤ r.elo := hs' j q r rq (by omega) hOj hrq
            linarith
        · have hr0O : O.get? (L - 1) = some r0 := by
            rw [← hMO (L - 1) (by omega) hLq]
            exact hr0
          by_cases hjL1 : j = L - 1
          · subst hjL1
            rw [hOj] at hr0O
            injection hr0O with e
            rw [e]
            exact le_of_lt hvr0
          · have h2 : r0.elo ≤ r.elo := hs' j (L - 1) r r0 (by omega) hOj hr0O
            linarith
  · intro j r hnij hjp hjq hOj
    have hjlen : j < O.length := (List.get?_eq_some.mp hOj).1
    have hMj : M.get? j = some r := by
      rw [hMO j hjp hjq]
      exact hOj
    by_cases hnip2 : ni < p
    · by_cases hjp2 : j < p
      · exact hL2 j r (by omega) hjp2 hMj
      · have hjgp : p < j := by omega
        rcases hsign with ⟨hA, hB⟩ | ⟨hA, hB⟩
        · have h1 : rp.elo ≤ A.elo := hA rp hrp
          have h2 : r.elo ≤ rp.elo := hs' p j rp r hjgp hrp hOj
          linarith
        · have hp1 : (0 : Nat) < p := by omega
          have hp1len : p - 1 < M.length := by omega
          obtain ⟨r1, hr1⟩ : ∃ r1, M.get? (p - 1) = some r1 :=
            ⟨_, List.get?_eq_get hp1len⟩
          have hr1v : r1.elo ≤ A.elo := hL2 (p - 1) r1 (by omega) (by omega) hr1
          by_cases hp1q : p - 1 = q
          · have hBr1 : r1 = B := by
              rw [hp1q, hMq] at hr1
              injection hr1 with e
              exact e.symm
            have h1 : rq.elo ≤ B.elo := hB rq hrq
            have h2 : r.elo ≤ rq.elo := hs' q j rq r (by omega) hrq hOj
            rw [hBr1] at hr1v
            linarith
          · have hr1O : O.get? (p - 1) = some r1 := by
              rw [← hMO (p - 1) (by omega) hp1q]
              exact hr1
            have h2 : r.elo ≤ r1.elo := hs' (p - 1) j r1 r (by omega) hr1O hOj
            linarith
    · have hpni : p < ni := by omega
      by_cases hnill : ni < M.length
      · obtain ⟨rn, hrn⟩ : ∃ rn, M.get? ni = some rn :=
          ⟨_, List.get?_eq_get hnill⟩
        have hrnv : rn.elo ≤ A.elo := hR5 rn hrn
        by_cases hniq : ni = q
        · have hBrn : rn = B := by
            rw [hniq, hMq] at hrn
            injection hrn with e
            exact e.symm
          rcases hsign with ⟨hA, hB⟩ | ⟨hA, hB⟩
          · have h1 : rp.elo ≤ A.elo := hA rp hrp
            have h2 : rq.elo ≤ rp.elo := hs' p q rp rq (by omega) hrp hrq
            have h3 : r.elo ≤ rq.elo := hs' q j rq r (by omega) hrq hOj
            linarith
          · have h1 : rq.elo ≤ B.elo := hB rq hrq
            have h3 : r.elo ≤ rq.elo := hs' q j rq r (by omega) hrq hOj
            rw [hBrn] at hrnv
            linarith
        · have hrnO : O.get? ni = some rn := by
            rw [← hMO ni (by omega) hniq]
            exact hrn
          by_cases hjni2 : j = ni
          · subst hjni2
            rw [hOj] at hrnO
            injection hrnO with e
            rw [e]
            exact hrnv
          · have h2 : r.elo ≤ rn.elo := hs' ni j rn r (by omega) hrnO hOj
            linarith
      · omega

/-- Moving `p1`'s row first: the tracked index still points at `p2`'s row,
and the ladder minus that row is sorted. -/
theorem moveRowTrack_first (O : List LadderRow) (p q : Nat) (A B : LadderRow)
    (hp : p < O.length) (hq : q < O.length) (hpq : p ≠ q)
    (hs : ladderSortedDesc O)
    (hsign : ((∀ r, O.get? p = some r → r.elo ≤ A.elo) ∧
              (∀ r, O.get? q = some r → B.elo ≤ r.elo)) ∨
             ((∀ r, O.get? p = some r → A.elo ≤ r.elo) ∧
              (∀ r, O.get? q = some r → r.elo ≤ B.elo))) :
    (moveRowTrack ((O.set p A).set q B) p q A.elo).1.get?
        (moveRowTrack ((O.set p A).set q B) p q A.elo).2 = some B ∧
    ladderSortedDesc
      ((moveRowTrack ((O.set p A).set q B) p q A.elo).1.eraseIdx
        (moveRowTrack ((O.set p A).set q B) p q A.elo).2) := by
  obtain ⟨hniL, hniP, hP1, hP2⟩ :=
    movePos_facts O p q A B hp hq hpq hs hsign _ rfl
  simp only [moveRowTrack]
  set M := (O.set p A).set q B with hMdef
  have hMlen : M.length = O.length := by
    rw [hMdef]
    simp [List.length_set]
  have hMp : M.get? p = some A := by
    rw [hMdef, List.get?_set_ne _ _ (Ne.symm hpq)]
    exact List.get?_set_eq_of_lt A hp
  have hMq : M.get? q = some B := by
    rw [hMdef]
    exact List.get?_set_eq_of_lt B (by rw [List.length_set]; exact hq)
  set nn := ladderRightScan M p A.elo (ladderLeftScan M A.elo p)
    (M.length + 1) with hnn
  by_cases hguard : nn ≠ p ∧ nn ≠ p + 1
  · rw [if_pos hguard, hMp]
    simp only []
    obtain ⟨hg1, hg2⟩ := hguard
    set X := M.eraseIdx p with hX
    have hXlen : X.length = O.length - 1 := by
      rw [hX, List.length_eraseIdx_of_lt (by omega)]
      omega
    set n1 := if p < nn then nn - 1 else nn with hn1
    set t1 := if p < q then q - 1 else q with ht1
    have hn1cases : (p < nn ∧ n1 = nn - 1) ∨ (¬ p < nn ∧ n1 = nn) := by
      by_cases hpn : p < nn
      · rw [hn1, if_pos hpn]
        exact Or.inl ⟨hpn, rfl⟩
      · rw [hn1, if_neg hpn]
        exact Or.inr ⟨hpn, rfl⟩
    have ht1cases : (p < q ∧ t1 = q - 1) ∨ (¬ p < q ∧ t1 = q) := by
      by_cases hpq2 : p < q
      · rw [ht1, if_pos hpq2]
        exact Or.inl ⟨hpq2, rfl⟩
      · rw [ht1, if_neg hpq2]
        exact Or.inr ⟨hpq2, rfl⟩
    have hn1X : n1 ≤ X.length := by omega
    have ht1X : t1 < X.length := by omega
    have hXq : X.get? t1 = some B := by
      rcases ht1cases with ⟨hpq2, he⟩ | ⟨hpq2, he⟩
      · rw [he, hX, List.get?_eq_getElem?,
          List.getElem?_eraseIdx_of_ge _ _ _ (by omega : p ≤ q - 1),
          show q - 1 + 1 = q by omega, ← List.get?_eq_getElem?]
        exact hMq
      · rw [he, hX, List.get?_eq_getElem?,
          List.getElem?_eraseIdx_of_lt _ _ _ (by omega : q < p),
          ← List.get?_eq_getElem?]
        exact hMq
    by_cases hle : n1 ≤ t1
    · rw [if_pos hle]
      constructor
      · show (X.insertIdx n1 A).get? (t1 + 1) = some B
        rw [List.get?_eq_getElem?, getElem?_insertIdx_formula A n1 X hn1X,
          if_neg (by omega : ¬ t1 + 1 < n1),
          if_neg (by omega : ¬ t1 + 1 = n1), Nat.add_sub_cancel,
          ← List.get?_eq_getElem?]
        exact hXq
      · show ladderSortedDesc ((X.insertIdx n1 A).eraseIdx (t1 + 1))
        rw [insertIdx_eraseIdx_comm_le X n1 t1 A hle ht1X]
        rcases ht1cases with ⟨hpq2, he⟩ | ⟨hpq2, he⟩
        · have hcanon : X.eraseIdx t1 = (O.eraseIdx q).eraseIdx p := by
            rw [he, hX, hMdef,
              set_eraseIdx_comm_gt (O.set p A) p q B hpq2
                (by rw [List.length_set]; exact hp),
              eraseIdx_set_same, eraseIdx_set_same]
            exact eraseIdx_eraseIdx_comm O p q hpq2
          rw [hcanon]
          refine sortedDesc_insert_two_erased_core O p q A hpq2 hq hs nn n1
            hniL ?_ hP1 hP2
          by_cases hqn : q < nn
          · rw [if_pos (by omega : p < nn), if_pos hqn]
            omega
          · by_cases hpn : p < nn
            · rw [if_pos hpn, if_neg hqn]
              omega
            · rw [if_neg hpn, if_neg hqn]
              omega
        · have hqp2 : q < p := by omega
          have hcanon : X.eraseIdx t1 = (O.eraseIdx p).eraseIdx q := by
            rw [he, hX, hMdef,
              set_eraseIdx_comm_lt (O.set p A) p q B hqp2
                (by rw [List.length_set]; exact hp),
              eraseIdx_set_same, eraseIdx_set_same]
          rw [hcanon]
          refine sortedDesc_insert_two_erased_core O q p A hqp2 hp hs nn n1
            hniL ?_ (fun j r h1 h2 h3 h4 => hP1 j r h1 h3 h2 h4)
            (fun j r h1 h2 h3 h4 => hP2 j r h1 h3 h2 h4)
          by_cases hqn : q < nn
          · by_cases hpn : p < nn
            · rw [if_pos hqn, if_pos hpn]
              omega
            · rw [if_pos hqn, if_neg hpn]
              omega
          · rw [if_neg hqn, if_neg (by omega : ¬ p < nn)]
            omega
    · rw [if_neg hle]
      constructor
      · show (X.insertIdx n1 A).get? t1 = some B
        rw [List.get?_eq_getElem?, getElem?_insertIdx_formula A n1 X hn1X,
          if_pos (by omega : t1 < n1), ← List.get?_eq_getElem?]
        exact hXq
      · show ladderSortedDesc ((X.insertIdx n1 A).eraseIdx t1)
        rw [insertIdx_eraseIdx_comm_gt X n1 t1 A (by omega) hn1X]
        rcases ht1cases with ⟨hpq2, he⟩ | ⟨hpq2, he⟩
        · have hcanon : X.eraseIdx t1 = (O.eraseIdx q).eraseIdx p := by
            rw [he, hX, hMdef,
              set_eraseIdx_comm_gt (O.set p A) p q B hpq2
                (by rw [List.length_set]; exact hp),
              eraseIdx_set_same, eraseIdx_set_same]
            exact eraseIdx_eraseIdx_comm O p q hpq2
          rw [hcanon]
          refine sortedDesc_insert_two_erased_core O p q A hpq2 hq hs nn
            (n1 - 1) hniL ?_ hP1 hP2
          by_cases hqn : q < nn
          · rw [if_pos (by omega : p < nn), if_pos hqn]
            omega
          · by_cases hpn : p < nn
            · rw [if_pos hpn, if_neg hqn]
              omega
            · rw [if_neg hpn, if_neg hqn]
              omega
        · have hqp2 : q < p := by omega
          have hcanon : X.eraseIdx t1 = (O.eraseIdx p).eraseIdx q := by
            rw [he, hX, hMdef,
              set_eraseIdx_comm_lt (O.set p A) p q B hqp2
                (by rw [List.length_set]; exact hp),
              eraseIdx_set_same, eraseIdx_set_same]
          rw [hcanon]
          refine sortedDesc_insert_two_erased_core O q p A hqp2 hp hs nn
            (n1 - 1) hniL ?_ (fun j r h1 h2 h3 h4 => hP1 j r h1 h3 h2 h4)
            (fun j r h1 h2 h3 h4 => hP2 j r h1 h3 h2 h4)
          by_cases hqn : q < nn
          · by_cases hpn : p < nn
            · rw [if_pos hqn, if_pos hpn]
              omega
            · rw [if_pos hqn, if_neg hpn]
              omega
          · rw [if_neg hqn, if_neg (by omega : ¬ p < nn)]
            omega
  · rw [if_neg hguard]
    have hnp1 : nn = p + 1 := by
      by_contra hc
      exact hguard ⟨hniP, hc⟩
    constructor
    · show M.get? q = some B
      exact hMq
    · show ladderSortedDesc (M.eraseIdx q)
      have e1 : M.eraseIdx q = (O.set p A).eraseIdx q := by
        rw [hMdef]
        exact eraseIdx_set_same _ q B
      by_cases hpq2 : p < q
      · have e2 : (O.set p A).eraseIdx q = (O.eraseIdx q).set p A :=
          set_eraseIdx_comm_lt O q p A hpq2 hq
        have e3 : (O.eraseIdx q).set p A
            = ((O.eraseIdx q).eraseIdx p).insertIdx p A :=
          set_eq_insertIdx_eraseIdx _ p A
            (by rw [List.length_eraseIdx_of_lt hq]; omega)
        rw [e1, e2, e3]
        refine sortedDesc_insert_two_erased_core O p q A hpq2 hq hs nn p
          hniL ?_ hP1 hP2
        rw [if_pos (by omega : p < nn), if_neg (by omega : ¬ q < nn)]
        omega
      · have hqp2 : q < p := by omega
        have e2 : (O.set p A).eraseIdx q = (O.eraseIdx q).set (p - 1) A :=
          set_eraseIdx_comm_gt O q p A hqp2 hq
        have e3 : (O.eraseIdx q).set (p - 1) A
            = ((O.eraseIdx q).eraseIdx (p - 1)).insertIdx (p - 1) A :=
          set_eq_insertIdx_eraseIdx _ (p - 1) A
            (by rw [List.length_eraseIdx_of_lt hq]; omega)
        have e4 : (O.eraseIdx q).eraseIdx (p - 1) = (O.eraseIdx p).eraseIdx q :=
          eraseIdx_eraseIdx_comm O q p hqp2
        rw [e1, e2, e3, e4]
        refine sortedDesc_insert_two_erased_core O q p A hqp2 hp hs nn (p - 1)
          hniL ?_ (fun j r h1 h2 h3 h4 => hP1 j r h1 h3 h2 h4)
          (fun j r h1 h2 h3 h4 => hP2 j r h1 h3 h2 h4)
        rw [if_pos (by omega : q < nn), if_pos (by omega : p < nn)]
        omega

/-- The full re-sort phase of `updateRating` sorts the ladder when one
update rises and the other falls. -/
theorem updateRatingMove_sorted (O : List LadderRow) (p q : Nat)
    (A B : LadderRow) (hp : p < O.length) (hq : q < O.length) (hpq : p ≠ q)
    (hs : ladderSortedDesc O)
    (hsign : ((∀ r, O.get? p = some r → r.elo ≤ A.elo) ∧
              (∀ r, O.get? q = some r → B.elo ≤ r.elo)) ∨
             ((∀ r, O.get? p = some r → A.elo ≤ r.elo) ∧
              (∀ r, O.get? q = some r → r.elo ≤ B.elo))) :
    ladderSortedDesc (updateRatingMove ((O.set p A).set q B) p q) := by
  obtain ⟨hget, hsorted⟩ := moveRowTrack_first O p q A B hp hq hpq hs hsign
  simp only [updateRatingMove]
  have hMp : ((O.set p A).set q B).get? p = some A := by
    rw [List.get?_set_ne _ _ (Ne.symm hpq)]
    exact List.get?_set_eq_of_lt A hp
  have hMq : ((O.set p A).set q B).get? q = some B :=
    List.get?_set_eq_of_lt B (by rw [List.length_set]; exact hq)
  rw [hMp, hMq]
  simp only [Option.map_some', Option.getD_some]
  exact moveRowTrack_sorted_of_rest _ _ 0 B hget hsorted

/-- `calculateElo` as clamp of old elo plus K times score-minus-expectation. -/
theorem calculateElo_eq (oldElo foeElo : ℝ) (score : ℚ) (games : Nat) :
    calculateElo oldElo score foeElo games
      = max (oldElo + eloKFactor oldElo score foeElo games
          * ((score : ℝ) - 1 / (1 + (10 : ℝ) ^ ((foeElo - oldElo) / 400))))
        1000 := rfl

/-- The effective K factor is positive in every branch. -/
theorem eloKFactor_pos (oldElo foeElo : ℝ) (score : ℚ) (games : Nat) :
    0 < eloKFactor oldElo score foeElo games := by
  simp only [eloKFactor]
  split_ifs <;> norm_num [min_def, max_def]

/-- Scoring at or above expectation never lowers the elo. -/
theorem calculateElo_ge (oldElo foeElo : ℝ) (score : ℚ) (games : Nat)
    (h : 1 / (1 + (10 : ℝ) ^ ((foeElo - oldElo) / 400)) ≤ (score : ℝ)) :
    oldElo ≤ calculateElo oldElo score foeElo games := by
  rw [calculateElo_eq]
  refine le_trans ?_ (le_max_left _ _)
  have hK := eloKFactor_pos oldElo foeElo score games
  nlinarith [mul_nonneg hK.le (sub_nonneg.mpr h)]

/-- Scoring at or below expectation never raises an elo at least 1000. -/
theorem calculateElo_le (oldElo foeElo : ℝ) (score : ℚ) (games : Nat)
    (h1000 : 1000 ≤ oldElo)
    (h : (score : ℝ) ≤ 1 / (1 + (10 : ℝ) ^ ((foeElo - oldElo) / 400))) :
    calculateElo oldElo score foeElo games ≤ oldElo := by
  rw [calculateElo_eq]
  refine max_le ?_ h1000
  have hK := eloKFactor_pos oldElo foeElo score games
  have hm := mul_le_mul_of_nonneg_left (sub_nonpos.mpr h) hK.le
  rw [mul_zero] at hm
  linarith

/-- The two players' win expectations sum to 1. -/
theorem eloE_sum (e1 e2 : ℝ) :
    1 / (1 + (10 : ℝ) ^ ((e2 - e1) / 400))
      + 1 / (1 + (10 : ℝ) ^ ((e1 - e2) / 400)) = 1 := by
  have ha : (0 : ℝ) < (10 : ℝ) ^ ((e2 - e1) / 400) :=
    Real.rpow_pos_of_pos (by norm_num) _
  have hb : (0 : ℝ) < (10 : ℝ) ^ ((e1 - e2) / 400) :=
    Real.rpow_pos_of_pos (by norm_num) _
  have hab : (10 : ℝ) ^ ((e2 - e1) / 400) * (10 : ℝ) ^ ((e1 - e2) / 400)
      = 1 := by
    rw [← Real.rpow_add (by norm_num)]
    rw [show (e2 - e1) / 400 + (e1 - e2) / 400 = 0 by ring, Real.rpow_zero]
  field_simp
  nlinarith [hab]

/-- After one rated game the two new elos move in (weakly) opposite
directions, given the 1000 floor. -/
theorem calculateElo_opposite (e1 e2 : ℝ) (s : ℚ) (g1 g2 : Nat)
    (h1 : 1000 ≤ e1) (h2 : 1000 ≤ e2) :
    (e1 ≤ calculateElo e1 s e2 g1 ∧ calculateElo e2 (1 - s) e1 g2 ≤ e2) ∨
    (calculateElo e1 s e2 g1 ≤ e1 ∧ e2 ≤ calculateElo e2 (1 - s) e1 g2) := by
  have hsum := eloE_sum e1 e2
  by_cases hcase : 1 / (1 + (10 : ℝ) ^ ((e2 - e1) / 400)) ≤ (s : ℝ)
  · left
    constructor
    · exact calculateElo_ge e1 e2 s g1 hcase
    · refine calculateElo_le e2 e1 (1 - s) g2 h2 ?_
      push_cast
      linarith
  · right
    push_neg at hcase
    constructor
    · exact calculateElo_le e1 e2 s g1 h1 hcase.le
    · refine calculateElo_ge e2 e1 (1 - s) g2 ?_
      push_cast
      linarith

/-- A found index carries an element satisfying the predicate. -/
theorem findIdx?_some_pred {α : Type} (p : α → Bool) :
    ∀ (l : List α) (i : Nat), l.findIdx? p = some i →
      ∃ b, l.get? i = some b ∧ p b = true := by
  intro l
  induction l with
  | nil =>
    intro i h
    rw [List.findIdx?_nil] at h
    cases h
  | cons a t ih =>
    intro i h
    rw [List.findIdx?_cons, List.findIdx?_succ] at h
    by_cases hpa : p a
    · rw [if_pos hpa] at h
      injection h with e
      rw [← e]
      exact ⟨a, rfl, hpa⟩
    · rw [if_neg hpa] at h
      cases hf : t.findIdx? p with
      | none =>
        rw [hf] at h
        cases h
      | some k =>
        rw [hf, Option.map_some'] at h
        injection h with e
        obtain ⟨b, hb1, hb2⟩ := ih k hf
        refine ⟨b, ?_, hb2⟩
        rw [← e, List.get?_cons_succ]
        exact hb1

/-- Elo written by `updateRow`. -/
theorem updateRow_elo (row : LadderRow) (score : ℚ) (fe fg fr : ℝ)
    (now : String) :
    (updateRow row score fe fg fr now).elo
      = calculateElo row.elo score fe row.games := by
  rw [updateRow]
  by_cases h1 : (3 / 5 : ℚ) < score
  · simp [h1]
  · by_cases h2 : score < (2 / 5 : ℚ) <;> simp [h1, h2]

/-- `updateH2H` leaves the elo unchanged. -/
theorem updateH2H_elo (row : LadderRow) (o : String) (res : H2HResult) :
    (updateH2H row o res).elo = row.elo := rfl

/-- `indexOfUserCreate` preserves sortedness and the 1000 floor, and its
index holds the user's row. -/
theorem indexOfUserCreate_props (lad : List LadderRow) (name now : String)
    (hs : ladderSortedDesc lad) (h1000 : ∀ r ∈ lad, 1000 ≤ r.elo) :
    ladderSortedDesc (indexOfUserCreate lad name now).1 ∧
    (∀ r ∈ (indexOfUserCreate lad name now).1, 1000 ≤ r.elo) ∧
    (∀ r, (indexOfUserCreate lad name now).1.get?
        (indexOfUserCreate lad name now).2 = some r →
      r.userid = toID name) := by
  rw [indexOfUserCreate]
  cases hf : lad.findIdx? (fun r => r.userid = toID name) with
  | some i =>
    simp only []
    refine ⟨hs, h1000, ?_⟩
    intro r hr
    obtain ⟨b, hb1, hb2⟩ := findIdx?_some_pred _ lad i hf
    rw [hb1] at hr
    injection hr with e
    rw [← e]
    exact of_decide_eq_true hb2
  | none =>
    simp only []
    refine ⟨?_, ?_, ?_⟩
    · rw [ladderSortedDesc, List.pairwise_append]
      refine ⟨hs, by simp, ?_⟩
      intro a ha b hb
      simp at hb
      rw [hb]
      exact h1000 a ha
    · intro r hr
      rcases List.mem_append.mp hr with h | h
      · exact h1000 r h
      · simp at h
        rw [h]
        norm_num [seedRow]
    · intro r hr
      rw [List.get?_concat_length] at hr
      injection hr with e
      rw [← e]
      rfl

/-- Reads below the original length are unchanged by `indexOfUserCreate`. -/
theorem indexOfUserCreate_get?_lt (lad : List LadderRow) (name now : String)
    (k : Nat) (hk : k < lad.length) :
    (indexOfUserCreate lad name now).1.get? k = lad.get? k := by
  rw [indexOfUserCreate]
  cases lad.findIdx? (fun r => r.userid = toID name) with
  | some i => rfl
  | none =>
    simp only []
    exact List.get?_append hk

/-- C3: for every ladder sorted by elo non-increasing whose rows all carry
the 1000-floored elos the ladder code maintains, an `updateRating` call
between two distinct players with non-negative `p1score` leaves the row
sequence sorted by elo non-increasing; the spec's unconditional claim
fails for negative scores (see the counterexample), where both elos drop
and the splice-based re-sort misses intermediate rows. -/
theorem updateRating_sorted (lad : List LadderRow) (p1 p2 : String) (s : ℚ)
    (now : String) (hs : ladderSortedDesc lad)
    (h1000 : ∀ r ∈ lad, 1000 ≤ r.elo)
    (hids : toID p1 ≠ toID p2) (hscore : 0 ≤ s) :
    ladderSortedDesc (updateRating false lad p1 p2 s now) := by
  obtain ⟨hs1, h1000a, hid1⟩ := indexOfUserCreate_props lad p1 now hs h1000
  obtain ⟨hs2, h1000b, hid2⟩ :=
    indexOfUserCreate_props (indexOfUserCreate lad p1 now).1 p2 now hs1 h1000a
  have hsp1 := indexOfUserCreate_spec lad p1 now
  have hsp2 := indexOfUserCreate_spec (indexOfUserCreate lad p1 now).1 p2 now
  have hlen12 := indexOfUserCreate_length (indexOfUserCreate lad p1 now).1 p2 now
  set L1 := (indexOfUserCreate lad p1 now).1 with hL1
  set i := (indexOfUserCreate lad p1 now).2 with hi
  set L2 := (indexOfUserCreate L1 p2 now).1 with hL2
  set j := (indexOfUserCreate L1 p2 now).2 with hj
  have hiL1 : i < L1.length := hsp1.1
  have hjL2 : j < L2.length := hsp2.1
  have hiL2 : i < L2.length := by omega
  obtain ⟨rowP, hrowP1⟩ : ∃ r, L1.get? i = some r := ⟨_, List.get?_eq_get hiL1⟩
  have hrowP2 : L2.get? i = some rowP := by
    rw [hL2, indexOfUserCreate_get?_lt L1 p2 now i hiL1]
    exact hrowP1
  obtain ⟨rowQ, hrowQ⟩ : ∃ r, L2.get? j = some r := ⟨_, List.get?_eq_get hjL2⟩
  have hPid : rowP.userid = toID p1 := hid1 rowP hrowP1
  have hQid : rowQ.userid = toID p2 := hid2 rowQ hrowQ
  have hij : i ≠ j := by
    intro he
    rw [he] at hrowP2
    rw [hrowP2] at hrowQ
    injection hrowQ with e
    refine hids ?_
    rw [← hPid, ← hQid, e]
  have h1000P : 1000 ≤ rowP.elo := h1000b rowP (List.get?_mem hrowP2)
  have h1000Q : 1000 ≤ rowQ.elo := h1000b rowQ (List.get?_mem hrowQ)
  have hn : ¬ s < 0 := not_lt.mpr hscore
  simp only [updateRating, Bool.false_eq_true, if_false, if_neg hn]
  rw [← hL1, ← hi]
  rw [← hL2, ← hj]
  rw [hrowP1, hrowQ, hrowP2]
  simp only [Option.getD_some]
  have e4 : ((L2.set i (updateRow rowP s rowQ.elo rowQ.glicko rowQ.rd
      now)).get? j).getD rowQ = rowQ := by
    rw [List.get?_set_ne _ _ hij, hrowQ]
    rfl
  rw [e4]
  set A0 := updateRow rowP s rowQ.elo rowQ.glicko rowQ.rd now with hA0
  set B0 := updateRow rowQ (1 - s) rowP.elo rowP.glicko rowP.rd now with hB0
  have e5 : ((L2.set i A0).set j B0).get? i = some A0 := by
    rw [List.get?_set_ne _ _ (Ne.symm hij)]
    exact List.get?_set_eq_of_lt A0 hiL2
  rw [e5]
  simp only [Option.getD_some]
  have e6 : ∀ res : H2HResult,
      ((((L2.set i A0).set j B0).set i (updateH2H A0 (toID p2) res)).get? j)
        = some B0 := by
    intro res
    rw [List.get?_set_ne _ _ hij]
    exact List.get?_set_eq_of_lt B0 (by rw [List.length_set]; exact hjL2)
  simp only [e6, Option.getD_some]
  have e7 : ∀ X Y : LadderRow,
      ((((L2.set i A0).set j B0).set i X).set j Y)
        = (L2.set i X).set j Y := by
    intro X Y
    apply List.ext
    intro n
    by_cases hni : n = i
    · subst hni
      rw [List.get?_set_ne _ _ (Ne.symm hij)]
      rw [List.get?_set_ne _ _ (Ne.symm hij)]
      rw [List.get?_set_eq_of_lt X
        (by rw [List.length_set, List.length_set]; exact hiL2)]
      rw [List.get?_set_eq_of_lt X hiL2]
    · by_cases hnj : n = j
      · subst hnj
        rw [List.get?_set_eq_of_lt Y
          (by rw [List.length_set, List.length_set, List.length_set]
              exact hjL2)]
        rw [List.get?_set_eq_of_lt Y (by rw [List.length_set]; exact hjL2)]
      · rw [List.get?_set_ne _ _ (fun he => hnj he.symm)]
        rw [List.get?_set_ne _ _ (fun he => hni he.symm)]
        rw [List.get?_set_ne _ _ (fun he => hnj he.symm)]
        rw [List.get?_set_ne _ _ (fun he => hni he.symm)]
        rw [List.get?_set_ne _ _ (fun he => hnj he.symm)]
        rw [List.get?_set_ne _ _ (fun he => hni he.symm)]
  simp only [e7]
  have hAelo : ∀ res, (updateH2H A0 (toID p2) res).elo
      = calculateElo rowP.elo s rowQ.elo rowP.games := by
    intro res
    rw [updateH2H_elo, hA0, updateRow_elo]
  have hBelo : ∀ res, (updateH2H B0 (toID p1) res).elo
      = calculateElo rowQ.elo (1 - s) rowP.elo rowQ.games := by
    intro res
    rw [updateH2H_elo, hB0, updateRow_elo]
  have happly : ∀ res1 res2, ladderSortedDesc (updateRatingMove
      ((L2.set i (updateH2H A0 (toID p2) res1)).set j
        (updateH2H B0 (toID p1) res2)) i j) := by
    intro res1 res2
    refine updateRatingMove_sorted L2 i j _ _ hiL2 hjL2 hij hs2 ?_
    rcases calculateElo_opposite rowP.elo rowQ.elo s rowP.games rowQ.games
        h1000P h1000Q with ⟨ha, hb⟩ | ⟨ha, hb⟩
    · left
      constructor
      · intro r hr
        rw [hrowP2] at hr
        injection hr with e
        rw [← e, hAelo res1]
        exact ha
      · intro r hr
        rw [hrowQ] at hr
        injection hr with e
        rw [← e, hBelo res2]
        exact hb
    · right
      constructor
      · intro r hr
        rw [hrowP2] at hr
        injection hr with e
        rw [← e, hAelo res1]
        exact ha
      · intro r hr
        rw [hrowQ] at hr
        injection hr with e
        rw [← e, hBelo res2]
        exact hb
  by_cases hb1 : (3 / 5 : ℚ) < s
  · rw [if_pos hb1]
    exact happly H2HResult.win H2HResult.loss
  · rw [if_neg hb1]
    by_cases hb2 : s < (2 / 5 : ℚ)
    · rw [if_pos hb2]
      exact happly H2HResult.loss H2HResult.win
    · rw [if_neg hb2]
      exact happly H2HResult.tie H2HResult.tie

/-- Witness for C3 at a concrete input: a rating update on the empty
ladder (both rows created) keeps it sorted. -/
theorem updateRating_sorted_witness :
    ladderSortedDesc (updateRating false [] "A" "B" 1 "") :=
  updateRating_sorted [] "A" "B" 1 "" (by simp [ladderSortedDesc])
    (by simp) (by decide) (by norm_num)

/-- C3 counterexample: on the sorted ladder `[1500, 1500, 1490]` a single
`updateRating` call with `p1score = -1` (a scored-invalidated battle)
drops both players to elo 1484, yet the splice-based re-sort leaves the
1490 row last, so the resulting sequence is not sorted. -/
theorem updateRating_c3_counterexample :
    ladderSortedDesc c3Ladder ∧
    ¬ ladderSortedDesc (updateRating false c3Ladder "A" "B" (-1) "") := by
  have hcalc : calculateElo 1500 0 1500 0 = 1484 := by
    rw [calculateElo_eq]
    rw [show ((1500 : ℝ) - 1500) / 400 = 0 by norm_num, Real.rpow_zero]
    rw [show eloKFactor 1500 0 1500 0 = 32 from by norm_num [eloKFactor]]
    norm_num
  have hA1elo : (updateH2H (updateRow (c3Row "a" "A" 1500) 0 1500 1500 130 "")
      (toID "B") H2HResult.loss).elo = 1484 := by
    rw [updateH2H_elo, updateRow_elo,
      show (c3Row "a" "A" 1500).elo = 1500 from rfl,
      show (c3Row "a" "A" 1500).games = 0 from rfl]
    exact hcalc
  have hB1elo : (updateH2H (updateRow (c3Row "b" "B" 1500) 0 1500 1500 130 "")
      (toID "A") H2HResult.win).elo = 1484 := by
    rw [updateH2H_elo, updateRow_elo,
      show (c3Row "b" "B" 1500).elo = 1500 from rfl,
      show (c3Row "b" "B" 1500).games = 0 from rfl]
    exact hcalc
  have hioc1 : indexOfUserCreate c3Ladder "A" "" = (c3Ladder, 0) := by
    rw [indexOfUserCreate,
      show c3Ladder.findIdx? (fun r => r.userid = toID "A") = some 0 from
        by decide]
  have hioc2 : indexOfUserCreate c3Ladder "B" "" = (c3Ladder, 1) := by
    rw [indexOfUserCreate,
      show c3Ladder.findIdx? (fun r => r.userid = toID "B") = some 1 from
        by decide]
  have hgetA : ∀ X Y Z : LadderRow, [X, Y, Z].get? 0 = some X :=
    fun _ _ _ => rfl
  have hgetB : ∀ X Y Z : LadderRow, [X, Y, Z].get? 1 = some Y :=
    fun _ _ _ => rfl
  have hsetA : ∀ X Y Z W : LadderRow, [X, Y, Z].set 0 W = [W, Y, Z] :=
    fun _ _ _ _ => rfl
  have hsetB : ∀ X Y Z W : LadderRow, [X, Y, Z].set 1 W = [X, W, Z] :=
    fun _ _ _ _ => rfl
  have hls0 : ∀ (lad : List LadderRow) (v : ℝ), ladderLeftScan lad v 0 = 0 :=
    fun _ _ => rfl
  have hrs1 : ∀ X Y Z : LadderRow, Y.elo = 1484 →
      ladderRightScan [X, Y, Z] 0 1484 0 ([X, Y, Z].length + 1) = 1 := by
    intro X Y Z hY
    have hlen : ([X, Y, Z] : List LadderRow).length = 3 := rfl
    obtain ⟨h1, h2, h3, h4, h5⟩ :=
      ladderRightScan_spec [X, Y, Z] 0 1484 (by omega)
        ([X, Y, Z].length + 1) 0 (by omega) (by omega)
    by_contra hne
    have h2le : 2 ≤ ladderRightScan [X, Y, Z] 0 1484 0
        ([X, Y, Z].length + 1) := by omega
    rcases h3 1 Y (by omega) (by omega) rfl with h | h
    · omega
    · rw [hY] at h
      exact absurd h (by norm_num)
  have hls2 : ∀ X Y Z : LadderRow, X.elo = 1484 →
      ladderLeftScan [X, Y, Z] 1484 1 = 0 := by
    intro X Y Z hX
    obtain ⟨h1, h2, h3⟩ := ladderLeftScan_spec [X, Y, Z] 1484 1
    rcases h3 with h | h
    · exact h
    · by_contra hne
      have he1 : ladderLeftScan [X, Y, Z] 1484 1 = 1 := by omega
      rw [he1] at h
      have h0 := h X rfl
      rw [hX] at h0
      exact absurd h0 (by norm_num)
  have hrs2 : ∀ X Y Z : LadderRow, X.elo = 1484 →
      ladderRightScan [X, Y, Z] 1 1484 0 ([X, Y, Z].length + 1) = 0 := by
    intro X Y Z hX
    have hlen : ([X, Y, Z] : List LadderRow).length = 3 := rfl
    obtain ⟨h1, h2, h3, h4, h5⟩ :=
      ladderRightScan_spec [X, Y, Z] 1 1484 (by omega)
        ([X, Y, Z].length + 1) 0 (by omega) (by omega)
    by_contra hne
    have h1le : 1 ≤ ladderRightScan [X, Y, Z] 1 1484 0
        ([X, Y, Z].length + 1) := by omega
    rcases h3 0 X (by omega) (by omega) rfl with h | h
    · omega
    · rw [hX] at h
      exact absurd h (by norm_num)
  have herase : ∀ X Y Z : LadderRow, [X, Y, Z].eraseIdx 1 = [X, Z] :=
    fun _ _ _ => rfl
  have hins : ∀ X Z W : LadderRow, [X, Z].insertIdx 0 W = [W, X, Z] :=
    fun _ _ _ => rfl
  have hneg : (-1 : ℚ) < 0 := by norm_num
  have heval : updateRating false c3Ladder "A" "B" (-1) ""
      = [updateH2H (updateRow (c3Row "b" "B" 1500) 0 1500 1500 130 "")
           (toID "A") H2HResult.win,
         updateH2H (updateRow (c3Row "a" "A" 1500) 0 1500 1500 130 "")
           (toID "B") H2HResult.loss,
         c3Row "c" "C" 1490] := by
    simp only [updateRating, Bool.false_eq_true, if_false, if_pos hneg]
    rw [hioc1]
    simp only []
    rw [hioc2]
    simp only []
    simp only [c3Ladder]
    simp only [hgetA, hgetB, Option.getD_some, hsetA, hsetB]
    simp only [show (c3Row "a" "A" 1500).elo = 1500 from rfl,
      show (c3Row "a" "A" 1500).glicko = 1500 from rfl,
      show (c3Row "a" "A" 1500).rd = 130 from rfl,
      show (c3Row "b" "B" 1500).elo = 1500 from rfl,
      show (c3Row "b" "B" 1500).glicko = 1500 from rfl,
      show (c3Row "b" "B" 1500).rd = 130 from rfl]
    rw [if_neg (show ¬ (3 / 5 : ℚ) < 0 by norm_num),
      if_pos (show (0 : ℚ) < 2 / 5 by norm_num)]
    simp only [updateRatingMove]
    simp only [hgetA, hgetB, Option.map_some', Option.getD_some]
    rw [hA1elo, hB1elo]
    simp only [moveRowTrack, hls0]
    rw [hrs1 _ _ _ hB1elo]
    rw [if_neg (show ¬ ((1 : ℕ) ≠ 0 ∧ (1 : ℕ) ≠ 0 + 1) by decide)]
    simp only []
    rw [hls2 _ _ _ hA1elo]
    rw [hrs2 _ _ _ hA1elo]
    rw [if_pos (show (0 : ℕ) ≠ 1 ∧ (0 : ℕ) ≠ 1 + 1 by decide)]
    rw [hgetB]
    simp only []
    rw [if_neg (show ¬ (1 : ℕ) < 0 by decide)]
    simp only [herase, hins]
  constructor
  · show List.Pairwise _ _
    rw [show c3Ladder = [c3Row "a" "A" 1500, c3Row "b" "B" 1500,
      c3Row "c" "C" 1490] from rfl]
    simp only [List.pairwise_cons, List.mem_cons, List.mem_singleton]
    refine ⟨?_, ?_, by simp⟩
    · intro r hr
      rcases hr with h | h | h
      · rw [h]
        norm_num [c3Row]
      · rw [h]
        norm_num [c3Row]
      · simp at h
    · intro r hr
      rcases hr with h | h
      · rw [h]
        norm_num [c3Row]
      · simp at h
  · intro hsorted
    rw [heval] at hsorted
    have hs' : List.Pairwise (fun a b : LadderRow => b.elo ≤ a.elo)
        [updateH2H (updateRow (c3Row "b" "B" 1500) 0 1500 1500 130 "")
           (toID "A") H2HResult.win,
         updateH2H (updateRow (c3Row "a" "A" 1500) 0 1500 1500 130 "")
           (toID "B") H2HResult.loss,
         c3Row "c" "C" 1490] := hsorted
    have h12 := (List.pairwise_cons.mp (List.pairwise_cons.mp hs').2).1
      (c3Row "c" "C" 1490) (by simp)
    rw [hA1elo, show (c3Row "c" "C" 1490).elo = (1490 : ℝ) from rfl] at h12
    norm_num at h12

/-- The ten digit characters: digit class and code point. -/
theorem digitChar_spec (d : Nat) (hd : d < 10) :
    (Char.ofNat (48 + d)).isDigit = true ∧ (Char.ofNat (48 + d)).toNat = 48 + d := by
  interval_cases d <;> exact ⟨by decide, by decide⟩

/-- Every character of `natToCharsAux` output satisfies any property of
the ten digit characters (and of the accumulator). -/
theorem natToCharsAux_mem (P : Char → Prop)
    (hP : ∀ d, d < 10 → P (Char.ofNat (48 + d))) :
    ∀ fuel n tail, (∀ c ∈ tail, P c) → ∀ c ∈ natToCharsAux fuel n tail, P c := by
  intro fuel
  induction fuel with
  | zero => intro n tail htail c hc; exact htail c hc
  | succ fuel ih =>
    intro n tail htail c hc
    rw [natToCharsAux] at hc
    by_cases hn : n < 10
    · rw [if_pos hn] at hc
      rcases List.mem_cons.mp hc with h | h
      · rw [h]
        exact hP n hn
      · exact htail c h
    · rw [if_neg hn] at hc
      refine ih (n / 10) _ ?_ c hc
      intro c' hc'
      rcases List.mem_cons.mp hc' with h | h
      · rw [h]
        exact hP (n % 10) (Nat.mod_lt n (by norm_num))
      · exact htail c' h

/-- The output of `natToCharsAux` is the bare digits followed by the
accumulator. -/
theorem natToCharsAux_append :
    ∀ fuel n tail, natToCharsAux fuel n tail = natToCharsAux fuel n [] ++ tail := by
  intro fuel
  induction fuel with
  | zero => intro n tail; rfl
  | succ fuel ih =>
    intro n tail
    rw [natToCharsAux]
    conv_rhs => rw [natToCharsAux]
    by_cases hn : n < 10
    · rw [if_pos hn, if_pos hn]
      rfl
    · rw [if_neg hn, if_neg hn, ih (n / 10) (Char.ofNat (48 + n % 10) :: tail),
        ih (n / 10) [Char.ofNat (48 + n % 10)], List.append_assoc]
      rfl

/-- `parseNatAux` over the digits of `n` shifts the accumulator by the
digit count and adds `n`. -/
theorem parseNatAux_natToCharsAux :
    ∀ fuel n tail a, n < fuel →
      parseNatAux (natToCharsAux fuel n tail) a
        = parseNatAux tail (a * 10 ^ (natToCharsAux fuel n []).length + n) := by
  intro fuel
  induction fuel with
  | zero =>
    intro n tail a h
    exact absurd h (by omega)
  | succ fuel ih =>
    intro n tail a h
    by_cases hn : n < 10
    · have h1 : natToCharsAux (fuel + 1) n tail = Char.ofNat (48 + n) :: tail := by
        rw [natToCharsAux, if_pos hn]
      have h2 : natToCharsAux (fuel + 1) n [] = [Char.ofNat (48 + n)] := by
        rw [natToCharsAux, if_pos hn]
      rw [h1, h2]
      obtain ⟨hdig, htn⟩ := digitChar_spec n hn
      rw [parseNatAux, if_pos hdig, htn]
      congr 1
      simp only [List.length_cons, List.length_nil]
      rw [pow_one]
      omega
    · have h1 : natToCharsAux (fuel + 1) n tail
          = natToCharsAux fuel (n / 10) (Char.ofNat (48 + n % 10) :: tail) := by
        rw [natToCharsAux, if_neg hn]
      have h2 : natToCharsAux (fuel + 1) n []
          = natToCharsAux fuel (n / 10) [Char.ofNat (48 + n % 10)] := by
        rw [natToCharsAux, if_neg hn]
      rw [h1, h2, ih (n / 10) _ a (by omega)]
      obtain ⟨hdig, htn⟩ := digitChar_spec (n % 10) (Nat.mod_lt n (by norm_num))
      rw [parseNatAux, if_pos hdig, htn]
      rw [natToCharsAux_append fuel (n / 10) [Char.ofNat (48 + n % 10)],
        List.length_append]
      congr 1
      simp only [List.length_cons, List.length_nil]
      rw [pow_succ]
      have hdm := Nat.div_add_mod n 10
      ring_nf
      omega

/-- The decimal printer and `parseInt` are mutually inverse. -/
theorem parseIntJS_natToChars (n : Nat) : parseIntJS (natToChars n) = some n := by
  rw [natToChars]
  have hh : ∃ d cs, natToCharsAux (n + 1) n [] = d :: cs ∧ d.isDigit = true := by
    cases hfe : natToCharsAux (n + 1) n [] with
    | nil =>
      exfalso
      rw [natToCharsAux] at hfe
      by_cases hn : n < 10
      · rw [if_pos hn] at hfe
        cases hfe
      · rw [if_neg hn,
          natToCharsAux_append n (n / 10) [Char.ofNat (48 + n % 10)]] at hfe
        simp at hfe
    | cons d cs =>
      refine ⟨d, cs, rfl, ?_⟩
      have := natToCharsAux_mem (fun c => c.isDigit = true)
        (fun d hd => (digitChar_spec d hd).1) (n + 1) n []
        (fun c hc => absurd hc (List.not_mem_nil c)) d
        (by rw [hfe]; exact List.mem_cons_self d cs)
      exact this
  obtain ⟨d, cs, hfe, hdig⟩ := hh
  rw [hfe, parseIntJS, if_pos hdig, ← hfe,
    parseNatAux_natToCharsAux (n + 1) n [] 0 (by omega)]
  rw [parseNatAux]
  norm_num

/-- `dropWhile` leaves a list whose head fails the predicate alone. -/
theorem dropWhile_eq_self_of_head (p : Char → Bool) :
    ∀ l : List Char, (∀ c, l.head? = some c → p c = false) →
      l.dropWhile p = l := by
  intro l h
  cases l with
  | nil => rfl
  | cons a t =>
    rw [List.dropWhile_cons, h a rfl]
    simp only [Bool.false_eq_true, if_false]

/-- `trim` is the identity when both ends are not whitespace. -/
theorem trim_eq_self_of_ends (l : List Char)
    (h1 : ∀ c, l.head? = some c → isSpaceChar c = false)
    (h2 : ∀ c, l.getLast? = some c → isSpaceChar c = false) :
    trimChars l = l := by
  rw [trimChars, dropWhile_eq_self_of_head _ l h1,
    dropWhile_eq_self_of_head _ l.reverse
      (fun c hc => h2 c (by rwa [List.head?_reverse] at hc))]
  exact List.reverse_reverse l

/-- `trim` of a list with a non-space head is nonempty. -/
theorem trim_ne_nil_of_head (l : List Char) (c : Char) (cs : List Char)
    (hl : l = c :: cs) (hc : isSpaceChar c = false) :
    trimChars l ≠ [] := by
  subst hl
  have hfront : (c :: cs).dropWhile isSpaceChar = c :: cs :=
    dropWhile_eq_self_of_head _ _
      (fun c' hc' => by injection hc' with e; exact e ▸ hc)
  rw [trimChars, hfront]
  intro hnil
  have h0 : ((c :: cs).reverse).dropWhile isSpaceChar = [] :=
    List.reverse_eq_nil_iff.mp hnil
  have h1 := List.dropWhile_eq_nil_iff.mp h0 c
    (by rw [List.mem_reverse]; exact List.mem_cons_self c cs)
  rw [hc] at h1
  cases h1

/-- The splitting scan passes over a separator-free chunk, accumulating it
reversed. -/
theorem splitOnAux_no_sep (sep : Char) :
    ∀ (xs acc rest : List Char), (∀ c ∈ xs, c ≠ sep) →
      splitOnAux sep (xs ++ rest) acc = splitOnAux sep rest (xs.reverse ++ acc) := by
  intro xs
  induction xs with
  | nil =>
    intro acc rest h
    rfl
  | cons c cs ih =>
    intro acc rest h
    rw [List.cons_append, splitOnAux,
      if_neg (h c (List.mem_cons_self _ _)),
      ih (c :: acc) rest (fun c' hc' => h c' (List.mem_cons_of_mem _ hc'))]
    congr 1
    rw [List.reverse_cons, List.append_assoc]
    rfl

/-- `split` undoes `join` when no piece contains the separator. -/
theorem splitOn_joinSep (sep : Char) :
    ∀ xss : List (List Char), xss ≠ [] →
      (∀ xs ∈ xss, ∀ c ∈ xs, c ≠ sep) →
      splitOnChar sep (joinSep sep xss) = xss := by
  intro xss
  induction xss with
  | nil =>
    intro h _
    exact absurd rfl h
  | cons x xss ih =>
    intro _ hsep
    cases xss with
    | nil =>
      rw [joinSep, splitOnChar]
      have he : splitOnAux sep x [] = splitOnAux sep (x ++ []) [] := by
        rw [List.append_nil]
      rw [he, splitOnAux_no_sep sep x [] []
        (hsep x (List.mem_cons_self _ _)), splitOnAux]
      simp
    | cons y yss =>
      rw [joinSep, splitOnChar,
        splitOnAux_no_sep sep x [] (sep :: joinSep sep (y :: yss))
          (hsep x (List.mem_cons_self _ _)),
        splitOnAux, if_pos rfl]
      have ihr := ih (by simp)
        (fun xs hxs => hsep xs (List.mem_cons_of_mem _ hxs))
      rw [splitOnChar] at ihr
      rw [ihr]
      have hx : (x.reverse ++ ([] : List Char)).reverse = x := by simp
      rw [hx]

/-- Digit-string facts: character classes, trim stability, parseability. -/
theorem natToChars_facts (n : Nat) :
    (∀ c ∈ natToChars n, c.isDigit = true ∧ isSpaceChar c = false ∧
      c ≠ ',' ∧ c ≠ '\n' ∧ c ≠ '=') ∧
    trimChars (natToChars n) = natToChars n ∧
    natToChars n ≠ [] := by
  have hmem := natToCharsAux_mem
    (fun c => c.isDigit = true ∧ isSpaceChar c = false ∧
      c ≠ ',' ∧ c ≠ '\n' ∧ c ≠ '=')
    (fun d hd => by interval_cases d <;>
      exact ⟨by decide, by decide, by decide, by decide, by decide⟩)
    (n + 1) n [] (fun c hc => absurd hc (List.not_mem_nil c))
  rw [natToChars]
  refine ⟨hmem, ?_, ?_⟩
  · refine trim_eq_self_of_ends _ ?_ ?_
    · intro c hc
      exact (hmem c (List.mem_of_mem_head? hc)).2.1
    · intro c hc
      have hcr : (natToCharsAux (n + 1) n []).reverse.head? = some c := by
        rwa [List.head?_reverse]
      have hcm : c ∈ (natToCharsAux (n + 1) n []).reverse :=
        List.mem_of_mem_head? hcr
      rw [List.mem_reverse] at hcm
      exact (hmem c hcm).2.1
  · intro hnil
    have := parseIntJS_natToChars n
    rw [natToChars, hnil] at this
    cases this

/-- Status-string facts: CSV-safe, trim-stable, and parsed back exactly. -/
theorem statusStr_facts (st : MatchStatus) :
    (∀ c ∈ statusStr st, c ≠ ',' ∧ c ≠ '\n') ∧
    trimChars (statusStr st) = statusStr st ∧
    parseStatus (statusStr st) = st := by
  cases st <;> exact ⟨by decide, by decide, by decide⟩

/-- Structure eta for strings. -/
theorem stringMk_data (s : String) : String.mk s.data = s := rfl

/-- Characters of a `joinSep` are the separator or characters of a piece. -/
theorem mem_joinSep (sep : Char) :
    ∀ (xss : List (List Char)) (c : Char),
      c ∈ joinSep sep xss → c = sep ∨ ∃ xs ∈ xss, c ∈ xs := by
  intro xss
  induction xss with
  | nil => intro c hc; exact absurd hc (List.not_mem_nil c)
  | cons x ys ih =>
    intro c hc
    cases ys with
    | nil => exact Or.inr ⟨x, List.mem_cons_self _ _, hc⟩
    | cons y zs =>
      rcases List.mem_append.mp hc with hx | hrest
      · exact Or.inr ⟨x, List.mem_cons_self _ _, hx⟩
      · rcases List.mem_cons.mp hrest with rfl | htail
        · exact Or.inl rfl
        · rcases ih c htail with hsep | ⟨xs, hxs, hcx⟩
          · exact Or.inl hsep
          · exact Or.inr ⟨xs, List.mem_cons_of_mem _ hxs, hcx⟩

/-- `trim` keeps a list nonempty when its head is not whitespace. -/
theorem trimChars_ne_nil (l : List Char) (c : Char)
    (hc : l.head? = some c) (hsp : isSpaceChar c = false) :
    trimChars l ≠ [] := by
  cases l with
  | nil => cases hc
  | cons a t =>
    injection hc with e
    exact trim_ne_nil_of_head _ a t rfl (by rw [e]; exact hsp)

/-- Splitting consumes a separator-free chunk up to the next separator. -/
theorem splitOnChar_chunk (sep : Char) (xs rest : List Char)
    (h : ∀ c ∈ xs, c ≠ sep) :
    splitOnChar sep (xs ++ sep :: rest) = xs :: splitOnChar sep rest := by
  rw [splitOnChar, splitOnChar,
    splitOnAux_no_sep sep xs [] (sep :: rest) h, splitOnAux]
  rw [if_pos rfl, List.append_nil, List.reverse_reverse]

/-- Splitting a separator-free list yields the single piece. -/
theorem splitOnChar_no_sep (sep : Char) (xs : List Char)
    (h : ∀ c ∈ xs, c ≠ sep) : splitOnChar sep xs = [xs] := by
  have h2 := splitOnAux_no_sep sep xs [] [] h
  rw [List.append_nil] at h2
  rw [splitOnChar, h2, splitOnAux, List.append_nil, List.reverse_reverse]

/-- A saved CSV row parses back to exactly the match it came from. -/
theorem parseMatchLine_matchFields (m : BracketMatch) (hm : goodMatch m) :
    parseMatchLine (joinSep ',' (matchFields m)) = some m := by
  obtain ⟨⟨hp1c, hp1t⟩, hp1id, ⟨hp2c, hp2t⟩, hp2id, ⟨hd1c, hd1t⟩, ⟨hd2c, hd2t⟩,
    hwne, ⟨hwc, hwt⟩, hwid, hwdne, ⟨hwdc, hwdt⟩⟩ := hm
  have hsplit : splitOnChar ',' (joinSep ',' (matchFields m)) = matchFields m := by
    refine splitOn_joinSep ',' (matchFields m) (by rw [matchFields]; simp) ?_
    intro xs hxs c hc
    rw [matchFields] at hxs
    simp only [List.mem_cons, List.not_mem_nil, or_false] at hxs
    rcases hxs with rfl | rfl | rfl | rfl | rfl | rfl | rfl | rfl | rfl | rfl | rfl
    · exact ((natToChars_facts m.round).1 c hc).2.2.1
    · exact ((natToChars_facts m.matchId).1 c hc).2.2.1
    · exact (hp1c c hc).1
    · exact (hp2c c hc).1
    · exact (hd1c c hc).1
    · exact (hd2c c hc).1
    · exact ((natToChars_facts m.p1wins).1 c hc).2.2.1
    · exact ((natToChars_facts m.p2wins).1 c hc).2.2.1
    · exact ((statusStr_facts m.status).1 c hc).1
    · exact (hwc c hc).1
    · exact (hwdc c hc).1
  have hmap : (matchFields m).map trimChars = matchFields m := by
    rw [matchFields]
    simp only [List.map_cons, List.map_nil]
    rw [(natToChars_facts m.round).2.1, (natToChars_facts m.matchId).2.1,
      hp1t, hp2t, hd1t, hd2t, (natToChars_facts m.p1wins).2.1,
      (natToChars_facts m.p2wins).2.1, (statusStr_facts m.status).2.1, hwt, hwdt]
  have hwinner : (if (m.winner.getD "").data = [] then (none : Option String)
      else some (toID (m.winner.getD ""))) = m.winner := by
    cases hw : m.winner with
    | none => rfl
    | some w =>
      rw [hw] at hwne hwid
      simp only [Option.getD_some] at hwid ⊢
      have hne : ¬(w.data = []) := fun hdata => hwne (by
        rw [show w = String.mk w.data from rfl, hdata])
      rw [if_neg hne, hwid]
  have hwd : (if (m.winnerDisplay.getD "").data = [] then (none : Option String)
      else some (m.winnerDisplay.getD "")) = m.winnerDisplay := by
    cases hw : m.winnerDisplay with
    | none => rfl
    | some w =>
      rw [hw] at hwdne
      simp only [Option.getD_some]
      have hne : ¬(w.data = []) := fun hdata => hwdne (by
        rw [show w = String.mk w.data from rfl, hdata])
      rw [if_neg hne]
  have e0 : ∀ (x0 x1 x2 x3 x4 x5 x6 x7 x8 x9 x10 : List Char),
      ([x0,x1,x2,x3,x4,x5,x6,x7,x8,x9,x10] : List (List Char)).getD 0 [] = x0 :=
    fun _ _ _ _ _ _ _ _ _ _ _ => rfl
  have e1 : ∀ (x0 x1 x2 x3 x4 x5 x6 x7 x8 x9 x10 : List Char),
      ([x0,x1,x2,x3,x4,x5,x6,x7,x8,x9,x10] : List (List Char)).getD 1 [] = x1 :=
    fun _ _ _ _ _ _ _ _ _ _ _ => rfl
  have e2 : ∀ (x0 x1 x2 x3 x4 x5 x6 x7 x8 x9 x10 : List Char),
      ([x0,x1,x2,x3,x4,x5,x6,x7,x8,x9,x10] : List (List Char)).getD 2 [] = x2 :=
    fun _ _ _ _ _ _ _ _ _ _ _ => rfl
  have e3 : ∀ (x0 x1 x2 x3 x4 x5 x6 x7 x8 x9 x10 : List Char),
      ([x0,x1,x2,x3,x4,x5,x6,x7,x8,x9,x10] : List (List Char)).getD 3 [] = x3 :=
    fun _ _ _ _ _ _ _ _ _ _ _ => rfl
  have e4 : ∀ (x0 x1 x2 x3 x4 x5 x6 x7 x8 x9 x10 : List Char),
      ([x0,x1,x2,x3,x4,x5,x6,x7,x8,x9,x10] : List (List Char)).getD 4 [] = x4 :=
    fun _ _ _ _ _ _ _ _ _ _ _ => rfl
  have e5 : ∀ (x0 x1 x2 x3 x4 x5 x6 x7 x8 x9 x10 : List Char),
      ([x0,x1,x2,x3,x4,x5,x6,x7,x8,x9,x10] : List (List Char)).getD 5 [] = x5 :=
    fun _ _ _ _ _ _ _ _ _ _ _ => rfl
  have e6 : ∀ (x0 x1 x2 x3 x4 x5 x6 x7 x8 x9 x10 : List Char),
      ([x0,x1,x2,x3,x4,x5,x6,x7,x8,x9,x10] : List (List Char)).getD 6 [] = x6 :=
    fun _ _ _ _ _ _ _ _ _ _ _ => rfl
  have e7 : ∀ (x0 x1 x2 x3 x4 x5 x6 x7 x8 x9 x10 : List Char),
      ([x0,x1,x2,x3,x4,x5,x6,x7,x8,x9,x10] : List (List Char)).getD 7 [] = x7 :=
    fun _ _ _ _ _ _ _ _ _ _ _ => rfl
  have e8 : ∀ (x0 x1 x2 x3 x4 x5 x6 x7 x8 x9 x10 : List Char),
      ([x0,x1,x2,x3,x4,x5,x6,x7,x8,x9,x10] : List (List Char)).getD 8 [] = x8 :=
    fun _ _ _ _ _ _ _ _ _ _ _ => rfl
  have e9 : ∀ (x0 x1 x2 x3 x4 x5 x6 x7 x8 x9 x10 : List Char),
      ([x0,x1,x2,x3,x4,x5,x6,x7,x8,x9,x10] : List (List Char)).getD 9 [] = x9 :=
    fun _ _ _ _ _ _ _ _ _ _ _ => rfl
  have e10 : ∀ (x0 x1 x2 x3 x4 x5 x6 x7 x8 x9 x10 : List Char),
      ([x0,x1,x2,x3,x4,x5,x6,x7,x8,x9,x10] : List (List Char)).getD 10 [] = x10 :=
    fun _ _ _ _ _ _ _ _ _ _ _ => rfl
  rw [parseMatchLine]
  simp only [hsplit, hmap]
  have hlen : (11 : Nat) ≤ (matchFields m).length := by
    rw [matchFields]; simp
  rw [if_pos hlen, matchFields]
  simp only [e0, e1, e2, e3, e4, e5, e6, e7, e8, e9, e10]
  rw [parseIntJS_natToChars m.round, parseIntJS_natToChars m.matchId]
  simp only []
  rw [parseIntJS_natToChars m.p1wins, parseIntJS_natToChars m.p2wins]
  simp only [Option.getD_some, stringMk_data]
  rw [hp1id, hp2id, (statusStr_facts m.status).2.2, hwinner, hwd]

/-- All saved rows parse back to the match list they came from. -/
theorem mapM_parseMatchLine (ms : List BracketMatch)
    (h : ∀ m ∈ ms, goodMatch m) :
    (ms.map fun m => joinSep ',' (matchFields m)).mapM parseMatchLine
      = some ms := by
  induction ms with
  | nil => rfl
  | cons m rest ih =>
    rw [List.map_cons, List.mapM_cons,
      parseMatchLine_matchFields m (h m (List.mem_cons_self _ _)),
      ih (fun x hx => h x (List.mem_cons_of_mem _ hx))]
    rfl

/-- A saved row contains no newline characters. -/
theorem matchRow_no_nl (m : BracketMatch) (hm : goodMatch m) :
    ∀ c ∈ joinSep ',' (matchFields m), c ≠ '\n' := by
  obtain ⟨⟨hp1c, _⟩, _, ⟨hp2c, _⟩, _, ⟨hd1c, _⟩, ⟨hd2c, _⟩,
    _, ⟨hwc, _⟩, _, _, ⟨hwdc, _⟩⟩ := hm
  intro c hc
  rcases mem_joinSep ',' (matchFields m) c hc with rfl | ⟨xs, hxs, hcx⟩
  · decide
  · rw [matchFields] at hxs
    simp only [List.mem_cons, List.not_mem_nil, or_false] at hxs
    rcases hxs with rfl | rfl | rfl | rfl | rfl | rfl | rfl | rfl | rfl | rfl | rfl
    · exact ((natToChars_facts m.round).1 c hcx).2.2.2.1
    · exact ((natToChars_facts m.matchId).1 c hcx).2.2.2.1
    · exact (hp1c c hcx).2
    · exact (hp2c c hcx).2
    · exact (hd1c c hcx).2
    · exact (hd2c c hcx).2
    · exact ((natToChars_facts m.p1wins).1 c hcx).2.2.2.1
    · exact ((natToChars_facts m.p2wins).1 c hcx).2.2.2.1
    · exact ((statusStr_facts m.status).1 c hcx).2
    · exact (hwc c hcx).2
    · exact (hwdc c hcx).2

/-- A saved row does not trim to the empty line. -/
theorem matchRow_trim_ne_nil (m : BracketMatch) :
    trimChars (joinSep ',' (matchFields m)) ≠ [] := by
  have hj : joinSep ',' (matchFields m)
      = natToChars m.round ++ ',' :: joinSep ','
        [natToChars m.matchId, m.player1.data, m.player2.data,
         m.player1Display.data, m.player2Display.data, natToChars m.p1wins,
         natToChars m.p2wins, statusStr m.status, (m.winner.getD "").data,
         (m.winnerDisplay.getD "").data] := by
    rw [matchFields, joinSep]
  rw [hj]
  cases hn : natToChars m.round with
  | nil => exact absurd hn (natToChars_facts m.round).2.2
  | cons d ds =>
    rw [List.cons_append]
    have hd : d ∈ natToChars m.round := by
      rw [hn]; exact List.mem_cons_self _ _
    exact trimChars_ne_nil _ d rfl ((natToChars_facts m.round).1 d hd).2.1

/-- The metadata line contains no newline characters. -/
theorem csvMeta_no_nl (s : BracketState)
    (hfmtc : ∀ c ∈ s.format.data, c ≠ ',' ∧ c ≠ '\n') :
    ∀ c ∈ csvMeta s, c ≠ '\n' := by
  intro c hc
  rw [csvMeta] at hc
  simp only [List.mem_append] at hc
  rcases hc with ((((((h1 | h2) | h3) | h4) | h5) | h6) | h7) | h8
  · exact (by decide : ∀ x ∈ "# format=".data, x ≠ '\n') c h1
  · exact (hfmtc c h2).2
  · exact (by decide : ∀ x ∈ ",bestOf=".data, x ≠ '\n') c h3
  · exact ((natToChars_facts s.bestOf).1 c h4).2.2.2.1
  · exact (by decide : ∀ x ∈ ",participants=".data, x ≠ '\n') c h5
  · exact ((natToChars_facts s.participants).1 c h6).2.2.2.1
  · exact (by decide : ∀ x ∈ ",frozen=".data, x ≠ '\n') c h7
  · cases hsf : s.frozen <;> rw [hsf] at h8
    · exact (by decide : ∀ x ∈ "false".data, x ≠ '\n') c (by simpa using h8)
    · exact (by decide : ∀ x ∈ "true".data, x ≠ '\n') c (by simpa using h8)

/-- The metadata line does not trim to the empty line. -/
theorem csvMeta_trim_ne_nil (s : BracketState) : trimChars (csvMeta s) ≠ [] :=
  trimChars_ne_nil _ '#' rfl (by decide)

/-- Facts about the stored `frozen` field value. -/
theorem frozenStr_facts (b : Bool) :
    (∀ c ∈ (if b then "true".data else "false".data),
      c ≠ ',' ∧ c ≠ '\n' ∧ c ≠ '=' ∧ isSpaceChar c = false) ∧
    (if b then "true".data else "false".data).getLast? = some 'e' ∧
    trimChars (if b then "true".data else "false".data)
      = (if b then "true".data else "false".data) ∧
    decide ((if b then "true".data else "false".data) = "true".data) = b := by
  cases b <;> exact ⟨by decide, by decide, by decide, by decide⟩

/-- `getLast?` sees through a front append. -/
theorem getLast?_append_last (l tail : List Char) (c : Char)
    (h : tail.getLast? = some c) : (l ++ tail).getLast? = some c := by
  rw [List.getLast?_append_of_ne_nil _ (fun hn => by rw [hn] at h; cases h)]
  exact h

/-- `getLast?` sees through a front cons. -/
theorem getLast?_cons_last (a : Char) (l : List Char) (c : Char)
    (h : l.getLast? = some c) : (a :: l).getLast? = some c :=
  getLast?_append_last [a] l c h

/-- The metadata line decomposed into its leading `# ` and its
comma-joined `key=value` body. -/
theorem csvMeta_decomp (s : BracketState) :
    csvMeta s = '#' :: ' ' :: joinSep ','
      ["format=".data ++ s.format.data,
       "bestOf=".data ++ natToChars s.bestOf,
       "participants=".data ++ natToChars s.participants,
       "frozen=".data ++ (if s.frozen then "true".data else "false".data)] := by
  rw [csvMeta]
  simp only [List.append_assoc]
  rfl

/-- Trimming the metadata body drops exactly the space after `#`. -/
theorem metaBody_trim (s : BracketState) :
    trimChars (' ' :: joinSep ','
      ["format=".data ++ s.format.data,
       "bestOf=".data ++ natToChars s.bestOf,
       "participants=".data ++ natToChars s.participants,
       "frozen=".data ++ (if s.frozen then "true".data else "false".data)])
    = joinSep ','
      ["format=".data ++ s.format.data,
       "bestOf=".data ++ natToChars s.bestOf,
       "participants=".data ++ natToChars s.participants,
       "frozen=".data ++ (if s.frozen then "true".data else "false".data)] := by
  have hlastB : (joinSep ','
      ["format=".data ++ s.format.data,
       "bestOf=".data ++ natToChars s.bestOf,
       "participants=".data ++ natToChars s.participants,
       "frozen=".data ++ (if s.frozen then "true".data else "false".data)]).getLast?
      = some 'e' := by
    rw [show joinSep ','
        ["format=".data ++ s.format.data,
         "bestOf=".data ++ natToChars s.bestOf,
         "participants=".data ++ natToChars s.participants,
         "frozen=".data ++ (if s.frozen then "true".data else "false".data)]
      = ("format=".data ++ s.format.data) ++ ',' ::
        (("bestOf=".data ++ natToChars s.bestOf) ++ ',' ::
          (("participants=".data ++ natToChars s.participants) ++ ',' ::
            ("frozen=".data ++ (if s.frozen then "true".data else "false".data))))
      from rfl]
    exact getLast?_append_last _ _ _ (getLast?_cons_last _ _ _
      (getLast?_append_last _ _ _ (getLast?_cons_last _ _ _
        (getLast?_append_last _ _ _ (getLast?_cons_last _ _ _
          (getLast?_append_last _ _ _ (frozenStr_facts s.frozen).2.1))))))
  rw [trimChars, List.dropWhile_cons]
  rw [if_pos (by decide : isSpaceChar ' ' = true)]
  rw [dropWhile_eq_self_of_head isSpaceChar (joinSep ','
      ["format=".data ++ s.format.data,
       "bestOf=".data ++ natToChars s.bestOf,
       "participants=".data ++ natToChars s.participants,
       "frozen=".data ++ (if s.frozen then "true".data else "false".data)])
    (fun c hc => by injection hc with e; rw [← e]; decide)]
  rw [dropWhile_eq_self_of_head isSpaceChar (joinSep ','
      ["format=".data ++ s.format.data,
       "bestOf=".data ++ natToChars s.bestOf,
       "participants=".data ++ natToChars s.participants,
       "frozen=".data ++ (if s.frozen then "true".data else "false".data)]).reverse
    (fun c hc => by
      rw [List.head?_reverse, hlastB] at hc
      injection hc with e
      rw [← e]; decide)]
  rw [List.reverse_reverse]

/-- Evaluating the loader's metadata fold over the four saved
`key=value` parts recovers exactly the saved settings. -/
theorem metaFold_eval (s prior : BracketState)
    (hfmtc : ∀ c ∈ s.format.data, c ≠ ',' ∧ c ≠ '\n')
    (hfmtt : trimChars s.format.data = s.format.data)
    (hfe : ∀ c ∈ s.format.data, c ≠ '=') :
    (splitOnChar ',' (joinSep ','
      ["format=".data ++ s.format.data,
       "bestOf=".data ++ natToChars s.bestOf,
       "participants=".data ++ natToChars s.participants,
       "frozen=".data ++ (if s.frozen then "true".data else "false".data)])).foldl
      (fun (st : BracketState) part =>
        let kv := (splitOnChar '=' part).map trimChars
        let key := kv.getD 0 []
        let value := kv.getD 1 []
        let st := if key = "format".data
          then { st with format := String.mk value } else st
        let st := if key = "bestOf".data
          then { st with bestOf := (parseIntJS value).getD 0 } else st
        let st := if key = "participants".data
          then { st with participants := (parseIntJS value).getD 0 }
          else st
        if key = "frozen".data
          then { st with frozen := value = "true".data } else st) prior
    = { prior with
        format := s.format, bestOf := s.bestOf,
        participants := s.participants, frozen := s.frozen } := by
  have hsp : splitOnChar ',' (joinSep ','
      ["format=".data ++ s.format.data,
       "bestOf=".data ++ natToChars s.bestOf,
       "participants=".data ++ natToChars s.participants,
       "frozen=".data ++ (if s.frozen then "true".data else "false".data)])
      = ["format=".data ++ s.format.data,
         "bestOf=".data ++ natToChars s.bestOf,
         "participants=".data ++ natToChars s.participants,
         "frozen=".data ++ (if s.frozen then "true".data else "false".data)] := by
    refine splitOn_joinSep ',' _ (by simp) ?_
    intro xs hxs c hc
    simp only [List.mem_cons, List.not_mem_nil, or_false] at hxs
    rcases hxs with rfl | rfl | rfl | rfl
    · rcases List.mem_append.mp hc with h1 | h2
      · exact (by decide : ∀ x ∈ "format=".data, x ≠ ',') c h1
      · exact (hfmtc c h2).1
    · rcases List.mem_append.mp hc with h1 | h2
      · exact (by decide : ∀ x ∈ "bestOf=".data, x ≠ ',') c h1
      · exact ((natToChars_facts s.bestOf).1 c h2).2.2.1
    · rcases List.mem_append.mp hc with h1 | h2
      · exact (by decide : ∀ x ∈ "participants=".data, x ≠ ',') c h1
      · exact ((natToChars_facts s.participants).1 c h2).2.2.1
    · rcases List.mem_append.mp hc with h1 | h2
      · exact (by decide : ∀ x ∈ "frozen=".data, x ≠ ',') c h1
      · exact ((frozenStr_facts s.frozen).1 c h2).1
  have hkv1 : (splitOnChar '=' ("format=".data ++ s.format.data)).map trimChars
      = ["format".data, s.format.data] := by
    rw [show "format=".data ++ s.format.data
        = "format".data ++ '=' :: s.format.data from rfl,
      splitOnChar_chunk '=' _ _ (by decide),
      splitOnChar_no_sep '=' _ hfe,
      List.map_cons, List.map_cons, List.map_nil,
      (show trimChars "format".data = "format".data from by decide), hfmtt]
  have hkv2 : (splitOnChar '='
        ("bestOf=".data ++ natToChars s.bestOf)).map trimChars
      = ["bestOf".data, natToChars s.bestOf] := by
    rw [show "bestOf=".data ++ natToChars s.bestOf
        = "bestOf".data ++ '=' :: natToChars s.bestOf from rfl,
      splitOnChar_chunk '=' _ _ (by decide),
      splitOnChar_no_sep '=' _
        (fun c hc => ((natToChars_facts s.bestOf).1 c hc).2.2.2.2),
      List.map_cons, List.map_cons, List.map_nil,
      (show trimChars "bestOf".data = "bestOf".data from by decide),
      (natToChars_facts s.bestOf).2.1]
  have hkv3 : (splitOnChar '='
        ("participants=".data ++ natToChars s.participants)).map trimChars
      = ["participants".data, natToChars s.participants] := by
    rw [show "participants=".data ++ natToChars s.participants
        = "participants".data ++ '=' :: natToChars s.participants from rfl,
      splitOnChar_chunk '=' _ _ (by decide),
      splitOnChar_no_sep '=' _
        (fun c hc => ((natToChars_facts s.participants).1 c hc).2.2.2.2),
      List.map_cons, List.map_cons, List.map_nil,
      (show trimChars "participants".data = "participants".data from by decide),
      (natToChars_facts s.participants).2.1]
  have hkv4 : (splitOnChar '=' ("frozen=".data
        ++ (if s.frozen then "true".data else "false".data))).map trimChars
      = ["frozen".data, if s.frozen then "true".data else "false".data] := by
    rw [show "frozen=".data ++ (if s.frozen then "true".data else "false".data)
        = "frozen".data ++ '=' ::
          (if s.frozen then "true".data else "false".data) from rfl,
      splitOnChar_chunk '=' _ _ (by decide),
      splitOnChar_no_sep '=' _
        (fun c hc => ((frozenStr_facts s.frozen).1 c hc).2.2.1),
      List.map_cons, List.map_cons, List.map_nil,
      (show trimChars "frozen".data = "frozen".data from by decide),
      (frozenStr_facts s.frozen).2.2.1]
  have g0 : ∀ (a b : List Char), ([a, b] : List (List Char)).getD 0 [] = a :=
    fun _ _ => rfl
  have g1 : ∀ (a b : List Char), ([a, b] : List (List Char)).getD 1 [] = b :=
    fun _ _ => rfl
  set f := (fun (st : BracketState) part =>
    let kv := (splitOnChar '=' part).map trimChars
    let key := kv.getD 0 []
    let value := kv.getD 1 []
    let st := if key = "format".data
      then { st with format := String.mk value } else st
    let st := if key = "bestOf".data
      then { st with bestOf := (parseIntJS value).getD 0 } else st
    let st := if key = "participants".data
      then { st with participants := (parseIntJS value).getD 0 }
      else st
    if key = "frozen".data
      then { st with frozen := value = "true".data } else st) with hf
  have s1 : f prior ("format=".data ++ s.format.data)
      = { prior with format := s.format } := by
    rw [hf]
    simp only []
    rw [hkv1]
    simp only [g0, g1]
    simp [stringMk_data]
  have s2 : f { prior with format := s.format }
      ("bestOf=".data ++ natToChars s.bestOf)
      = { prior with format := s.format, bestOf := s.bestOf } := by
    rw [hf]
    simp only []
    rw [hkv2]
    simp only [g0, g1]
    simp [parseIntJS_natToChars]
  have s3 : f { prior with format := s.format, bestOf := s.bestOf }
      ("participants=".data ++ natToChars s.participants)
      = { prior with
          format := s.format, bestOf := s.bestOf,
          participants := s.participants } := by
    rw [hf]
    simp only []
    rw [hkv3]
    simp only [g0, g1]
    simp [parseIntJS_natToChars]
  have s4 : f { prior with
        format := s.format, bestOf := s.bestOf,
        participants := s.participants }
      ("frozen=".data ++ (if s.frozen then "true".data else "false".data))
      = { prior with
          format := s.format, bestOf := s.bestOf,
          participants := s.participants, frozen := s.frozen } := by
    rw [hf]
    simp only []
    rw [hkv4]
    simp only [g0, g1]
    cases hsf : s.frozen <;> simp [hsf]
  rw [hsp, List.foldl_cons, List.foldl_cons, List.foldl_cons, List.foldl_cons,
    List.foldl_nil, s1, s2, s3, s4]

/-- Splitting the saved file on newlines and dropping blank lines yields
exactly the metadata line, the header line, and the match rows. -/
theorem saveLines_eval (s : BracketState) (hs : saveFriendly s) :
    (splitOnChar '\n' (saveToCSV s).data).filter
        (fun l => !(trimChars l).isEmpty)
      = csvMeta s :: csvHeader
        :: s.matchList.map (fun m => joinSep ',' (matchFields m)) := by
  obtain ⟨hml, _, ⟨hfmtc, _⟩, _, hgm⟩ := hs
  have hrne : s.matchList.map (fun m => joinSep ',' (matchFields m)) ≠ [] :=
    fun h => hml (List.map_eq_nil.mp h)
  have hdata : (saveToCSV s).data
      = csvMeta s ++ ('\n' :: csvHeader) ++ ('\n'
        :: joinSep '\n' (s.matchList.map fun m => joinSep ',' (matchFields m)))
      := by rw [saveToCSV]
  rcases List.exists_cons_of_ne_nil hrne with ⟨r, rs, hr⟩
  have hj2 : joinSep '\n' (csvMeta s :: csvHeader :: r :: rs)
      = csvMeta s ++ '\n' :: (csvHeader ++ '\n' :: joinSep '\n' (r :: rs)) := by
    rw [joinSep, joinSep]
  have hjoin : csvMeta s ++ ('\n' :: csvHeader) ++ ('\n'
        :: joinSep '\n' (s.matchList.map fun m => joinSep ',' (matchFields m)))
      = joinSep '\n' (csvMeta s :: csvHeader
          :: s.matchList.map fun m => joinSep ',' (matchFields m)) := by
    rw [hr, hj2, List.append_assoc, List.cons_append]
  rw [hdata, hjoin]
  rw [splitOn_joinSep '\n' _ (by simp) ?_]
  · refine List.filter_eq_self.mpr ?_
    intro l hl
    have hne : trimChars l ≠ [] := by
      rcases List.mem_cons.mp hl with rfl | hl2
      · exact csvMeta_trim_ne_nil s
      · rcases List.mem_cons.mp hl2 with rfl | hl3
        · decide
        · rcases List.mem_map.mp hl3 with ⟨m, _, rfl⟩
          exact matchRow_trim_ne_nil m
    cases ht : trimChars l with
    | nil => exact absurd ht hne
    | cons a t => rfl
  · intro xs hxs c hc
    rcases List.mem_cons.mp hxs with rfl | hxs2
    · exact csvMeta_no_nl s hfmtc c hc
    · rcases List.mem_cons.mp hxs2 with rfl | hxs3
      · exact (by decide : ∀ x ∈ csvHeader, x ≠ '\n') c hc
      · rcases List.mem_map.mp hxs3 with ⟨m, hmem, rfl⟩
        exact matchRow_no_nl m (hgm m hmem) c hc

/-- Loading a saved bracket (metadata header) restores the saved state:
the metadata and the match list survive exactly, while `currentRound`,
`playerMatches` and `displayNames` are recomputed from the rows and
`initialized` is set. -/
theorem loadFromCSV_saveToCSV (s prior : BracketState)
    (cfgFormat : String) (cfgBestOf : Nat) (hs : saveFriendly s) :
    loadFromCSV prior cfgFormat cfgBestOf (saveToCSV s) =
      some { s with
        currentRound := loadCurrentRound s.matchList,
        playerMatches := loadPlayerMatches s.matchList,
        displayNames := loadDisplayNames s.matchList,
        initialized := true } := by
  obtain ⟨hml, hpart, ⟨hfmtc, hfmtt⟩, hfe, hgm⟩ := hs
  have hlines := saveLines_eval s ⟨hml, hpart, ⟨hfmtc, hfmtt⟩, hfe, hgm⟩
  have hrne : s.matchList.map (fun m => joinSep ',' (matchFields m)) ≠ [] :=
    fun h => hml (List.map_eq_nil.mp h)
  have hne : ¬((saveToCSV s).data = []) := by
    rw [saveToCSV]
    intro h
    rcases List.append_eq_nil.mp h with ⟨_, h2⟩
    exact List.cons_ne_nil _ _ h2
  rw [loadFromCSV, if_neg hne]
  rw [hlines]
  simp only []
  rw [if_neg (show ¬((csvMeta s :: csvHeader
      :: s.matchList.map fun m => joinSep ',' (matchFields m)).length < 3) from by
    have h0 : 0 < (s.matchList.map fun m => joinSep ',' (matchFields m)).length :=
      List.length_pos.mpr hrne
    simp only [List.length_cons]
    omega)]
  rw [show (csvMeta s :: csvHeader
      :: s.matchList.map fun m => joinSep ',' (matchFields m)).getD 0 []
      = csvMeta s from rfl]
  rw [show (csvMeta s :: csvHeader
      :: s.matchList.map fun m => joinSep ',' (matchFields m)).drop 2
      = s.matchList.map fun m => joinSep ',' (matchFields m) from rfl]
  rw [csvMeta_decomp s]
  simp only []
  rw [metaBody_trim s]
  rw [metaFold_eval s prior hfmtc hfmtt hfe]
  simp only []
  rw [mapM_parseMatchLine s.matchList hgm]
  simp only []
  rw [if_neg (Nat.pos_iff_ne_zero.mp hpart)]

/-- C7 counterexample: after initializing a four-player bracket and
recording one win, the winner waits in the round-2 final and
`currentRound` is still 1; saving and loading recomputes `currentRound`
as the highest round with a non-pending match, here 2, so the loaded
state is not identical to the saved one. -/
theorem loadFromCSV_c7_counterexample :
    c7State.currentRound = 1 ∧
    (loadFromCSV initialBracketState "x" 0 (saveToCSV c7State)).map
      (fun st => st.currentRound) = some 2 ∧
    loadFromCSV initialBracketState "x" 0 (saveToCSV c7State)
      ≠ some c7State :=
  ⟨by decide, by decide, by decide⟩

/-- Loading a headerless (legacy) file takes `format`, `bestOf` and
`frozen` from the supplied defaults, keeps `participants` from the prior
state unless zero, and recomputes the bookkeeping fields from the rows. -/
theorem loadFromCSV_legacy (s prior : BracketState) (cfgFormat : String)
    (cfgBestOf : Nat) (hs : saveFriendly s) (h2 : 2 ≤ s.matchList.length) :
    loadFromCSV prior cfgFormat cfgBestOf
      (String.mk (csvHeader ++ '\n'
        :: joinSep '\n' (s.matchList.map fun m => joinSep ',' (matchFields m))))
      = some { prior with
          format := cfgFormat, bestOf := cfgBestOf, frozen := false,
          matchList := s.matchList,
          currentRound := loadCurrentRound s.matchList,
          playerMatches := loadPlayerMatches s.matchList,
          displayNames := loadDisplayNames s.matchList,
          participants := if prior.participants = 0 then
              (s.matchList.filter fun m => m.round = 1).length * 2
            else prior.participants,
          initialized := true } := by
  obtain ⟨hml, _, _, _, hgm⟩ := hs
  have hrne : s.matchList.map (fun m => joinSep ',' (matchFields m)) ≠ [] :=
    fun h => hml (List.map_eq_nil.mp h)
  rcases List.exists_cons_of_ne_nil hrne with ⟨r, rs, hr⟩
  have hlines2 : (splitOnChar '\n' (String.mk (csvHeader ++ '\n'
        :: joinSep '\n' (s.matchList.map fun m =>
          joinSep ',' (matchFields m)))).data).filter
        (fun l => !(trimChars l).isEmpty)
      = csvHeader :: s.matchList.map (fun m => joinSep ',' (matchFields m)) := by
    have hj2 : joinSep '\n' (csvHeader :: r :: rs)
        = csvHeader ++ '\n' :: joinSep '\n' (r :: rs) := by
      rw [joinSep]
    have hjoin : csvHeader ++ '\n'
          :: joinSep '\n' (s.matchList.map fun m => joinSep ',' (matchFields m))
        = joinSep '\n' (csvHeader
            :: s.matchList.map fun m => joinSep ',' (matchFields m)) := by
      rw [hr, hj2]
    rw [show (String.mk (csvHeader ++ '\n'
        :: joinSep '\n' (s.matchList.map fun m =>
          joinSep ',' (matchFields m)))).data
      = csvHeader ++ '\n' :: joinSep '\n' (s.matchList.map fun m =>
          joinSep ',' (matchFields m)) from rfl, hjoin]
    rw [splitOn_joinSep '\n' _ (by simp) ?_]
    · refine List.filter_eq_self.mpr ?_
      intro l hl
      have hne : trimChars l ≠ [] := by
        rcases List.mem_cons.mp hl with rfl | hl2
        · decide
        · rcases List.mem_map.mp hl2 with ⟨m, _, rfl⟩
          exact matchRow_trim_ne_nil m
      cases ht : trimChars l with
      | nil => exact absurd ht hne
      | cons a t => rfl
    · intro xs hxs c hc
      rcases List.mem_cons.mp hxs with rfl | hxs2
      · exact (by decide : ∀ x ∈ csvHeader, x ≠ '\n') c hc
      · rcases List.mem_map.mp hxs2 with ⟨m, hmem, rfl⟩
        exact matchRow_no_nl m (hgm m hmem) c hc
  have hne2 : ¬((String.mk (csvHeader ++ '\n'
        :: joinSep '\n' (s.matchList.map fun m =>
          joinSep ',' (matchFields m)))).data = []) := by
    intro h
    rcases List.append_eq_nil.mp h with ⟨h1, _⟩
    exact (by decide : csvHeader ≠ []) h1
  rw [loadFromCSV, if_neg hne2]
  rw [hlines2]
  simp only []
  rw [if_neg (show ¬((csvHeader :: s.matchList.map fun m =>
      joinSep ',' (matchFields m)).length < 3) from by
    have hlm : (s.matchList.map fun m =>
        joinSep ',' (matchFields m)).length = s.matchList.length :=
      List.length_map _ _
    simp only [List.length_cons]
    omega)]
  rw [show (csvHeader :: s.matchList.map fun m =>
      joinSep ',' (matchFields m)).getD 0 [] = csvHeader from rfl]
  rw [show (csvHeader :: s.matchList.map fun m =>
      joinSep ',' (matchFields m)).drop 1
      = s.matchList.map fun m => joinSep ',' (matchFields m) from rfl]
  have hcsvcons : csvHeader
      = 'r' :: ("ound,matchId,player1,player2,player1Display,"
        ++ "player2Display,p1wins,p2wins,status,winner,winnerDisplay").data := rfl
  split
  · rename_i heq
    split at heq
    · rename_i rest heq2
      rw [hcsvcons] at heq2
      injection heq2 with hch hrest
      exact absurd hch (by decide)
    · simp only [] at heq
      rw [mapM_parseMatchLine s.matchList hgm] at heq
      exact Option.noConfusion heq
  · rename_i ms heq
    split at heq
    · rename_i rest heq2
      rw [hcsvcons] at heq2
      injection heq2 with hch hrest
      exact absurd hch (by decide)
    · simp only [] at heq
      rw [mapM_parseMatchLine s.matchList hgm] at heq
      injection heq with hms
      subst hms
      simp only []

/-- C7 (amended): for a save-friendly state (nonempty match list, positive
participant count, CSV-safe fields), persisting with `saveToCSV` and
loading with `loadFromCSV` restores `format`, `bestOf`, `participants`,
`frozen` and the exact match list, while `currentRound`, `playerMatches`
and `displayNames` are recomputed from the rows (so the loaded state is
not identical in general) and `initialized` is set; with a legacy header
(no metadata line) and at least two rows, the same holds with `format`,
`bestOf` and `frozen` taken from the supplied defaults and `participants`
kept from the in-memory state unless zero. -/
theorem bracketSave_roundtrip (s prior : BracketState) (cfgFormat : String)
    (cfgBestOf : Nat) (hs : saveFriendly s) :
    (loadFromCSV prior cfgFormat cfgBestOf (saveToCSV s)
      = some { s with
          currentRound := loadCurrentRound s.matchList,
          playerMatches := loadPlayerMatches s.matchList,
          displayNames := loadDisplayNames s.matchList,
          initialized := true })
    ∧ (2 ≤ s.matchList.length →
        loadFromCSV prior cfgFormat cfgBestOf
          (String.mk (csvHeader ++ '\n'
            :: joinSep '\n' (s.matchList.map fun m =>
              joinSep ',' (matchFields m))))
          = some { prior with
              format := cfgFormat, bestOf := cfgBestOf, frozen := false,
              matchList := s.matchList,
              currentRound := loadCurrentRound s.matchList,
              playerMatches := loadPlayerMatches s.matchList,
              displayNames := loadDisplayNames s.matchList,
              participants := if prior.participants = 0 then
                  (s.matchList.filter fun m => m.round = 1).length * 2
                else prior.participants,
              initialized := true }) :=
  ⟨loadFromCSV_saveToCSV s prior cfgFormat cfgBestOf hs,
   fun h2 => loadFromCSV_legacy s prior cfgFormat cfgBestOf hs h2⟩

/-- Witness for the C7 round trip on a reachable concrete state: the
four-player bracket after one recorded win is save-friendly, and both the
metadata and the legacy load restore it up to the recomputed bookkeeping
fields. -/
theorem bracketSave_roundtrip_witness :
    saveFriendly c7State ∧
    ((loadFromCSV initialBracketState "x" 0 (saveToCSV c7State)
      = some { c7State with
          currentRound := loadCurrentRound c7State.matchList,
          playerMatches := loadPlayerMatches c7State.matchList,
          displayNames := loadDisplayNames c7State.matchList,
          initialized := true })
    ∧ (2 ≤ c7State.matchList.length →
        loadFromCSV initialBracketState "x" 0
          (String.mk (csvHeader ++ '\n'
            :: joinSep '\n' (c7State.matchList.map fun m =>
              joinSep ',' (matchFields m))))
          = some { initialBracketState with
              format := "x", bestOf := 0, frozen := false,
              matchList := c7State.matchList,
              currentRound := loadCurrentRound c7State.matchList,
              playerMatches := loadPlayerMatches c7State.matchList,
              displayNames := loadDisplayNames c7State.matchList,
              participants := if initialBracketState.participants = 0 then
                  (c7State.matchList.filter fun m => m.round = 1).length * 2
                else initialBracketState.participants,
              initialized := true })) :=
  ⟨by unfold saveFriendly goodMatch goodField; decide,
   bracketSave_roundtrip c7State initialBracketState "x" 0
     (by unfold saveFriendly goodMatch goodField; decide)⟩
